import Mathlib

/-!
# monlox: the runtime object model and the tree-walking evaluator

The first part embeds `object/object.go`: the `Type` tags with their names, the
nine object variants and their `Type()` / `Inspect()` methods.  The second part
is a model of the evaluator, whose Go source is not part of the sources at hand
and which is therefore written from the specification and from the behaviour
pinned down by `evaluator/evaluator_test.go`.

Conventions of the embedding.
* A Go interface value of type `Object` that may be `nil` is an `Option Object`;
  a method call through a `nil` interface panics, which is the result `none`.
* A `float32` is carried as its bit pattern; its arithmetic and its comparisons
  are those of IEEE-754 binary32, computed on the bit pattern.  The text that
  `fmt` gives it is a field of `Host`.
* An `*Environment` is a handle (an index) into the list of live scopes.
-/

namespace Monlox

/-! ## Host values -/

/-- A Go `float32`, carried as its IEEE-754 bit pattern (a number below `2^32`). -/
structure F32 where
  bits : Nat
deriving DecidableEq, Repr

/-! ## The float32 format and its arithmetic -/

/-- The sign bit of a `float32` (bit 31). -/
def F32.sign (x : F32) : Nat := (x.bits / 2 ^ 31) % 2

/-- The biased exponent of a `float32` (bits 23 to 30). -/
def F32.exponent (x : F32) : Nat := (x.bits / 2 ^ 23) % 256

/-- The fraction field of a `float32` (bits 0 to 22). -/
def F32.fraction (x : F32) : Nat := x.bits % 2 ^ 23

/-- The significand of a `float32` as a whole number: the fraction field of a
subnormal number, and the fraction field under the hidden bit otherwise. -/
def F32.significand (x : F32) : Nat :=
  if x.exponent = 0 then x.fraction else 2 ^ 23 + x.fraction

/-- The significand of a `float32` is scaled by two to the power `scale - 150`. -/
def F32.scale (x : F32) : Nat :=
  if x.exponent = 0 then 1 else x.exponent

/-- The real number that a `float32` holds (IEEE-754 binary32); an infinity and a
NaN hold none. -/
def F32.value (x : F32) : Option ℚ :=
  if x.exponent = 255 then none
  else
    some ((if x.sign = 1 then -1 else 1) *
      ((x.significand * 2 ^ (x.scale - 150) : Nat) : ℚ) / ((2 ^ (150 - x.scale) : Nat) : ℚ))

/-- A `float32` that is a NaN. -/
def F32.isNaN (x : F32) : Bool := x.exponent == 255 && x.fraction != 0

/-- A `float32` that is an infinity. -/
def F32.isInf (x : F32) : Bool := x.exponent == 255 && x.fraction == 0

/-- A `float32` that is a zero (`+0` or `-0`). -/
def F32.isZero (x : F32) : Bool := x.exponent == 0 && x.fraction == 0

/-- The magnitude of a finite `float32` in units of `2 ^ (-149)`, a whole number. -/
def F32.mag (x : F32) : Nat := x.significand * 2 ^ (x.scale - 1)

/-- The value of a finite `float32` in units of `2 ^ (-149)`, a whole number. -/
def F32.int (x : F32) : Int :=
  if x.sign = 1 then -(x.mag : Int) else (x.mag : Int)

/-- The place of a `float32` that is no NaN in the order of the extended real
line: its value in units of `2 ^ (-149)`, and a number beyond every finite value
for an infinity. -/
def F32.ord (x : F32) : Int :=
  if x.exponent = 255 then (if x.sign = 1 then -(2 ^ 150 * 2 ^ 150 : Int) else (2 ^ 150 * 2 ^ 150 : Int))
  else x.int

/-- The canonical NaN. -/
def F32.nan : F32 := ⟨0x7FC00000⟩

/-- The infinity of the given sign. -/
def F32.inf (neg : Bool) : F32 := ⟨(if neg then 2 ^ 31 else 0) + 255 * 2 ^ 23⟩

/-- The zero of the given sign. -/
def F32.zero (neg : Bool) : F32 := ⟨if neg then 2 ^ 31 else 0⟩

/-- The ratio `num / den` in units of `2 ^ (k - 149)`, rounded to the nearest
whole number, a tie to the even one. -/
def roundAt (num den k : Nat) : Nat :=
  let n := num * 2 ^ (149 - k)
  let d := den * 2 ^ (k - 149)
  if d < 2 * (n % d) ∨ (2 * (n % d) = d ∧ (n / d) % 2 = 1) then n / d + 1 else n / d

/-- The least `k' >= k` (among the next `fuel` ones) for which `num / den` is
below `2 ^ 24` units of `2 ^ (k' - 149)`: the unit of the 24-bit significand. -/
def findScale : Nat → Nat → Nat → Nat → Nat
  | 0, _, _, k => k
  | fuel + 1, num, den, k =>
      if num * 2 ^ (149 - k) / (den * 2 ^ (k - 149)) < 2 ^ 24 then k
      else findScale fuel num den (k + 1)

/-- The `float32` nearest to `num / den` (`den` positive) with the given sign,
a tie going to the even significand and a magnitude past the largest finite
value to the infinity: IEEE-754 rounding to nearest. -/
def F32.ofRatio (neg : Bool) (num den : Nat) : F32 :=
  ⟨(if neg then 2 ^ 31 else 0) +
    min (findScale 512 num den 0 * 2 ^ 23 + roundAt num den (findScale 512 num den 0))
      (255 * 2 ^ 23)⟩

/-- The negation `-x` of a `float32`: the sign bit is flipped. -/
def F32.neg (x : F32) : F32 :=
  if x.sign = 1 then ⟨x.bits - 2 ^ 31⟩ else ⟨x.bits + 2 ^ 31⟩

/-- The sum `x + y` of two `float32`. -/
def F32.add (x y : F32) : F32 :=
  if x.isNaN || y.isNaN then F32.nan
  else if x.isInf then (if y.isInf && x.sign != y.sign then F32.nan else F32.inf (x.sign == 1))
  else if y.isInf then F32.inf (y.sign == 1)
  else if x.int + y.int = 0 then F32.zero (x.sign == 1 && y.sign == 1)
  else F32.ofRatio (decide (x.int + y.int < 0)) (x.int + y.int).natAbs (2 ^ 149)

/-- The difference `x - y` of two `float32`. -/
def F32.sub (x y : F32) : F32 := F32.add x (F32.neg y)

/-- The product `x * y` of two `float32`. -/
def F32.mul (x y : F32) : F32 :=
  if x.isNaN || y.isNaN then F32.nan
  else if x.isInf || y.isInf then
    (if x.isZero || y.isZero then F32.nan else F32.inf (x.sign != y.sign))
  else F32.ofRatio (x.sign != y.sign) (x.mag * y.mag) (2 ^ 149 * 2 ^ 149)

/-- The quotient `x / y` of two `float32`. -/
def F32.div (x y : F32) : F32 :=
  if x.isNaN || y.isNaN then F32.nan
  else if x.isInf then (if y.isInf then F32.nan else F32.inf (x.sign != y.sign))
  else if y.isInf then F32.zero (x.sign != y.sign)
  else if y.isZero then (if x.isZero then F32.nan else F32.inf (x.sign != y.sign))
  else F32.ofRatio (x.sign != y.sign) x.mag y.mag

/-- The comparison `x < y` of two `float32`: false when either is a NaN. -/
def F32.lt (x y : F32) : Bool := !x.isNaN && !y.isNaN && decide (x.ord < y.ord)

/-- The comparison `x <= y` of two `float32`: false when either is a NaN. -/
def F32.le (x y : F32) : Bool := !x.isNaN && !y.isNaN && decide (x.ord ≤ y.ord)

/-- The comparison `x > y` of two `float32`. -/
def F32.gt (x y : F32) : Bool := F32.lt y x

/-- The comparison `x >= y` of two `float32`. -/
def F32.ge (x y : F32) : Bool := F32.le y x

/-- The comparison `x == y` of two `float32`: a NaN is equal to nothing, and
`+0` is equal to `-0`. -/
def F32.eq (x y : F32) : Bool := !x.isNaN && !y.isNaN && decide (x.ord = y.ord)

/-- The comparison `x != y` of two `float32`. -/
def F32.ne (x y : F32) : Bool := !F32.eq x y

/-- The conversion `float32(n)` of a natural number, rounded to nearest. -/
def F32.ofNat (n : Nat) : F32 := F32.ofRatio false n 1

/-! ## Syntax tree -/

/-- Modelled from the spec: `ast.Identifier` (package `ast` is missing); a name
together with the source line every node exposes. -/
structure Identifier where
  Line : Int
  Value : String
deriving DecidableEq, Repr

/-- Modelled from the spec: the two short-circuit operators `and` and `or`. -/
inductive LogicalOperator where
  | And | Or
deriving DecidableEq, Repr

mutual
/-- Modelled from the spec: the expression nodes of package `ast` (missing), one
constructor for each expression kind of section 4.1; every node carries its
source line.  Hash literals are left out, see `Eval`. -/
inductive Expression where
  | Ident (Name : Identifier)
  | NumberLiteral (Line : Int) (Value : F32)
  | BooleanLiteral (Line : Int) (Value : Bool)
  | StringLiteral (Line : Int) (Value : String)
  | ArrayLiteral (Line : Int) (Elements : List Expression)
  | Prefix (Line : Int) (Operator : String) (Right : Expression)
  | Infix (Line : Int) (Left : Expression) (Operator : String) (Right : Expression)
  | Logical (Line : Int) (Left : Expression) (Operator : LogicalOperator) (Right : Expression)
  | If (Line : Int) (Condition : Expression) (Consequence : BlockStatement)
      (Alternative : Option BlockStatement)
  | FunctionLiteral (Line : Int) (Parameters : List Identifier) (Body : BlockStatement)
  | Call (Line : Int) (Function : Expression) (Arguments : List Expression)
  | Index (Line : Int) (Left : Expression) (Index : Expression)
/-- Modelled from the spec: the statement nodes of package `ast` (missing). -/
inductive Statement where
  | Let (Line : Int) (Name : Identifier) (Value : Expression)
  | Return (Line : Int) (ReturnValue : Expression)
  | ExpressionStatement (Line : Int) (Expression : Expression)
/-- Modelled from the spec: `ast.BlockStatement` (missing), a braced statement list. -/
inductive BlockStatement where
  | mk (Line : Int) (Statements : List Statement)
end

/-- The statements of a block. -/
def BlockStatement.Statements : BlockStatement → List Statement
  | .mk _ ss => ss

/-! ## object.go -/

/-- The Go declaration `type Type int`. -/
structure ObjectType where
  val : Int
deriving DecidableEq, Repr

/-- The constant `NULL Type = iota`. -/
def NULL : ObjectType := ⟨0⟩
/-- The constant `NUMBER`. -/
def NUMBER : ObjectType := ⟨1⟩
/-- The constant `BOOLEAN`. -/
def BOOLEAN : ObjectType := ⟨2⟩
/-- The constant `STRING`. -/
def STRING : ObjectType := ⟨3⟩
/-- The constant `ARRAY`. -/
def ARRAY : ObjectType := ⟨4⟩
/-- The constant `RETURN`. -/
def RETURN : ObjectType := ⟨5⟩
/-- The constant `FUNCTION`. -/
def FUNCTION : ObjectType := ⟨6⟩
/-- The constant `BUILTIN`. -/
def BUILTIN : ObjectType := ⟨7⟩
/-- The constant `ERROR`. -/
def ERROR : ObjectType := ⟨8⟩

/-- The constants of the `const ( ... )` block of object.go, in declaration order. -/
def definedTypes : List ObjectType :=
  [NULL, NUMBER, BOOLEAN, STRING, ARRAY, RETURN, FUNCTION, BUILTIN, ERROR]

/-- The method `func (t Type) String() string`: a switch over the nine constants
with the fall-through result `""`. -/
def ObjectType.String (t : ObjectType) : String :=
  if t = NULL then "NULL"
  else if t = NUMBER then "NUMBER"
  else if t = BOOLEAN then "BOOLEAN"
  else if t = STRING then "STRING"
  else if t = ARRAY then "ARRAY"
  else if t = RETURN then "RETURN"
  else if t = FUNCTION then "FUNCTION"
  else if t = BUILTIN then "BUILTIN"
  else if t = ERROR then "ERROR"
  else ""

/-- A `BuiltinFunction` value.  Go function values cannot be stored in a
first-order datatype, so a builtin is the entry of the fixed registry (section
4.4 of the specification) that holds its native implementation. -/
inductive BuiltinFunction where
  | len | first | last | rest | push | puts
deriving DecidableEq, Repr

/-- An `*Environment`: the index of a scope among the live scopes. -/
abbrev EnvRef := Nat

/-- The nine struct types of object.go that implement `Object`. -/
inductive Object where
  | Number (Value : F32)
  | Boolean (Value : Bool)
  | Null
  | ReturnValue (Value : Option Object)
  | Error (Message : String) (Line : Int)
  | Function (Parameters : List Identifier) (Body : BlockStatement) (Env : EnvRef)
  | String (Value : String)
  | Builtin (Fn : BuiltinFunction)
  | Array (Elements : List (Option Object))

/-- The functions that object.go and the evaluator take from outside this
repository's sources at hand: `fmt` on a `float32`, the `String()` methods of
package `ast`, and the conversion of a length to a `float32`. -/
structure Host where
  /-- The text `fmt.Sprintf("%v", x)` for a `float32`. -/
  fmtFloat32 : F32 → String
  /-- The method `(*ast.Identifier).String`. -/
  identString : Identifier → String
  /-- The method `(*ast.BlockStatement).String`. -/
  blockString : BlockStatement → String
  /-- The conversion `float32(n)` of a length. -/
  ofNat : Nat → F32

/-- The `Type()` methods: each returns the constant of its receiver's struct. -/
def Object.Type : Object → ObjectType
  | .Number _ => NUMBER
  | .Boolean _ => BOOLEAN
  | .Null => NULL
  | .ReturnValue _ => RETURN
  | .Error _ _ => ERROR
  | .Function _ _ _ => FUNCTION
  | .String _ => STRING
  | .Builtin _ => BUILTIN
  | .Array _ => ARRAY

/-- The text `fmt.Sprintf("%v", b)` for a `bool`. -/
def fmtBool (b : Bool) : String :=
  if b then "true" else "false"

/-- The text `fmt.Sprintf("%d", n)` for an `int`: decimal digits, with a leading
minus sign for a negative number. -/
def fmtInt (n : Int) : String :=
  match n with
  | Int.ofNat m => Nat.repr m
  | Int.negSucc m => "-" ++ Nat.repr (m + 1)

/-- The library function `strings.Join`: nothing for no element, the element for
one, and otherwise the first element followed by each further element with the
separator written before it. -/
def Join (elems : List String) (sep : String) : String :=
  match elems with
  | [] => ""
  | [e] => e
  | e :: rest => rest.foldl (fun out s => out ++ sep ++ s) e

mutual
/-- The `Inspect()` methods, dispatched on the receiver's struct.  The result is
`none` where the Go method panics on a `nil` interface value. -/
def Object.Inspect (H : Host) : Object → Option String
  | .Number v => some (H.fmtFloat32 v)
  | .Boolean v => some (fmtBool v)
  | .Null => some "null"
  | .ReturnValue v => InspectValue H v
  | .Error msg line => some ("ERROR line " ++ fmtInt line ++ ": " ++ msg)
  | .Function params body _ =>
      some ("fn(" ++ Join (params.map H.identString) ", " ++ ") \x7b\n"
        ++ H.blockString body ++ "\n\x7d")
  | .String v => some v
  | .Builtin _ => some "builtin function"
  | .Array elems =>
      match InspectElements H elems with
      | none => none
      | some elements => some ("[" ++ Join elements ", " ++ "]")
/-- A call `v.Inspect()` through an interface value `v`, which panics when `v` is `nil`. -/
def InspectValue (H : Host) : Option Object → Option String
  | none => none
  | some o => o.Inspect H
/-- The loop `for _, e := range a.Elements { elements = append(elements, e.Inspect()) }`. -/
def InspectElements (H : Host) : List (Option Object) → Option (List String)
  | [] => some []
  | e :: es =>
      match InspectValue H e with
      | none => none
      | some s =>
          match InspectElements H es with
          | none => none
          | some ss => some (s :: ss)
end


/-! ## Environment -/

/-- Modelled from the spec: the Environment (its Go file is missing), a scope that
owns its bindings and refers to at most one parent scope. -/
structure Environment where
  store : List (String × Object)
  outer : Option EnvRef

/-- Modelled from the spec: the state an evaluation runs in, namely the live
scopes, addressed by their index, and the texts written to standard output by
`puts`. -/
structure World where
  envs : List Environment
  out : List String

/-- Modelled from the spec: `NewRoot()` creates a parentless scope. -/
def NewEnvironment (w : World) : EnvRef × World :=
  (w.envs.length, ⟨w.envs ++ [⟨[], none⟩], w.out⟩)

/-- Modelled from the spec: `NewChild(parent)` creates the scope of one function call. -/
def NewEnclosedEnvironment (w : World) (outer : EnvRef) : EnvRef × World :=
  (w.envs.length, ⟨w.envs ++ [⟨[], some outer⟩], w.out⟩)

/-- Modelled from the spec: the lookup of `Get` through at most `depth` scopes of
the parent chain. -/
def getFrom (envs : List Environment) : Nat → EnvRef → String → Option Object
  | 0, _, _ => none
  | depth + 1, env, name =>
      match envs.get? env with
      | none => none
      | some e =>
          match e.store.lookup name with
          | some v => some v
          | none =>
              match e.outer with
              | none => none
              | some o => getFrom envs depth o name

/-- Modelled from the spec: `Get(name) -> (value, found)` searches the local
bindings, then the parent chain until it is exhausted; `none` is "not found". -/
def Get (w : World) (env : EnvRef) (name : String) : Option Object :=
  getFrom w.envs w.envs.length env name

/-- Modelled from the spec: the scopes after the scope `env` has bound or
overwritten `name`. -/
def setIn : List Environment → EnvRef → String → Object → List Environment
  | [], _, _, _ => []
  | e :: es, 0, name, val =>
      ⟨(name, val) :: e.store.filter (fun p => p.1 != name), e.outer⟩ :: es
  | e :: es, env + 1, name, val => e :: setIn es env name val

/-- Modelled from the spec: `Set(name, value)` binds or overwrites the name in the
local scope only. -/
def Set (w : World) (env : EnvRef) (name : String) (val : Object) : World :=
  ⟨setIn w.envs env name val, w.out⟩

/-! ## Evaluator -/

/-- Modelled from the spec: the four kinds of node that `Eval` is called on. -/
inductive Node where
  | Program (Statements : List Statement)
  | Statement (s : Statement)
  | Block (b : BlockStatement)
  | Expression (e : Expression)

/-- Modelled from the spec: what an evaluation gives, the object and the state
after it, or `none` when the evaluation did not finish within the given number
of nested `Eval` calls. -/
abbrev Result := Option (Object × World)

/-- Modelled from the spec: an Error carries its message and the line of the node
that triggered it; as evaluator_test.go expects, the message starts with
`on line <n>: `. -/
def newError (line : Int) (msg : String) : Object :=
  .Error ("on line " ++ fmtInt line ++ ": " ++ msg) line

/-- Modelled from the spec: the test that a sub-result is an Error. -/
def isError (o : Object) : Bool :=
  o.Type == ERROR

/-- Modelled from the spec: only `false` and Null are falsy; everything else
(numeric 0 too) is truthy. -/
def isTruthy : Object → Bool
  | .Null => false
  | .Boolean b => b
  | _ => true

/-- Modelled from the spec: at the program level and at a function-call boundary
a ReturnValue is unwrapped back to its inner object. -/
def unwrapReturnValue : Object → Object
  | .ReturnValue (some v) => v
  | o => o

/-- Modelled from the spec: statements are evaluated in order; an Error or a
ReturnValue aborts the remaining statements and is passed on unchanged;
otherwise the value is the last statement's value (`last` when there is none). -/
def evalStatements (ev : Node → EnvRef → World → Result) :
    List Statement → EnvRef → World → Object → Result
  | [], _, w, last => some (last, w)
  | s :: rest, env, w, _ =>
      match ev (.Statement s) env w with
      | none => none
      | some (r, w1) =>
          if r.Type = RETURN ∨ r.Type = ERROR then some (r, w1)
          else evalStatements ev rest env w1 r

/-- Modelled from the spec: a block; the empty block gives Null. -/
def evalBlockStatement (ev : Node → EnvRef → World → Result) (b : BlockStatement)
    (env : EnvRef) (w : World) : Result :=
  evalStatements ev b.Statements env w .Null

/-- Modelled from the spec: a program, evaluated as a block; as
evaluator_test.go expects (`return 10; 9;` gives a Number), a ReturnValue that
reaches the program level is unwrapped. -/
def evalProgram (ev : Node → EnvRef → World → Result) (stmts : List Statement)
    (env : EnvRef) (w : World) : Result :=
  match evalStatements ev stmts env w .Null with
  | none => none
  | some (r, w1) => some (unwrapReturnValue r, w1)

/-- Modelled from the spec: `let` binds the name to the evaluated expression in
the current scope (its own value, which the specification leaves open, is Null);
`return` wraps the evaluated expression in a ReturnValue; an expression
statement has the value of its expression.  An Error is passed on at once. -/
def evalStatement (ev : Node → EnvRef → World → Result) (s : Statement)
    (env : EnvRef) (w : World) : Result :=
  match s with
  | .Let _ name value =>
      match ev (.Expression value) env w with
      | none => none
      | some (v, w1) => if isError v then some (v, w1) else some (.Null, Set w1 env name.Value v)
  | .Return _ value =>
      match ev (.Expression value) env w with
      | none => none
      | some (v, w1) => if isError v then some (v, w1) else some (.ReturnValue (some v), w1)
  | .ExpressionStatement _ e => ev (.Expression e) env w

/-- Modelled from the spec: a list of expressions is evaluated left to right and
aborted at the first Error, which is then the result (`Except.error`). -/
def evalExpressions (ev : Node → EnvRef → World → Result) :
    List Expression → EnvRef → World → Option (Except Object (List Object) × World)
  | [], _, w => some (.ok [], w)
  | e :: rest, env, w =>
      match ev (.Expression e) env w with
      | none => none
      | some (v, w1) =>
          if isError v then some (.error v, w1)
          else
            match evalExpressions ev rest env w1 with
            | none => none
            | some (.error err, w2) => some (.error err, w2)
            | some (.ok vs, w2) => some (.ok (v :: vs), w2)

/-- Modelled from the spec: prefix `!` negates the operand's truthiness; prefix `-`
negates a Number; anything else is an `unknown operator` Error. -/
def evalPrefixExpression (line : Int) (op : String) (right : Object) : Object :=
  if op = "!" then .Boolean (!isTruthy right)
  else if op = "-" then
    match right with
    | .Number v => .Number (F32.neg v)
    | _ => newError line ("unknown operator: -" ++ right.Type.String)
  else newError line ("unknown operator: " ++ op ++ right.Type.String)

/-- Modelled from the spec: the `unknown operator` Error of an infix expression. -/
def unknownOperator (line : Int) (op : String) (left right : Object) : Object :=
  newError line ("unknown operator: " ++ left.Type.String ++ " " ++ op ++ " " ++ right.Type.String)

/-- Modelled from the spec: infix operators.  Operands of different types give a
`type mismatch` Error; two Numbers support `+ - * / < > <= >= == !=`, two
Booleans `==` and `!=`, two Strings `+` and, as evaluator_test.go expects, `==`
and `!=`; every other operator on operands of one type is an `unknown operator`
Error. -/
def evalInfixExpression (line : Int) (op : String) (left right : Object) : Object :=
  if left.Type ≠ right.Type then
    newError line ("type mismatch: " ++ left.Type.String ++ " " ++ op ++ " " ++ right.Type.String)
  else
    match left, right with
    | .Number l, .Number r =>
        if op = "+" then .Number (F32.add l r)
        else if op = "-" then .Number (F32.sub l r)
        else if op = "*" then .Number (F32.mul l r)
        else if op = "/" then .Number (F32.div l r)
        else if op = "<" then .Boolean (F32.lt l r)
        else if op = ">" then .Boolean (F32.gt l r)
        else if op = "<=" then .Boolean (F32.le l r)
        else if op = ">=" then .Boolean (F32.ge l r)
        else if op = "==" then .Boolean (F32.eq l r)
        else if op = "!=" then .Boolean (F32.ne l r)
        else unknownOperator line op left right
    | .Boolean l, .Boolean r =>
        if op = "==" then .Boolean (l == r)
        else if op = "!=" then .Boolean (l != r)
        else unknownOperator line op left right
    | .String l, .String r =>
        if op = "+" then .String (l ++ r)
        else if op = "==" then .Boolean (l == r)
        else if op = "!=" then .Boolean (l != r)
        else unknownOperator line op left right
    | _, _ => unknownOperator line op left right

/-- Modelled from the spec: an index into an Array must be a Number; an index
outside `[0, length)`, a negative one too, gives Null, and so does an index that
holds no real number (an infinity, a NaN); an index inside the range gives the
element at the position that is its whole part.  The text of the Error for any
other pair of operands is not given by the specification. -/
def evalIndexExpression (line : Int) (left index : Object) : Object :=
  match left, index with
  | .Array elems, .Number i =>
      match i.value with
      | none => .Null
      | some q =>
          if q < 0 ∨ (elems.length : ℚ) ≤ q then .Null
          else
            match elems.get? (Int.toNat (Int.floor q)) with
            | some (some v) => v
            | _ => .Null
  | _, _ => newError line ("index operator not supported: " ++ left.Type.String)

/-- Modelled from the spec: the arity Error of a builtin. -/
def wrongNumberOfArguments (line : Int) (expected got : Nat) : Object :=
  newError line ("wrong number of arguments. expected=" ++ Nat.repr expected
    ++ ", got=" ++ Nat.repr got)

/-- Modelled from the spec: the fixed builtin table of section 4.4; each entry
gets the line of the call and the evaluated arguments. -/
def callBuiltin (H : Host) (fn : BuiltinFunction) (line : Int) (args : List Object)
    (w : World) : Object × World :=
  match fn with
  | .len =>
      match args with
      | [.String s] => (.Number (H.ofNat s.length), w)
      | [.Array es] => (.Number (H.ofNat es.length), w)
      | [a] => (newError line ("argument to `len` not supported. got=" ++ a.Type.String), w)
      | _ => (wrongNumberOfArguments line 1 args.length, w)
  | .first =>
      match args with
      | [.Array (some e :: _)] => (e, w)
      | [.Array _] => (.Null, w)
      | [a] => (newError line ("argument to `first` must be ARRAY, got=" ++ a.Type.String), w)
      | _ => (wrongNumberOfArguments line 1 args.length, w)
  | .last =>
      match args with
      | [.Array es] =>
          match es.getLast? with
          | some (some e) => (e, w)
          | _ => (.Null, w)
      | [a] => (newError line ("argument to `last` must be ARRAY, got=" ++ a.Type.String), w)
      | _ => (wrongNumberOfArguments line 1 args.length, w)
  | .rest =>
      match args with
      | [.Array (_ :: es)] => (.Array es, w)
      | [.Array []] => (.Null, w)
      | [a] => (newError line ("argument to `rest` must be ARRAY, got=" ++ a.Type.String), w)
      | _ => (wrongNumberOfArguments line 1 args.length, w)
  | .push =>
      match args with
      | [.Array es, v] => (.Array (es ++ [some v]), w)
      | [a, _] =>
          (newError line ("first argument to `push` must be ARRAY, got=" ++ a.Type.String), w)
      | _ => (wrongNumberOfArguments line 2 args.length, w)
  | .puts =>
      (.Null, ⟨w.envs, w.out ++ args.map (fun a => (a.Inspect H).getD "")⟩)

/-- Modelled from the spec: the fixed name table of the builtins. -/
def builtins (name : String) : Option BuiltinFunction :=
  if name = "len" then some .len
  else if name = "first" then some .first
  else if name = "last" then some .last
  else if name = "rest" then some .rest
  else if name = "push" then some .push
  else if name = "puts" then some .puts
  else none

/-- Modelled from the spec: an identifier is resolved through the scope chain
and then through the builtin table; a name found in neither is an Error. -/
def evalIdentifier (name : Identifier) (env : EnvRef) (w : World) : Object :=
  match Get w env name.Value with
  | some v => v
  | none =>
      match builtins name.Value with
      | some b => .Builtin b
      | none => newError name.Line ("identifier not found: " ++ name.Value)

/-- Modelled from the spec: the parameters are bound positionally to the
arguments in the new scope (a parameter without an argument stays unbound, an
argument without a parameter is ignored). -/
def bindParameters (w : World) (env : EnvRef) : List Identifier → List Object → World
  | p :: ps, a :: as => bindParameters (Set w env p.Value a) env ps as
  | _, _ => w

/-- Modelled from the spec: a call of an evaluated callee on evaluated arguments.
A Function runs its body in a new child scope of its captured scope and the
result is unwrapped; a Builtin runs its native implementation.  The text of the
Error for any other callee is not given by the specification. -/
def applyFunction (H : Host) (ev : Node → EnvRef → World → Result) (line : Int)
    (fn : Object) (args : List Object) (w : World) : Result :=
  match fn with
  | .Function params body fenv =>
      let (child, w1) := NewEnclosedEnvironment w fenv
      match ev (.Block body) child (bindParameters w1 child params args) with
      | none => none
      | some (r, w2) => some (unwrapReturnValue r, w2)
  | .Builtin b => some (callBuiltin H b line args w)
  | _ => some (newError line ("not a function: " ++ fn.Type.String), w)

/-- Modelled from the spec: the expression kinds of section 4.1.  Every composite
expression checks each sub-result and passes an Error on at once, leftmost
first. -/
def evalExpression (H : Host) (ev : Node → EnvRef → World → Result) (e : Expression)
    (env : EnvRef) (w : World) : Result :=
  match e with
  | .Ident name => some (evalIdentifier name env w, w)
  | .NumberLiteral _ v => some (.Number v, w)
  | .BooleanLiteral _ v => some (.Boolean v, w)
  | .StringLiteral _ v => some (.String v, w)
  | .ArrayLiteral _ elems =>
      match evalExpressions ev elems env w with
      | none => none
      | some (.error err, w1) => some (err, w1)
      | some (.ok vs, w1) => some (.Array (vs.map some), w1)
  | .Prefix line op right =>
      match ev (.Expression right) env w with
      | none => none
      | some (r, w1) =>
          if isError r then some (r, w1) else some (evalPrefixExpression line op r, w1)
  | .Infix line left op right =>
      match ev (.Expression left) env w with
      | none => none
      | some (l, w1) =>
          if isError l then some (l, w1)
          else
            match ev (.Expression right) env w1 with
            | none => none
            | some (r, w2) =>
                if isError r then some (r, w2)
                else some (evalInfixExpression line op l r, w2)
  | .Logical _ left op right =>
      match ev (.Expression left) env w with
      | none => none
      | some (l, w1) =>
          if isError l then some (l, w1)
          else if op = LogicalOperator.Or ∧ isTruthy l = true then some (.Boolean true, w1)
          else if op = LogicalOperator.And ∧ isTruthy l = false then some (.Boolean false, w1)
          else
            match ev (.Expression right) env w1 with
            | none => none
            | some (r, w2) =>
                if isError r then some (r, w2) else some (.Boolean (isTruthy r), w2)
  | .If _ cond cons alt =>
      match ev (.Expression cond) env w with
      | none => none
      | some (c, w1) =>
          if isError c then some (c, w1)
          else if isTruthy c then ev (.Block cons) env w1
          else
            match alt with
            | some a => ev (.Block a) env w1
            | none => some (.Null, w1)
  | .FunctionLiteral _ params body => some (.Function params body env, w)
  | .Call line fn args =>
      match ev (.Expression fn) env w with
      | none => none
      | some (f, w1) =>
          if isError f then some (f, w1)
          else
            match evalExpressions ev args env w1 with
            | none => none
            | some (.error err, w2) => some (err, w2)
            | some (.ok vs, w2) => applyFunction H ev line f vs w2
  | .Index line left index =>
      match ev (.Expression left) env w with
      | none => none
      | some (l, w1) =>
          if isError l then some (l, w1)
          else
            match ev (.Expression index) env w1 with
            | none => none
            | some (i, w2) =>
                if isError i then some (i, w2)
                else some (evalIndexExpression line l i, w2)

/-- Modelled from the spec: `Eval(node, env) -> Object` (package evaluator is
missing), a recursive dispatch over the node kinds.  The first argument bounds
the depth of nested `Eval` calls: the Go function recurses without a bound and
a program that calls itself for ever has no result, which here is `none` for
every bound.  Hash literals and hash indexing are not modelled: the Hash object,
its tag and its rendering are declared outside object.go. -/
def Eval (H : Host) : Nat → Node → EnvRef → World → Result
  | 0, _, _, _ => none
  | fuel + 1, node, env, w =>
      match node with
      | .Program stmts => evalProgram (Eval H fuel) stmts env w
      | .Statement s => evalStatement (Eval H fuel) s env w
      | .Block b => evalBlockStatement (Eval H fuel) b env w
      | .Expression e => evalExpression H (Eval H fuel) e env w

/-- Modelled from the spec: the state of a fresh run, the root scope alone and
nothing written. -/
def initialWorld : World :=
  (NewEnvironment ⟨[], []⟩).2

/-- The helper `testEval` of evaluator_test.go after parsing: the program is
evaluated in a new root scope. -/
def testEval (H : Host) (fuel : Nat) (program : List Statement) : Option Object :=
  (Eval H fuel (.Program program) 0 initialWorld).map Prod.fst

/-- The ten value variants named by the specification's object model; `Hash` is
the one that has no struct in object.go. -/
inductive Variant where
  | Number | Boolean | String | Null | Array | Hash | Function | Builtin | ReturnValue | Error
deriving DecidableEq, Repr

/-- The struct type (Go's dynamic type) of an object. -/
def Object.variant : Object → Variant
  | .Number _ => .Number
  | .Boolean _ => .Boolean
  | .Null => .Null
  | .ReturnValue _ => .ReturnValue
  | .Error _ _ => .Error
  | .Function _ _ _ => .Function
  | .String _ => .String
  | .Builtin _ => .Builtin
  | .Array _ => .Array

/-! ## A host -/

/-- The text `fmt.Sprintf("%v", x)` of a `float32` whose value is a whole number
of magnitude below a million: its decimal digits under its sign (`5`, `-7`, `0`,
`-0`).  Every other `float32` gets the text `?`, which is not the text that Go
gives it. -/
def fmtWhole (x : F32) : String :=
  if x.exponent ≠ 255 ∧ x.mag % (2 ^ 149) = 0 ∧ x.mag / (2 ^ 149) < 1000000 then
    (if x.sign = 1 then "-" else "") ++ Nat.repr (x.mag / (2 ^ 149))
  else "?"

/-- A host for running the definitions on concrete inputs: numbers are rendered
by `fmtWhole`, an identifier renders as its name (as `(*ast.Identifier).String`
does), the text of a block is not computed, and a length is converted to the
nearest `float32`. -/
def demoHost : Host where
  fmtFloat32 := fmtWhole
  identString := fun i => i.Value
  blockString := fun _ => "..."
  ofNat := F32.ofNat

/-! ## Evaluation as a relation -/

/-- The evaluator `ev2` gives every result that `ev1` gives. -/
def Extends (ev1 ev2 : Node → EnvRef → World → Result) : Prop :=
  ∀ node env w r, ev1 node env w = some r → ev2 node env w = some r

/-- The call `Eval(node, env)` in the state `w` returns: some bound on the depth
of the nested calls is enough for the result `r`. -/
def Evaluates (H : Host) (node : Node) (env : EnvRef) (w : World) (r : Object × World) : Prop :=
  ∃ fuel, Eval H fuel node env w = some r

/-- The run of the statements `stmts`, in order from the state `w`, comes to the
statement `s` in the state `w2`: every statement before `s` has been evaluated
to a value that is neither an Error nor a ReturnValue, and `s` stands either in
`stmts` itself or in the block that an if-expression in statement position runs
(the consequence under a truthy condition, the alternative under a falsy one),
to any depth. -/
inductive Reaches (H : Host) : List Statement → EnvRef → World → Statement → World → Prop
  | here (s : Statement) (rest : List Statement) (env : EnvRef) (w : World) :
      Reaches H (s :: rest) env w s w
  | next (s0 : Statement) (rest : List Statement) (env : EnvRef) (w : World) (r : Object)
      (w1 : World) (s : Statement) (w2 : World) :
      Evaluates H (.Statement s0) env w (r, w1) → r.Type ≠ RETURN → r.Type ≠ ERROR →
      Reaches H rest env w1 s w2 → Reaches H (s0 :: rest) env w s w2
  | inThen (line line2 : Int) (cond : Expression) (cons : BlockStatement)
      (alt : Option BlockStatement) (rest : List Statement) (env : EnvRef) (w : World)
      (c : Object) (w1 : World) (s : Statement) (w2 : World) :
      Evaluates H (.Expression cond) env w (c, w1) → isError c = false → isTruthy c = true →
      Reaches H cons.Statements env w1 s w2 →
      Reaches H (.ExpressionStatement line (.If line2 cond cons alt) :: rest) env w s w2
  | inElse (line line2 : Int) (cond : Expression) (cons alt : BlockStatement)
      (rest : List Statement) (env : EnvRef) (w : World)
      (c : Object) (w1 : World) (s : Statement) (w2 : World) :
      Evaluates H (.Expression cond) env w (c, w1) → isError c = false → isTruthy c = false →
      Reaches H alt.Statements env w1 s w2 →
      Reaches H (.ExpressionStatement line (.If line2 cond cons (some alt)) :: rest) env w s w2

/-- The run of the statements `stmts`, in order from the state `w`, comes to the
statement `s` of the list in the state `w1`: every statement before `s` has been
evaluated to a value that is neither an Error nor a ReturnValue. -/
inductive RunsStatements (H : Host) : List Statement → EnvRef → World → Statement → World → Prop
  | here (s : Statement) (rest : List Statement) (env : EnvRef) (w : World) :
      RunsStatements H (s :: rest) env w s w
  | next (s0 : Statement) (rest : List Statement) (env : EnvRef) (w : World) (r : Object)
      (w1 : World) (s : Statement) (w2 : World) :
      Evaluates H (.Statement s0) env w (r, w1) → r.Type ≠ RETURN → r.Type ≠ ERROR →
      RunsStatements H rest env w1 s w2 → RunsStatements H (s0 :: rest) env w s w2

/-- The evaluation of the expressions `es`, left to right from the state `w`, comes
to the expression `e` of the list in the state `w1`: every expression before `e`
has been evaluated to a value that is no Error. -/
inductive RunsExpressions (H : Host) :
    List Expression → EnvRef → World → Expression → World → Prop
  | here (e : Expression) (rest : List Expression) (env : EnvRef) (w : World) :
      RunsExpressions H (e :: rest) env w e w
  | next (e0 : Expression) (rest : List Expression) (env : EnvRef) (w : World) (v : Object)
      (w1 : World) (e : Expression) (w2 : World) :
      Evaluates H (.Expression e0) env w (v, w1) → isError v = false →
      RunsExpressions H rest env w1 e w2 → RunsExpressions H (e0 :: rest) env w e w2

/-- The expressions `es`, evaluated left to right from the state `w`, give the
values `vs`, none of them an Error, and the state `w2`. -/
inductive EvaluatesAll (H : Host) :
    List Expression → EnvRef → World → List Object → World → Prop
  | nil (env : EnvRef) (w : World) : EvaluatesAll H [] env w [] w
  | cons (e : Expression) (rest : List Expression) (env : EnvRef) (w : World) (v : Object)
      (w1 : World) (vs : List Object) (w2 : World) :
      Evaluates H (.Expression e) env w (v, w1) → isError v = false →
      EvaluatesAll H rest env w1 vs w2 → EvaluatesAll H (e :: rest) env w (v :: vs) w2

/-- One step down an evaluation: `Eval` of the first node, in the first scope and
state, calls `Eval` of the second node in the second scope and state.  There is
one rule for each place where the evaluator evaluates a part of a node: a
statement of a program or of a block, the expression of a statement, an element
of an array literal, the operand of a prefix expression, the left and the right
operand of an infix expression and of `and` / `or`, the condition and the chosen
branch of an if-expression, the callee, an argument and the body of the called
Function of a call, the two operands of an index expression.  A part is named
only when the parts evaluated before it did not stop the evaluation. -/
inductive Calls (H : Host) : Node → EnvRef → World → Node → EnvRef → World → Prop
  | program (stmts : List Statement) (env : EnvRef) (w : World) (s : Statement) (w1 : World) :
      RunsStatements H stmts env w s w1 →
      Calls H (.Program stmts) env w (.Statement s) env w1
  | block (b : BlockStatement) (env : EnvRef) (w : World) (s : Statement) (w1 : World) :
      RunsStatements H b.Statements env w s w1 →
      Calls H (.Block b) env w (.Statement s) env w1
  | letValue (line : Int) (name : Identifier) (value : Expression) (env : EnvRef) (w : World) :
      Calls H (.Statement (.Let line name value)) env w (.Expression value) env w
  | returnValue (line : Int) (value : Expression) (env : EnvRef) (w : World) :
      Calls H (.Statement (.Return line value)) env w (.Expression value) env w
  | expressionStatement (line : Int) (e : Expression) (env : EnvRef) (w : World) :
      Calls H (.Statement (.ExpressionStatement line e)) env w (.Expression e) env w
  | arrayElement (line : Int) (elems : List Expression) (env : EnvRef) (w : World)
      (e : Expression) (w1 : World) :
      RunsExpressions H elems env w e w1 →
      Calls H (.Expression (.ArrayLiteral line elems)) env w (.Expression e) env w1
  | prefixRight (line : Int) (op : String) (right : Expression) (env : EnvRef) (w : World) :
      Calls H (.Expression (.Prefix line op right)) env w (.Expression right) env w
  | infixLeft (line : Int) (left : Expression) (op : String) (right : Expression)
      (env : EnvRef) (w : World) :
      Calls H (.Expression (.Infix line left op right)) env w (.Expression left) env w
  | infixRight (line : Int) (left : Expression) (op : String) (right : Expression)
      (env : EnvRef) (w : World) (l : Object) (w1 : World) :
      Evaluates H (.Expression left) env w (l, w1) → isError l = false →
      Calls H (.Expression (.Infix line left op right)) env w (.Expression right) env w1
  | logicalLeft (line : Int) (left : Expression) (op : LogicalOperator) (right : Expression)
      (env : EnvRef) (w : World) :
      Calls H (.Expression (.Logical line left op right)) env w (.Expression left) env w
  | logicalRight (line : Int) (left : Expression) (op : LogicalOperator) (right : Expression)
      (env : EnvRef) (w : World) (l : Object) (w1 : World) :
      Evaluates H (.Expression left) env w (l, w1) → isError l = false →
      ¬ (op = LogicalOperator.Or ∧ isTruthy l = true) →
      ¬ (op = LogicalOperator.And ∧ isTruthy l = false) →
      Calls H (.Expression (.Logical line left op right)) env w (.Expression right) env w1
  | ifCondition (line : Int) (cond : Expression) (cons : BlockStatement)
      (alt : Option BlockStatement) (env : EnvRef) (w : World) :
      Calls H (.Expression (.If line cond cons alt)) env w (.Expression cond) env w
  | ifConsequence (line : Int) (cond : Expression) (cons : BlockStatement)
      (alt : Option BlockStatement) (env : EnvRef) (w : World) (c : Object) (w1 : World) :
      Evaluates H (.Expression cond) env w (c, w1) → isError c = false → isTruthy c = true →
      Calls H (.Expression (.If line cond cons alt)) env w (.Block cons) env w1
  | ifAlternative (line : Int) (cond : Expression) (cons alt : BlockStatement)
      (env : EnvRef) (w : World) (c : Object) (w1 : World) :
      Evaluates H (.Expression cond) env w (c, w1) → isError c = false → isTruthy c = false →
      Calls H (.Expression (.If line cond cons (some alt))) env w (.Block alt) env w1
  | callFunction (line : Int) (fn : Expression) (args : List Expression) (env : EnvRef)
      (w : World) :
      Calls H (.Expression (.Call line fn args)) env w (.Expression fn) env w
  | callArgument (line : Int) (fn : Expression) (args : List Expression) (env : EnvRef)
      (w : World) (f : Object) (w1 : World) (e : Expression) (w2 : World) :
      Evaluates H (.Expression fn) env w (f, w1) → isError f = false →
      RunsExpressions H args env w1 e w2 →
      Calls H (.Expression (.Call line fn args)) env w (.Expression e) env w2
  | callBody (line : Int) (fn : Expression) (args : List Expression) (env : EnvRef)
      (w : World) (params : List Identifier) (body : BlockStatement) (fenv : EnvRef)
      (w1 : World) (vs : List Object) (w2 : World) :
      Evaluates H (.Expression fn) env w (.Function params body fenv, w1) →
      EvaluatesAll H args env w1 vs w2 →
      Calls H (.Expression (.Call line fn args)) env w (.Block body)
        (NewEnclosedEnvironment w2 fenv).1
        (bindParameters (NewEnclosedEnvironment w2 fenv).2 (NewEnclosedEnvironment w2 fenv).1
          params vs)
  | indexLeft (line : Int) (left index : Expression) (env : EnvRef) (w : World) :
      Calls H (.Expression (.Index line left index)) env w (.Expression left) env w
  | indexIndex (line : Int) (left index : Expression) (env : EnvRef) (w : World) (l : Object)
      (w1 : World) :
      Evaluates H (.Expression left) env w (l, w1) → isError l = false →
      Calls H (.Expression (.Index line left index)) env w (.Expression index) env w1

/-- The evaluation of the first node, in the first scope and state, comes to the
evaluation of the second node in the second scope and state, through any number
of steps down (none too). -/
inductive Enters (H : Host) : Node → EnvRef → World → Node → EnvRef → World → Prop
  | refl (n : Node) (env : EnvRef) (w : World) : Enters H n env w n env w
  | step (n : Node) (env : EnvRef) (w : World) (n1 : Node) (env1 : EnvRef) (w1 : World)
      (n2 : Node) (env2 : EnvRef) (w2 : World) :
      Calls H n env w n1 env1 w1 → Enters H n1 env1 w1 n2 env2 w2 → Enters H n env w n2 env2 w2

/-- Modelled from the spec: the infix operators that section 4.1 (and, for `==`
and `!=` on Strings, evaluator_test.go) gives a meaning on two operands of the
type `t`. -/
def supportedOperator (t : ObjectType) (op : String) : Bool :=
  if t = NUMBER then op ∈ ["+", "-", "*", "/", "<", ">", "<=", ">=", "==", "!="]
  else if t = BOOLEAN then op ∈ ["==", "!="]
  else if t = STRING then op ∈ ["+", "==", "!="]
  else false

/-- The literal `10`. -/
def lit10 : Expression := .NumberLiteral 1 ⟨0x41200000⟩
/-- The literal `1`. -/
def lit1 : Expression := .NumberLiteral 1 ⟨0x3F800000⟩
/-- The literal `5`. -/
def lit5 : Expression := .NumberLiteral 1 ⟨0x40A00000⟩
/-- The literal `9`. -/
def lit9 : Expression := .NumberLiteral 1 ⟨0x41100000⟩

/-- The object `v` wrapped `k` times in a ReturnValue. -/
def wrapReturn : Nat → Object → Object
  | 0, v => v
  | k + 1, v => .ReturnValue (some (wrapReturn k v))

/-! ## Hash keys -/

/-- Modelled from the spec: the value-encoding of a HashKey (the Go declaration is
missing), which embeds the literal value of the hashable object. -/
inductive HashValue where
  | Number (Value : F32)
  | Boolean (Value : Bool)
  | String (Value : String)
deriving Repr

/-- Modelled from the spec: a HashKey (missing), the composite of the Type tag and
the value-encoding of a Number, Boolean or String. -/
structure HashKey where
  Tag : ObjectType
  Value : HashValue
deriving Repr

/-- Modelled from the spec: the method `HashKey()` (missing) of the three hashable
kinds; any other object has no key. -/
def Object.HashKey : Object → Option HashKey
  | .Number v => some ⟨NUMBER, .Number v⟩
  | .Boolean v => some ⟨BOOLEAN, .Boolean v⟩
  | .String v => some ⟨STRING, .String v⟩
  | _ => none

/-- Modelled from the spec: the comparison `==` of two embedded values.  Two
numbers are compared as Go compares two `float32`: by the number they hold, so
`+0` is equal to `-0` and a NaN is equal to nothing. -/
def HashValue.equal : HashValue → HashValue → Bool
  | .Number x, .Number y => F32.eq x y
  | .Boolean x, .Boolean y => x == y
  | .String x, .String y => x == y
  | _, _ => false

/-- Modelled from the spec: the comparison `==` of two HashKeys, field by field;
it is the equality under which a Hash stores and finds its pairs. -/
def HashKey.equal (a b : HashKey) : Bool :=
  a.Tag == b.Tag && a.Value.equal b.Value

/-- Modelled from the spec: the HashKeys of the objects `a` and `b` are equal
(both objects being hashable). -/
def keysEqual (a b : Object) : Bool :=
  match a.HashKey, b.HashKey with
  | some ka, some kb => ka.equal kb
  | _, _ => false

/-- Modelled from the spec: a pair of a Hash (missing), the key object and the
value object stored under its HashKey. -/
structure HashPair where
  Key : Object
  Value : Object

/-- Modelled from the spec: the lookup of a HashKey among the pairs of a Hash; a
missing key gives `none`. -/
def hashGet (pairs : List (HashKey × HashPair)) (key : HashKey) : Option HashPair :=
  (pairs.find? (fun q => q.1.equal key)).map Prod.snd

/-- Modelled from the spec: a pair is stored under its HashKey; a later duplicate
key overwrites the earlier one. -/
def hashSet (pairs : List (HashKey × HashPair)) (key : HashKey) (pair : HashPair) :
    List (HashKey × HashPair) :=
  (key, pair) :: pairs.filter (fun q => !q.1.equal key)

/-! ## Scopes: the shape of the parent chain and what an evaluation leaves alone -/

/-- The scopes `envs`, which have the indices `i`, `i + 1`, ..., each refer to a
parent with a smaller index than their own. -/
def wellFormedFrom : Nat → List Environment → Bool
  | _, [] => true
  | i, e :: es =>
      (match e.outer with
        | none => true
        | some o => decide (o < i)) && wellFormedFrom (i + 1) es

/-- Every scope of the world was created after its parent: `NewEnvironment` and
`NewEnclosedEnvironment` are the only ways to a new scope, and a parent is a
scope that exists already. -/
def World.WellFormed (w : World) : Prop :=
  wellFormedFrom 0 w.envs = true

/-- The world `w2` has every scope of `w` other than `env` as `w` has it (and
possibly new scopes after them). -/
def FrameOf (env : EnvRef) (w w2 : World) : Prop :=
  w.envs.length ≤ w2.envs.length ∧
    ∀ i, i < w.envs.length → i ≠ env → w2.envs.get? i = w.envs.get? i

/-- The world `w2` has every scope of `w` as `w` has it (and possibly new scopes
after them). -/
def KeepsScopes (w w2 : World) : Prop :=
  w.envs.length ≤ w2.envs.length ∧ ∀ i, i < w.envs.length → w2.envs.get? i = w.envs.get? i

/-- The world in which a root scope binds `a` to the Number 5 and has one child
scope. -/
def twoScopes : World :=
  (NewEnclosedEnvironment (Set initialWorld 0 "a" (.Number ⟨0x40A00000⟩)) 0).2

/-- The world in which the root scope, the only scope there is, binds `a` to the
Number 5. -/
def rootScope : World :=
  Set initialWorld 0 "a" (.Number ⟨0x40A00000⟩)

/-- The world `rootScope` after a call has created a child scope of the root and
has bound `a` to the Number 9 in it. -/
def afterCall : World :=
  Set (NewEnclosedEnvironment rootScope 0).2 1 "a" (.Number ⟨0x41100000⟩)

/-- Every result of the evaluator `ev` leaves the scopes other than the current
one as they were. -/
def Framed (ev : Node → EnvRef → World → Result) : Prop :=
  ∀ node env w r w2, ev node env w = some (r, w2) → FrameOf env w w2

/-! ## Theorems: object.go -/

theorem join_go_eq (sep : String) (rest : List String) (acc : String) :
    rest.foldl (fun out s => out ++ sep ++ s) acc = String.intercalate.go acc sep rest := by
  induction rest generalizing acc with
  | nil => rfl
  | cons a as ih => simp [List.foldl, String.intercalate.go, ih]

theorem join_eq_intercalate (elems : List String) (sep : String) :
    Join elems sep = sep.intercalate elems := by
  cases elems with
  | nil => rfl
  | cons e rest =>
    cases rest with
    | nil => rfl
    | cons a as =>
      simp only [Join, String.intercalate]
      exact join_go_eq sep (a :: as) e

theorem fmtInt_eq_toString (n : Int) : fmtInt n = toString n := by
  cases n <;> rfl

theorem inspectElements_of_forall₂ (H : Host) (elems : List (Option Object)) (rs : List String)
    (h : List.Forall₂ (fun e r => InspectValue H e = some r) elems rs) :
    InspectElements H elems = some rs := by
  induction h with
  | nil => rfl
  | cons hd _ ih => simp [InspectElements, hd, ih]

/-- C1, as stated, fails in its last part: a ReturnValue that wraps a ReturnValue
has the tag RETURN, and that is the tag of the value it wraps. -/
theorem C1_return_value_has_tag_of_wrapped_return_value :
    (Object.ReturnValue (some (Object.ReturnValue (some Object.Null)))).Type = RETURN ∧
    (Object.ReturnValue (some Object.Null)).Type = RETURN ∧
    (Object.ReturnValue (some (Object.ReturnValue (some Object.Null)))).Type
      = (Object.ReturnValue (some Object.Null)).Type :=
  ⟨rfl, rfl, rfl⟩

/-- C1, amended: every value of each of the nine variants of object.go has that
variant's own tag whatever its fields hold, two objects have the same tag exactly
when they are of the same variant, and a ReturnValue's tag is RETURN for every
wrapped value (also a missing one): it is the wrapped value's tag exactly when
that value is a ReturnValue itself. -/
theorem C1_type_is_variant_tag :
    (∀ v, (Object.Number v).Type = NUMBER) ∧
    (∀ v, (Object.Boolean v).Type = BOOLEAN) ∧
    Object.Null.Type = NULL ∧
    (∀ v, (Object.ReturnValue v).Type = RETURN) ∧
    (∀ m l, (Object.Error m l).Type = ERROR) ∧
    (∀ p b e, (Object.Function p b e).Type = FUNCTION) ∧
    (∀ v, (Object.String v).Type = STRING) ∧
    (∀ f, (Object.Builtin f).Type = BUILTIN) ∧
    (∀ es, (Object.Array es).Type = ARRAY) ∧
    (∀ a b : Object, a.Type = b.Type ↔ a.variant = b.variant) ∧
    (∀ v : Object, (Object.ReturnValue (some v)).Type = v.Type ↔ v.variant = Variant.ReturnValue) := by
  refine ⟨fun _ => rfl, fun _ => rfl, rfl, fun _ => rfl, fun _ _ => rfl, fun _ _ _ => rfl,
    fun _ => rfl, fun _ => rfl, fun _ => rfl, ?_, ?_⟩
  · intro a b
    cases a <;> cases b <;> simp [Object.Type, Object.variant, NULL, NUMBER, BOOLEAN, STRING,
      ARRAY, RETURN, FUNCTION, BUILTIN, ERROR]
  · intro v
    cases v <;> simp [Object.Type, Object.variant, NULL, NUMBER, BOOLEAN, STRING,
      ARRAY, RETURN, FUNCTION, BUILTIN, ERROR]

/-- C2: when the elements of an Array render as `rs` (in order), the Array renders
as `[` followed by `rs` joined by `, ` followed by `]`; the empty Array renders
as `[]`, a one-element Array as its element's rendering between the brackets with
no separator, and an Array inside an Array is rendered the same way inside the
outer brackets. -/
theorem C2_array_inspect (H : Host) (elems : List (Option Object)) (rs : List String)
    (h : List.Forall₂ (fun e r => InspectValue H e = some r) elems rs) :
    (Object.Array elems).Inspect H = some ("[" ++ ", ".intercalate rs ++ "]") ∧
    (Object.Array []).Inspect H = some "[]" ∧
    (∀ e, (Object.Array [e]).Inspect H = (InspectValue H e).map (fun r => "[" ++ r ++ "]")) ∧
    (Object.Array (some (Object.Array elems) :: elems)).Inspect H
      = some ("[" ++ ", ".intercalate (("[" ++ ", ".intercalate rs ++ "]") :: rs) ++ "]") := by
  have h1 := inspectElements_of_forall₂ H elems rs h
  have h2 : (Object.Array elems).Inspect H = some ("[" ++ ", ".intercalate rs ++ "]") := by
    simp [Object.Inspect, h1, join_eq_intercalate]
  refine ⟨h2, rfl, ?_, ?_⟩
  · intro e
    cases he : InspectValue H e <;> simp [Object.Inspect, InspectElements, he, Join]
  · have h3 : InspectElements H (some (Object.Array elems) :: elems)
        = some (("[" ++ ", ".intercalate rs ++ "]") :: rs) := by
      simp [InspectElements, InspectValue, h2, h1]
    simp [Object.Inspect, h3, join_eq_intercalate]

/-- C2 at a concrete input: the three-element Array holding the String `a`, the
Array of Null, and the Boolean true renders as `[a, [null], true]`. -/
theorem C2_array_inspect_witness :
    List.Forall₂ (fun e r => InspectValue demoHost e = some r)
      [some (Object.String "a"), some (Object.Array [some Object.Null]), some (Object.Boolean true)]
      ["a", "[null]", "true"] ∧
    (Object.Array [some (Object.String "a"), some (Object.Array [some Object.Null]),
      some (Object.Boolean true)]).Inspect demoHost = some "[a, [null], true]" := by
  have h : List.Forall₂ (fun e r => InspectValue demoHost e = some r)
      [some (Object.String "a"), some (Object.Array [some Object.Null]), some (Object.Boolean true)]
      ["a", "[null]", "true"] := by
    refine List.Forall₂.cons (by rfl) (List.Forall₂.cons (by rfl) (List.Forall₂.cons (by rfl) ?_))
    exact List.Forall₂.nil
  exact ⟨h, (C2_array_inspect demoHost _ _ h).1⟩

/-- C3: a Boolean renders as `true` or `false` according to its Value, Null renders
as `null`, and a String renders as exactly its Value, nothing added or changed. -/
theorem C3_boolean_null_string_inspect (H : Host) :
    (Object.Boolean true).Inspect H = some "true" ∧
    (Object.Boolean false).Inspect H = some "false" ∧
    Object.Null.Inspect H = some "null" ∧
    (∀ s : String, (Object.String s).Inspect H = some s) ∧
    (Object.String "say \"hi\"\n").Inspect H = some "say \"hi\"\n" :=
  ⟨rfl, rfl, rfl, fun _ => rfl, rfl⟩

/-- C4: an Error with any message and any line (zero and negative lines too)
renders as `ERROR line `, the line in decimal, `: `, and the message unchanged. -/
theorem C4_error_inspect (H : Host) (msg : String) (line : Int) :
    (Object.Error msg line).Inspect H = some ("ERROR line " ++ toString line ++ ": " ++ msg) ∧
    (Object.Error msg 0).Inspect H = some ("ERROR line 0: " ++ msg) ∧
    (Object.Error msg (-12)).Inspect H = some ("ERROR line -12: " ++ msg) ∧
    (Object.Error "type mismatch: NUMBER + BOOLEAN" 4).Inspect H
      = some "ERROR line 4: type mismatch: NUMBER + BOOLEAN" := by
  refine ⟨?_, rfl, rfl, rfl⟩
  simp [Object.Inspect, fmtInt_eq_toString]

/-- C5: Type.String names each of the nine defined tags by its upper-case name, so
the tag of every Number, Boolean, String, Function and Array is named NUMBER,
BOOLEAN, STRING, FUNCTION and ARRAY. -/
theorem C5_type_string_names :
    NULL.String = "NULL" ∧ NUMBER.String = "NUMBER" ∧ BOOLEAN.String = "BOOLEAN" ∧
    STRING.String = "STRING" ∧ ARRAY.String = "ARRAY" ∧ RETURN.String = "RETURN" ∧
    FUNCTION.String = "FUNCTION" ∧ BUILTIN.String = "BUILTIN" ∧ ERROR.String = "ERROR" ∧
    (∀ v, (Object.Number v).Type.String = "NUMBER") ∧
    (∀ v, (Object.Boolean v).Type.String = "BOOLEAN") ∧
    (∀ v, (Object.String v).Type.String = "STRING") ∧
    (∀ p b e, (Object.Function p b e).Type.String = "FUNCTION") ∧
    (∀ es, (Object.Array es).Type.String = "ARRAY") :=
  ⟨by decide, by decide, by decide, by decide, by decide, by decide, by decide, by decide,
    by decide, fun _ => by simp only [Object.Type]; decide,
    fun _ => by simp only [Object.Type]; decide, fun _ => by simp only [Object.Type]; decide,
    fun _ _ _ => by simp only [Object.Type]; decide, fun _ => by simp only [Object.Type]; decide⟩

/-- C6: a Function renders as `fn(`, its parameters' String() texts joined by `, `,
`) {`, a line break, the body's String() text, a line break and `}`; with no
parameter the text starts `fn() {`; the captured environment plays no part. -/
theorem C6_function_inspect (H : Host) (params : List Identifier) (body : BlockStatement)
    (env : EnvRef) :
    (Object.Function params body env).Inspect H
      = some ("fn(" ++ ", ".intercalate (params.map H.identString) ++ ") \x7b\n"
          ++ H.blockString body ++ "\n\x7d") ∧
    (Object.Function [] body env).Inspect H
      = some ("fn() \x7b\n" ++ H.blockString body ++ "\n\x7d") ∧
    (∀ env2 : EnvRef, (Object.Function params body env2).Inspect H
      = (Object.Function params body env).Inspect H) := by
  refine ⟨?_, ?_, fun _ => rfl⟩
  · simp [Object.Inspect, join_eq_intercalate]
  · simp [Object.Inspect, Join]

/-- C7, as stated, fails: however the ten variants of the specification are given
tags, either two variants share a tag or some variant's tag has the empty name;
in particular the ten variants cannot have ten different tags among the nine
defined constants. -/
theorem C7_no_ten_named_tags :
    (¬ ∃ tag : Variant → ObjectType, Function.Injective tag ∧ ∀ k, (tag k).String ≠ "") ∧
    (¬ ∃ tag : Variant → ObjectType, Function.Injective tag ∧ ∀ k, tag k ∈ definedTypes) := by
  have key : ¬ ∃ tag : Variant → ObjectType, Function.Injective tag ∧ ∀ k, tag k ∈ definedTypes := by
    rintro ⟨tag, hinj, hmem⟩
    have hsub : ([Variant.Number, .Boolean, .String, .Null, .Array, .Hash, .Function, .Builtin,
        .ReturnValue, .Error].map tag).toFinset ⊆ definedTypes.toFinset := by
      intro t ht
      simp only [List.mem_toFinset, List.mem_map] at ht ⊢
      obtain ⟨k, _, rfl⟩ := ht
      exact hmem k
    have hcard := Finset.card_le_card hsub
    have hnodup : ([Variant.Number, .Boolean, .String, .Null, .Array, .Hash, .Function, .Builtin,
        .ReturnValue, .Error].map tag).Nodup := by
      refine List.Nodup.map hinj ?_
      decide
    rw [List.toFinset_card_of_nodup hnodup] at hcard
    have hle : definedTypes.toFinset.card ≤ 9 := (List.toFinset_card_le _).trans (by decide)
    simp at hcard
    omega
  refine ⟨?_, key⟩
  rintro ⟨tag, hinj, hne⟩
  refine key ⟨tag, hinj, fun k => ?_⟩
  have h := hne k
  unfold ObjectType.String at h
  simp only [definedTypes, List.mem_cons, List.mem_singleton]
  by_contra hcon
  simp only [not_or] at hcon
  simp [hcon] at h

/-- C7, amended: each of the nine variants that object.go declares has a tag of
its own among the nine defined constants, Type.String gives those tags non-empty
names that differ between variants, no object of object.go is a Hash, and a tag
outside the nine constants has the empty name. -/
theorem C7_nine_named_tags :
    (∀ o : Object, o.Type ∈ definedTypes ∧ o.Type.String ≠ "") ∧
    (∀ a b : Object, a.Type.String = b.Type.String ↔ a.variant = b.variant) ∧
    (∀ o : Object, o.variant ≠ Variant.Hash) ∧
    (∀ t : ObjectType, t.String ≠ "" ↔ t ∈ definedTypes) ∧
    definedTypes.length = 9 := by
  refine ⟨?_, ?_, ?_, ?_, rfl⟩
  · intro o
    cases o <;> simp only [Object.Type] <;> exact ⟨by decide, by decide⟩
  · intro a b
    cases a <;> cases b <;> simp [Object.Type, Object.variant] <;> decide
  · intro o
    cases o <;> simp [Object.variant]
  · intro t
    constructor
    · intro h
      unfold ObjectType.String at h
      simp only [definedTypes, List.mem_cons, List.mem_singleton]
      by_contra hcon
      simp only [not_or] at hcon
      simp [hcon] at h
    · intro h
      simp only [definedTypes, List.mem_cons, List.mem_singleton, List.mem_nil_iff, or_false] at h
      rcases h with h | h | h | h | h | h | h | h | h <;> subst h <;> decide

/-! ## Theorems: the evaluator -/

theorem evalStatements_mono {ev1 ev2 : Node → EnvRef → World → Result} (hx : Extends ev1 ev2)
    (stmts : List Statement) (env : EnvRef) (w : World) (last : Object) (r : Object × World)
    (h : evalStatements ev1 stmts env w last = some r) :
    evalStatements ev2 stmts env w last = some r := by
  induction stmts generalizing w last with
  | nil => simpa [evalStatements] using h
  | cons s rest ih =>
    simp only [evalStatements] at h ⊢
    cases h1 : ev1 (.Statement s) env w with
    | none => simp [h1] at h
    | some p =>
      obtain ⟨v, w1⟩ := p
      rw [hx _ _ _ _ h1]
      simp only [h1] at h
      by_cases hc : v.Type = RETURN ∨ v.Type = ERROR
      · simpa [hc] using h
      · simp only [hc, if_false] at h ⊢
        exact ih _ _ h

theorem evalExpressions_mono {ev1 ev2 : Node → EnvRef → World → Result} (hx : Extends ev1 ev2)
    (es : List Expression) (env : EnvRef) (w : World) (r : Except Object (List Object) × World)
    (h : evalExpressions ev1 es env w = some r) :
    evalExpressions ev2 es env w = some r := by
  induction es generalizing w r with
  | nil => simpa [evalExpressions] using h
  | cons e rest ih =>
    simp only [evalExpressions] at h ⊢
    cases h1 : ev1 (.Expression e) env w with
    | none => simp [h1] at h
    | some p =>
      obtain ⟨v, w1⟩ := p
      rw [hx _ _ _ _ h1]
      simp only [h1] at h
      by_cases hc : isError v = true
      · simpa [hc] using h
      · simp only [hc] at h ⊢
        cases h2 : evalExpressions ev1 rest env w1 with
        | none => simp [h2] at h
        | some q =>
          rw [ih _ _ h2]
          simpa [h2] using h

theorem evalStatement_mono {ev1 ev2 : Node → EnvRef → World → Result} (hx : Extends ev1 ev2)
    (s : Statement) (env : EnvRef) (w : World) (r : Object × World)
    (h : evalStatement ev1 s env w = some r) : evalStatement ev2 s env w = some r := by
  cases s with
  | Let line name value =>
    simp only [evalStatement] at h ⊢
    cases h1 : ev1 (.Expression value) env w with
    | none => simp [h1] at h
    | some p => rw [hx _ _ _ _ h1]; simpa [h1] using h
  | Return line value =>
    simp only [evalStatement] at h ⊢
    cases h1 : ev1 (.Expression value) env w with
    | none => simp [h1] at h
    | some p => rw [hx _ _ _ _ h1]; simpa [h1] using h
  | ExpressionStatement line e => exact hx _ _ _ _ h

theorem evalProgram_mono {ev1 ev2 : Node → EnvRef → World → Result} (hx : Extends ev1 ev2)
    (stmts : List Statement) (env : EnvRef) (w : World) (r : Object × World)
    (h : evalProgram ev1 stmts env w = some r) : evalProgram ev2 stmts env w = some r := by
  simp only [evalProgram] at h ⊢
  cases h1 : evalStatements ev1 stmts env w .Null with
  | none => simp [h1] at h
  | some p => rw [evalStatements_mono hx _ _ _ _ _ h1]; simpa [h1] using h

theorem applyFunction_mono (H : Host) {ev1 ev2 : Node → EnvRef → World → Result}
    (hx : Extends ev1 ev2) (line : Int) (fn : Object) (args : List Object) (w : World)
    (r : Object × World) (h : applyFunction H ev1 line fn args w = some r) :
    applyFunction H ev2 line fn args w = some r := by
  cases fn <;> try (simpa [applyFunction] using h)
  case Function params body fenv =>
    simp only [applyFunction] at h ⊢
    cases h1 : ev1 (.Block body) (NewEnclosedEnvironment w fenv).1
        (bindParameters (NewEnclosedEnvironment w fenv).2 (NewEnclosedEnvironment w fenv).1 params args) with
    | none => simp [h1] at h
    | some p => rw [hx _ _ _ _ h1]; simpa [h1] using h

theorem evalExpression_mono (H : Host) {ev1 ev2 : Node → EnvRef → World → Result}
    (hx : Extends ev1 ev2) (e : Expression) (env : EnvRef) (w : World)
    (r : Object × World) (h : evalExpression H ev1 e env w = some r) :
    evalExpression H ev2 e env w = some r := by
  cases e with
  | Ident name => simpa [evalExpression] using h
  | NumberLiteral _ v => simpa [evalExpression] using h
  | BooleanLiteral _ v => simpa [evalExpression] using h
  | StringLiteral _ v => simpa [evalExpression] using h
  | FunctionLiteral _ ps b => simpa [evalExpression] using h
  | ArrayLiteral _ elems =>
    simp only [evalExpression] at h ⊢
    cases h1 : evalExpressions ev1 elems env w with
    | none => simp [h1] at h
    | some p => rw [evalExpressions_mono hx _ _ _ _ h1]; simpa [h1] using h
  | Prefix line op right =>
    simp only [evalExpression] at h ⊢
    cases h1 : ev1 (.Expression right) env w with
    | none => simp [h1] at h
    | some p => rw [hx _ _ _ _ h1]; simpa [h1] using h
  | Infix line left op right =>
    simp only [evalExpression] at h ⊢
    cases h1 : ev1 (.Expression left) env w with
    | none => simp [h1] at h
    | some p =>
      obtain ⟨l, w1⟩ := p
      rw [hx _ _ _ _ h1]
      simp only [h1] at h
      by_cases hc : isError l = true
      · simpa [hc] using h
      · simp only [hc] at h ⊢
        cases h2 : ev1 (.Expression right) env w1 with
        | none => simp [h2] at h
        | some q => rw [hx _ _ _ _ h2]; simpa [h2] using h
  | Logical line left op right =>
    simp only [evalExpression] at h ⊢
    cases h1 : ev1 (.Expression left) env w with
    | none => simp [h1] at h
    | some p =>
      obtain ⟨l, w1⟩ := p
      rw [hx _ _ _ _ h1]
      simp only [h1] at h
      by_cases hc : isError l = true
      · simpa [hc] using h
      · simp only [hc] at h ⊢
        by_cases hor : op = LogicalOperator.Or ∧ isTruthy l = true
        · simpa [hor] using h
        · simp only [hor] at h ⊢
          by_cases hand : op = LogicalOperator.And ∧ isTruthy l = false
          · simpa [hand] using h
          · simp only [hand] at h ⊢
            cases h2 : ev1 (.Expression right) env w1 with
            | none => simp [h2] at h
            | some q => rw [hx _ _ _ _ h2]; simpa [h2] using h
  | If line cond cons alt =>
    simp only [evalExpression] at h ⊢
    cases h1 : ev1 (.Expression cond) env w with
    | none => simp [h1] at h
    | some p =>
      obtain ⟨c, w1⟩ := p
      rw [hx _ _ _ _ h1]
      simp only [h1] at h
      by_cases hc : isError c = true
      · simpa [hc] using h
      · simp only [hc] at h ⊢
        by_cases ht : isTruthy c = true
        · simp only [ht, if_true] at h ⊢
          exact hx _ _ _ _ h
        · simp only [ht] at h ⊢
          cases alt with
          | none => simpa using h
          | some a => exact hx _ _ _ _ h
  | Call line fn args =>
    simp only [evalExpression] at h ⊢
    cases h1 : ev1 (.Expression fn) env w with
    | none => simp [h1] at h
    | some p =>
      obtain ⟨f, w1⟩ := p
      rw [hx _ _ _ _ h1]
      simp only [h1] at h
      by_cases hc : isError f = true
      · simpa [hc] using h
      · simp only [hc] at h ⊢
        cases h2 : evalExpressions ev1 args env w1 with
        | none => simp [h2] at h
        | some q =>
          rw [evalExpressions_mono hx _ _ _ _ h2]
          simp only [h2] at h
          obtain ⟨res, w2⟩ := q
          cases res with
          | error err => simpa using h
          | ok vs => exact applyFunction_mono H hx _ _ _ _ _ h
  | Index line left index =>
    simp only [evalExpression] at h ⊢
    cases h1 : ev1 (.Expression left) env w with
    | none => simp [h1] at h
    | some p =>
      obtain ⟨l, w1⟩ := p
      rw [hx _ _ _ _ h1]
      simp only [h1] at h
      by_cases hc : isError l = true
      · simpa [hc] using h
      · simp only [hc] at h ⊢
        cases h2 : ev1 (.Expression index) env w1 with
        | none => simp [h2] at h
        | some q => rw [hx _ _ _ _ h2]; simpa [h2] using h

theorem Eval_succ (H : Host) (fuel : Nat) : Extends (Eval H fuel) (Eval H (fuel + 1)) := by
  induction fuel with
  | zero => intro node env w r h; simp [Eval] at h
  | succ n ih =>
    intro node env w r h
    cases node with
    | Program stmts => exact evalProgram_mono ih _ _ _ _ h
    | Statement s => exact evalStatement_mono ih _ _ _ _ h
    | Block b => exact evalStatements_mono ih _ _ _ _ _ h
    | Expression e => exact evalExpression_mono H ih _ _ _ _ h

theorem Eval_mono (H : Host) {m n : Nat} (hmn : m ≤ n) : Extends (Eval H m) (Eval H n) := by
  induction hmn with
  | refl => intro _ _ _ _ h; exact h
  | step _ ih => intro node env w r h; exact Eval_succ H _ _ _ _ _ (ih _ _ _ _ h)

theorem Evaluates_unique (H : Host) {node : Node} {env : EnvRef} {w : World}
    {r1 r2 : Object × World} (h1 : Evaluates H node env w r1) (h2 : Evaluates H node env w r2) :
    r1 = r2 := by
  obtain ⟨m, hm⟩ := h1
  obtain ⟨n, hn⟩ := h2
  have a := Eval_mono H (Nat.le_max_left m n) _ _ _ _ hm
  have b := Eval_mono H (Nat.le_max_right m n) _ _ _ _ hn
  rw [a] at b
  exact Option.some.inj b

theorem Eval_if_then (H : Host) {line : Int} {cond : Expression} {cons : BlockStatement}
    {alt : Option BlockStatement} {env : EnvRef} {w w1 : World} {c : Object} {fuel : Nat}
    (hc : Eval H fuel (.Expression cond) env w = some (c, w1)) (hne : isError c = false)
    (ht : isTruthy c = true) :
    Eval H (fuel + 1) (.Expression (.If line cond cons alt)) env w = Eval H fuel (.Block cons) env w1 := by
  show evalExpression H (Eval H fuel) (.If line cond cons alt) env w = _
  simp only [evalExpression, hc, hne, ht, if_true]
  simp

theorem Eval_if_else (H : Host) {line : Int} {cond : Expression} {cons alt : BlockStatement}
    {env : EnvRef} {w w1 : World} {c : Object} {fuel : Nat}
    (hc : Eval H fuel (.Expression cond) env w = some (c, w1)) (hne : isError c = false)
    (ht : isTruthy c = false) :
    Eval H (fuel + 1) (.Expression (.If line cond cons (some alt))) env w
      = Eval H fuel (.Block alt) env w1 := by
  show evalExpression H (Eval H fuel) (.If line cond cons (some alt)) env w = _
  simp only [evalExpression, hc, hne, ht]
  simp

theorem Eval_if_none (H : Host) {line : Int} {cond : Expression} {cons : BlockStatement}
    {env : EnvRef} {w w1 : World} {c : Object} {fuel : Nat}
    (hc : Eval H fuel (.Expression cond) env w = some (c, w1))
    (ht : isTruthy c = false) :
    Eval H (fuel + 1) (.Expression (.If line cond cons none)) env w = some (.Null, w1) := by
  have hne : isError c = false := by
    cases c <;> simp_all [isTruthy, isError, Object.Type] <;> decide
  show evalExpression H (Eval H fuel) (.If line cond cons none) env w = _
  simp only [evalExpression, hc, hne, ht]
  simp

theorem evalStatements_abort (H : Host) {stmts : List Statement} {env : EnvRef} {w w1 w2 : World}
    {s : Statement} {r : Object} (hreach : Reaches H stmts env w s w1)
    (hs : Evaluates H (.Statement s) env w1 (r, w2)) (hr : r.Type = RETURN ∨ r.Type = ERROR) :
    ∃ fuel, ∀ last, evalStatements (Eval H fuel) stmts env w last = some (r, w2) := by
  induction hreach with
  | here s rest env w =>
    obtain ⟨n, hn⟩ := hs
    exact ⟨n, fun last => by simp [evalStatements, hn, hr]⟩
  | next s0 rest env w r0 w1 s w2' h0 hret herr _ ih =>
    obtain ⟨n1, h1⟩ := h0
    obtain ⟨n2, h2⟩ := ih hs
    refine ⟨max n1 n2, fun last => ?_⟩
    simp only [evalStatements]
    rw [Eval_mono H (Nat.le_max_left n1 n2) _ _ _ _ h1]
    simp only [hret, herr, or_self, if_false]
    exact evalStatements_mono (Eval_mono H (Nat.le_max_right n1 n2)) _ _ _ _ _ (h2 r0)
  | inThen line line2 cond cons alt rest env w c w1 s w2' hc hne ht _ ih =>
    obtain ⟨n1, h1⟩ := hc
    obtain ⟨n2, h2⟩ := ih hs
    refine ⟨max n1 n2 + 3, fun last => ?_⟩
    have hcond := Eval_mono H (Nat.le_succ_of_le (Nat.le_max_left n1 n2)) _ _ _ _ h1
    have hblock : Eval H (max n1 n2 + 1) (.Block cons) env w1 = some (r, w2) :=
      evalStatements_mono (Eval_mono H (Nat.le_max_right n1 n2)) _ _ _ _ _ (h2 .Null)
    have hstmt : Eval H (max n1 n2 + 3)
        (.Statement (.ExpressionStatement line (.If line2 cond cons alt))) env w = some (r, w2) := by
      show Eval H (max n1 n2 + 2) (.Expression (.If line2 cond cons alt)) env w = _
      rw [Eval_if_then H hcond hne ht, hblock]
    simp [evalStatements, hstmt, hr]
  | inElse line line2 cond cons alt rest env w c w1 s w2' hc hne ht _ ih =>
    obtain ⟨n1, h1⟩ := hc
    obtain ⟨n2, h2⟩ := ih hs
    refine ⟨max n1 n2 + 3, fun last => ?_⟩
    have hcond := Eval_mono H (Nat.le_succ_of_le (Nat.le_max_left n1 n2)) _ _ _ _ h1
    have hblock : Eval H (max n1 n2 + 1) (.Block alt) env w1 = some (r, w2) :=
      evalStatements_mono (Eval_mono H (Nat.le_max_right n1 n2)) _ _ _ _ _ (h2 .Null)
    have hstmt : Eval H (max n1 n2 + 3)
        (.Statement (.ExpressionStatement line (.If line2 cond cons (some alt)))) env w
          = some (r, w2) := by
      show Eval H (max n1 n2 + 2) (.Expression (.If line2 cond cons (some alt))) env w = _
      rw [Eval_if_else H hcond hne ht, hblock]
    simp [evalStatements, hstmt, hr]

theorem program_abort (H : Host) {stmts : List Statement} {env : EnvRef} {w w1 w2 : World}
    {s : Statement} {r : Object} (hreach : Reaches H stmts env w s w1)
    (hs : Evaluates H (.Statement s) env w1 (r, w2)) (hr : r.Type = RETURN ∨ r.Type = ERROR) :
    Evaluates H (.Program stmts) env w (unwrapReturnValue r, w2) := by
  obtain ⟨n, hn⟩ := evalStatements_abort H hreach hs hr
  refine ⟨n + 1, ?_⟩
  show evalProgram (Eval H n) stmts env w = _
  simp [evalProgram, hn]

theorem Evaluates_return (H : Host) {line : Int} {e : Expression} {env : EnvRef} {w w1 : World}
    {v : Object} (he : Evaluates H (.Expression e) env w (v, w1)) (hv : isError v = false) :
    Evaluates H (.Statement (.Return line e)) env w (.ReturnValue (some v), w1) := by
  obtain ⟨n, hn⟩ := he
  refine ⟨n + 1, ?_⟩
  show evalStatement (Eval H n) (.Return line e) env w = _
  simp [evalStatement, hn, hv]

/-- C9, as stated, fails for an if-block that is not a statement of its own: in
`let x = if (true) { return 10; }; 9;` the evaluation comes to the statement
`return 10`, inside an if-block, and the expression of that return evaluates to
the Number 10; yet the program evaluates to the Number 9, since the let statement
binds `x` to the ReturnValue and the run goes on with the statement after it. -/
theorem C9_return_in_let_value_goes_on :
    (∀ H : Host, Enters H
      (.Program [.Let 1 ⟨1, "x"⟩ (.If 1 (.BooleanLiteral 1 true) (.mk 1 [.Return 1 lit10]) none),
        .ExpressionStatement 1 lit9]) 0 initialWorld
      (.Statement (.Return 1 lit10)) 0 initialWorld) ∧
    (∀ H : Host, Eval H 1 (.Expression lit10) 0 initialWorld
      = some (.Number ⟨0x41200000⟩, initialWorld)) ∧
    (∀ H : Host, Eval H 6
      (.Program [.Let 1 ⟨1, "x"⟩ (.If 1 (.BooleanLiteral 1 true) (.mk 1 [.Return 1 lit10]) none),
        .ExpressionStatement 1 lit9]) 0 initialWorld
      = some (.Number ⟨0x41100000⟩,
          Set initialWorld 0 "x" (.ReturnValue (some (.Number ⟨0x41200000⟩))))) := by
  refine ⟨fun H => ?_, fun H => rfl, fun H => rfl⟩
  refine Enters.step _ _ _ _ _ _ _ _ _
    (Calls.program _ 0 initialWorld _ initialWorld (RunsStatements.here _ _ 0 initialWorld)) ?_
  refine Enters.step _ _ _ _ _ _ _ _ _ (Calls.letValue 1 ⟨1, "x"⟩ _ 0 initialWorld) ?_
  refine Enters.step _ _ _ _ _ _ _ _ _
    (Calls.ifConsequence 1 _ _ none 0 initialWorld (.Boolean true) initialWorld
      ⟨1, by rfl⟩ (by rfl) (by rfl)) ?_
  exact Enters.step _ _ _ _ _ _ _ _ _
    (Calls.block _ 0 initialWorld _ initialWorld (RunsStatements.here _ _ 0 initialWorld))
    (Enters.refl _ _ _)

/-- C9, amended: when the run of a program's statements comes to a return
statement, at the top level or inside the blocks of if-expressions that stand as
statements themselves, nested to any depth, and the expression of that return
evaluates to a value `v` that is not an Error, then `Eval` of the program
returns `v` itself, not wrapped in a ReturnValue, in the state right after the
evaluation of that expression: whatever statements follow the return, in its
block or in an outer block, play no part.  So `return 10; 9;` gives the Number
10. -/
theorem C9_return_unwinds_to_program (H : Host) (stmts : List Statement) (env : EnvRef)
    (w w1 w2 : World) (line : Int) (e : Expression) (v : Object)
    (hreach : Reaches H stmts env w (.Return line e) w1)
    (he : Evaluates H (.Expression e) env w1 (v, w2)) (hv : isError v = false) :
    Evaluates H (.Program stmts) env w (v, w2) ∧
    (∀ fuel r, Eval H fuel (.Program stmts) env w = some r → r = (v, w2)) ∧
    (∀ (x : F32) (rest : List Statement) (l1 l2 : Int),
      Eval H 3 (.Program (.Return l1 (.NumberLiteral l2 x) :: rest)) env w
        = some (.Number x, w)) := by
  have h1 : Evaluates H (.Program stmts) env w (v, w2) :=
    program_abort H hreach (Evaluates_return H he hv) (Or.inl rfl)
  refine ⟨h1, fun fuel r hr => Evaluates_unique H ⟨fuel, hr⟩ h1, ?_⟩
  intro x rest l1 l2
  rfl

/-- C9 at the program `if (10 > 1) { if (10 > 1) { return 10; } return 1; } 9;`:
the result is the Number 10. -/
theorem C9_return_unwinds_to_program_witness :
    Evaluates demoHost (.Program
      [.ExpressionStatement 1 (.If 1 (.Infix 1 lit10 ">" lit1)
        (.mk 1 [.ExpressionStatement 1 (.If 1 (.Infix 1 lit10 ">" lit1)
                  (.mk 1 [.Return 1 lit10]) none),
                .Return 1 lit1]) none),
       .ExpressionStatement 1 lit9]) 0 initialWorld (.Number ⟨0x41200000⟩, initialWorld) := by
  have hreach : Reaches demoHost
      [.ExpressionStatement 1 (.If 1 (.Infix 1 lit10 ">" lit1)
        (.mk 1 [.ExpressionStatement 1 (.If 1 (.Infix 1 lit10 ">" lit1)
                  (.mk 1 [.Return 1 lit10]) none),
                .Return 1 lit1]) none),
       .ExpressionStatement 1 lit9] 0 initialWorld (.Return 1 lit10) initialWorld := by
    refine Reaches.inThen 1 1 _ _ none _ 0 initialWorld (.Boolean true) initialWorld _
      initialWorld ⟨2, by rfl⟩ (by rfl) (by rfl) ?_
    refine Reaches.inThen 1 1 _ _ none _ 0 initialWorld (.Boolean true) initialWorld _
      initialWorld ⟨2, by rfl⟩ (by rfl) (by rfl) ?_
    exact Reaches.here _ _ 0 initialWorld
  exact (C9_return_unwinds_to_program demoHost _ 0 initialWorld initialWorld initialWorld 1 lit10
    (.Number ⟨0x41200000⟩) hreach ⟨1, by rfl⟩ (by rfl)).1

theorem evalInfixExpression_mismatch (line : Int) (op : String) (l r : Object)
    (h : l.Type ≠ r.Type) :
    evalInfixExpression line op l r
      = .Error ("on line " ++ toString line ++ ": type mismatch: " ++ l.Type.String ++ " " ++ op
          ++ " " ++ r.Type.String) line := by
  have e : ": type mismatch: " = ": " ++ "type mismatch: " := by decide
  simp only [evalInfixExpression, h, ne_eq, not_false_eq_true, if_true, newError,
    fmtInt_eq_toString, e, String.append_assoc]

theorem evalInfixExpression_unknown (line : Int) (op : String) (l r : Object)
    (h : l.Type = r.Type) (hop : supportedOperator l.Type op = false) :
    evalInfixExpression line op l r
      = .Error ("on line " ++ toString line ++ ": unknown operator: " ++ l.Type.String ++ " " ++ op
          ++ " " ++ r.Type.String) line := by
  have e : ": unknown operator: " = ": " ++ "unknown operator: " := by decide
  have key : evalInfixExpression line op l r = unknownOperator line op l r := by
    cases l <;> cases r <;>
      first
      | (exfalso; revert h; simp only [Object.Type]; decide)
      | (simp only [evalInfixExpression, h, ne_eq, not_true_eq_false, if_false]; done)
      | (simp only [evalInfixExpression]
         simp [supportedOperator, Object.Type, NUMBER, BOOLEAN, STRING] at hop
         simp [hop, Object.Type])
  rw [key]
  simp only [unknownOperator, newError, fmtInt_eq_toString, e, String.append_assoc]

theorem Eval_infix (H : Host) (line : Int) (op : String) {left right : Expression} {env : EnvRef}
    {w w1 w2 : World} {l r : Object}
    (hl : Evaluates H (.Expression left) env w (l, w1)) (hle : isError l = false)
    (hr : Evaluates H (.Expression right) env w1 (r, w2)) (hre : isError r = false) :
    Evaluates H (.Expression (.Infix line left op right)) env w
      (evalInfixExpression line op l r, w2) := by
  obtain ⟨n1, h1⟩ := hl
  obtain ⟨n2, h2⟩ := hr
  refine ⟨max n1 n2 + 1, ?_⟩
  show evalExpression H (Eval H (max n1 n2)) (.Infix line left op right) env w = _
  simp only [evalExpression]
  rw [Eval_mono H (Nat.le_max_left n1 n2) _ _ _ _ h1]
  simp only [hle]
  rw [Eval_mono H (Nat.le_max_right n1 n2) _ _ _ _ h2]
  simp [hre]

theorem Evaluates_statement_of_error (H : Host) {e : Expression} {env : EnvRef} {w w1 : World}
    {err : Object} (he : Evaluates H (.Expression e) env w (err, w1)) (herr : isError err = true)
    (s : Statement)
    (hs : (∃ line, s = .ExpressionStatement line e) ∨ (∃ line, s = .Return line e)
      ∨ (∃ line name, s = .Let line name e)) :
    Evaluates H (.Statement s) env w (err, w1) := by
  obtain ⟨n, hn⟩ := he
  refine ⟨n + 1, ?_⟩
  show evalStatement (Eval H n) s env w = _
  rcases hs with ⟨line, rfl⟩ | ⟨line, rfl⟩ | ⟨line, name, rfl⟩ <;>
    simp [evalStatement, hn, herr]

theorem Type_eq_ERROR_of_isError {o : Object} (h : isError o = true) : o.Type = ERROR := by
  simpa [isError] using h

theorem unwrapReturnValue_of_isError {o : Object} (h : isError o = true) :
    unwrapReturnValue o = o := by
  cases o <;> first | rfl | (exfalso; revert h; simp only [isError, Object.Type]; decide)

theorem RunsStatements_Reaches (H : Host) {stmts : List Statement} {env : EnvRef} {w w1 : World}
    {s : Statement} (h : RunsStatements H stmts env w s w1) : Reaches H stmts env w s w1 := by
  induction h with
  | here s rest env w => exact Reaches.here s rest env w
  | next s0 rest env w r w1 s w2 h0 hret herr _ ih =>
    exact Reaches.next s0 rest env w r w1 s w2 h0 hret herr ih

theorem evalExpressions_abort (H : Host) {es : List Expression} {env : EnvRef} {w w1 wf : World}
    {e : Expression} {err : Object} (hrun : RunsExpressions H es env w e w1)
    (he : Evaluates H (.Expression e) env w1 (err, wf)) (herr : isError err = true) :
    ∃ fuel, evalExpressions (Eval H fuel) es env w = some (.error err, wf) := by
  induction hrun with
  | here e rest env w =>
    obtain ⟨n, hn⟩ := he
    exact ⟨n, by simp [evalExpressions, hn, herr]⟩
  | next e0 rest env w v w1 e w2 h0 hv _ ih =>
    obtain ⟨n1, h1⟩ := h0
    obtain ⟨n2, h2⟩ := ih he
    refine ⟨max n1 n2, ?_⟩
    simp only [evalExpressions]
    rw [Eval_mono H (Nat.le_max_left n1 n2) _ _ _ _ h1]
    simp only [hv]
    rw [evalExpressions_mono (Eval_mono H (Nat.le_max_right n1 n2)) _ _ _ _ h2]
    simp

theorem evalExpressions_all (H : Host) {es : List Expression} {env : EnvRef} {w w2 : World}
    {vs : List Object} (hall : EvaluatesAll H es env w vs w2) :
    ∃ fuel, evalExpressions (Eval H fuel) es env w = some (.ok vs, w2) := by
  induction hall with
  | nil env w => exact ⟨0, rfl⟩
  | cons e rest env w v w1 vs w2 h0 hv _ ih =>
    obtain ⟨n1, h1⟩ := h0
    obtain ⟨n2, h2⟩ := ih
    refine ⟨max n1 n2, ?_⟩
    simp only [evalExpressions]
    rw [Eval_mono H (Nat.le_max_left n1 n2) _ _ _ _ h1]
    simp only [hv]
    rw [evalExpressions_mono (Eval_mono H (Nat.le_max_right n1 n2)) _ _ _ _ h2]
    simp

/-- An Error that a part of a node evaluates to is what the node evaluates to. -/
theorem error_step (H : Host) {n n1 : Node} {env env1 : EnvRef} {w w1 wf : World} {err : Object}
    (hc : Calls H n env w n1 env1 w1) (he : Evaluates H n1 env1 w1 (err, wf))
    (herr : isError err = true) : Evaluates H n env w (err, wf) := by
  cases hc with
  | program stmts env w s w1 hrun =>
    have h := program_abort H (RunsStatements_Reaches H hrun) he
      (Or.inr (Type_eq_ERROR_of_isError herr))
    rwa [unwrapReturnValue_of_isError herr] at h
  | block b env w s w1 hrun =>
    obtain ⟨k, hk⟩ := evalStatements_abort H (RunsStatements_Reaches H hrun) he
      (Or.inr (Type_eq_ERROR_of_isError herr))
    exact ⟨k + 1, hk .Null⟩
  | letValue line name value env w =>
    exact Evaluates_statement_of_error H he herr _ (Or.inr (Or.inr ⟨line, name, rfl⟩))
  | returnValue line value env w =>
    exact Evaluates_statement_of_error H he herr _ (Or.inr (Or.inl ⟨line, rfl⟩))
  | expressionStatement line e env w =>
    exact Evaluates_statement_of_error H he herr _ (Or.inl ⟨line, rfl⟩)
  | arrayElement line elems env w e w1 hrun =>
    obtain ⟨k, hk⟩ := evalExpressions_abort H hrun he herr
    refine ⟨k + 1, ?_⟩
    show evalExpression H (Eval H k) (.ArrayLiteral line elems) env w = _
    simp [evalExpression, hk]
  | prefixRight line op right env w =>
    obtain ⟨k, hk⟩ := he
    refine ⟨k + 1, ?_⟩
    show evalExpression H (Eval H k) (.Prefix line op right) env w = _
    simp [evalExpression, hk, herr]
  | infixLeft line left op right env w =>
    obtain ⟨k, hk⟩ := he
    refine ⟨k + 1, ?_⟩
    show evalExpression H (Eval H k) (.Infix line left op right) env w = _
    simp [evalExpression, hk, herr]
  | infixRight line left op right env w l w1 hl hle =>
    obtain ⟨n1, h1⟩ := hl
    obtain ⟨n2, h2⟩ := he
    refine ⟨max n1 n2 + 1, ?_⟩
    show evalExpression H (Eval H (max n1 n2)) (.Infix line left op right) env w = _
    simp only [evalExpression]
    rw [Eval_mono H (Nat.le_max_left n1 n2) _ _ _ _ h1]
    simp only [hle]
    rw [Eval_mono H (Nat.le_max_right n1 n2) _ _ _ _ h2]
    simp [herr]
  | logicalLeft line left op right env w =>
    obtain ⟨k, hk⟩ := he
    refine ⟨k + 1, ?_⟩
    show evalExpression H (Eval H k) (.Logical line left op right) env w = _
    simp [evalExpression, hk, herr]
  | logicalRight line left op right env w l w1 hl hle hor hand =>
    obtain ⟨n1, h1⟩ := hl
    obtain ⟨n2, h2⟩ := he
    refine ⟨max n1 n2 + 1, ?_⟩
    show evalExpression H (Eval H (max n1 n2)) (.Logical line left op right) env w = _
    simp only [evalExpression]
    rw [Eval_mono H (Nat.le_max_left n1 n2) _ _ _ _ h1]
    simp only [hle, hor, hand]
    rw [Eval_mono H (Nat.le_max_right n1 n2) _ _ _ _ h2]
    simp [herr]
  | ifCondition line cond cons alt env w =>
    obtain ⟨k, hk⟩ := he
    refine ⟨k + 1, ?_⟩
    show evalExpression H (Eval H k) (.If line cond cons alt) env w = _
    simp [evalExpression, hk, herr]
  | ifConsequence line cond cons alt env w c w1 hcond hce ht =>
    obtain ⟨n1, h1⟩ := hcond
    obtain ⟨n2, h2⟩ := he
    refine ⟨max n1 n2 + 1, ?_⟩
    rw [Eval_if_then H (Eval_mono H (Nat.le_max_left n1 n2) _ _ _ _ h1) hce ht]
    exact Eval_mono H (Nat.le_max_right n1 n2) _ _ _ _ h2
  | ifAlternative line cond cons alt env w c w1 hcond hce ht =>
    obtain ⟨n1, h1⟩ := hcond
    obtain ⟨n2, h2⟩ := he
    refine ⟨max n1 n2 + 1, ?_⟩
    rw [Eval_if_else H (Eval_mono H (Nat.le_max_left n1 n2) _ _ _ _ h1) hce ht]
    exact Eval_mono H (Nat.le_max_right n1 n2) _ _ _ _ h2
  | callFunction line fn args env w =>
    obtain ⟨k, hk⟩ := he
    refine ⟨k + 1, ?_⟩
    show evalExpression H (Eval H k) (.Call line fn args) env w = _
    simp [evalExpression, hk, herr]
  | callArgument line fn args env w f w1 e w2 hf hfe hrun =>
    obtain ⟨n1, h1⟩ := hf
    obtain ⟨n2, h2⟩ := evalExpressions_abort H hrun he herr
    refine ⟨max n1 n2 + 1, ?_⟩
    show evalExpression H (Eval H (max n1 n2)) (.Call line fn args) env w = _
    simp only [evalExpression]
    rw [Eval_mono H (Nat.le_max_left n1 n2) _ _ _ _ h1]
    simp only [hfe]
    rw [evalExpressions_mono (Eval_mono H (Nat.le_max_right n1 n2)) _ _ _ _ h2]
    simp
  | callBody line fn args env w params body fenv w1 vs w2 hf hall =>
    obtain ⟨n1, h1⟩ := hf
    obtain ⟨n2, h2⟩ := evalExpressions_all H hall
    obtain ⟨n3, h3⟩ := he
    have hfe : isError (.Function params body fenv) = false := by rfl
    refine ⟨max n1 (max n2 n3) + 1, ?_⟩
    show evalExpression H (Eval H (max n1 (max n2 n3))) (.Call line fn args) env w = _
    simp only [evalExpression]
    rw [Eval_mono H (Nat.le_max_left n1 (max n2 n3)) _ _ _ _ h1]
    simp only [hfe]
    rw [evalExpressions_mono (Eval_mono H
      (Nat.le_trans (Nat.le_max_left n2 n3) (Nat.le_max_right n1 (max n2 n3)))) _ _ _ _ h2]
    simp only [Bool.false_eq_true, if_false, applyFunction]
    rw [Eval_mono H
      (Nat.le_trans (Nat.le_max_right n2 n3) (Nat.le_max_right n1 (max n2 n3))) _ _ _ _ h3]
    simp [unwrapReturnValue_of_isError herr]
  | indexLeft line left index env w =>
    obtain ⟨k, hk⟩ := he
    refine ⟨k + 1, ?_⟩
    show evalExpression H (Eval H k) (.Index line left index) env w = _
    simp [evalExpression, hk, herr]
  | indexIndex line left index env w l w1 hl hle =>
    obtain ⟨n1, h1⟩ := hl
    obtain ⟨n2, h2⟩ := he
    refine ⟨max n1 n2 + 1, ?_⟩
    show evalExpression H (Eval H (max n1 n2)) (.Index line left index) env w = _
    simp only [evalExpression]
    rw [Eval_mono H (Nat.le_max_left n1 n2) _ _ _ _ h1]
    simp only [hle]
    rw [Eval_mono H (Nat.le_max_right n1 n2) _ _ _ _ h2]
    simp [herr]

/-- An Error that an evaluation comes to, however deep, is the result of that
evaluation. -/
theorem error_propagates (H : Host) {n n2 : Node} {env env2 : EnvRef} {w w2 wf : World}
    {err : Object} (hent : Enters H n env w n2 env2 w2)
    (he : Evaluates H n2 env2 w2 (err, wf)) (herr : isError err = true) :
    Evaluates H n env w (err, wf) := by
  induction hent with
  | refl n env w => exact he
  | step n env w n1 env1 w1 n2 env2 w2 hc _ ih => exact error_step H hc (ih he) herr

/-- C10: an infix expression on line `line` whose operands evaluate to the values
`l` and `r`, neither an Error, evaluates to an Error that carries `line` and the
message `on line <line>: type mismatch: <LTYPE> <op> <RTYPE>` when the types of
`l` and `r` differ, and the message `on line <line>: unknown operator: <TYPE> <op>
<TYPE>` when the types agree and the operator is not supported for that type
(`+` on two Booleans, `-` on two Strings).  Such an Error, with the line of the
infix expression it comes from, is the result of every evaluation that comes to
the infix expression, wherever the expression stands (as an operand, a condition,
an argument, an element, an index, the value of a statement, in a block or in
the body of a called function), and so of the whole program, whatever
statements follow. -/
theorem C10_infix_errors (H : Host) (line : Int) (left right : Expression) (op : String)
    (env : EnvRef) (w w1 w2 : World) (l r : Object)
    (hl : Evaluates H (.Expression left) env w (l, w1)) (hle : isError l = false)
    (hr : Evaluates H (.Expression right) env w1 (r, w2)) (hre : isError r = false) :
    (l.Type ≠ r.Type →
      Evaluates H (.Expression (.Infix line left op right)) env w
        (.Error ("on line " ++ toString line ++ ": type mismatch: " ++ l.Type.String ++ " " ++ op
          ++ " " ++ r.Type.String) line, w2)) ∧
    (l.Type = r.Type → supportedOperator l.Type op = false →
      Evaluates H (.Expression (.Infix line left op right)) env w
        (.Error ("on line " ++ toString line ++ ": unknown operator: " ++ l.Type.String ++ " " ++ op
          ++ " " ++ r.Type.String) line, w2)) ∧
    (∀ err : Object,
      Evaluates H (.Expression (.Infix line left op right)) env w (err, w2) → isError err = true →
      ∀ (node : Node) (env0 : EnvRef) (w0 : World),
        Enters H node env0 w0 (.Expression (.Infix line left op right)) env w →
        Evaluates H node env0 w0 (err, w2)) ∧
    (∀ (stmts : List Statement) (env0 : EnvRef) (w0 : World),
      Enters H (.Program stmts) env0 w0 (.Expression (.Infix line left op right)) env w →
      (l.Type ≠ r.Type →
        Evaluates H (.Program stmts) env0 w0
          (.Error ("on line " ++ toString line ++ ": type mismatch: " ++ l.Type.String ++ " "
            ++ op ++ " " ++ r.Type.String) line, w2)) ∧
      (l.Type = r.Type → supportedOperator l.Type op = false →
        Evaluates H (.Program stmts) env0 w0
          (.Error ("on line " ++ toString line ++ ": unknown operator: " ++ l.Type.String ++ " "
            ++ op ++ " " ++ r.Type.String) line, w2))) ∧
    supportedOperator BOOLEAN "+" = false ∧ supportedOperator STRING "-" = false := by
  have hev := Eval_infix H line op hl hle hr hre
  have h1 : l.Type ≠ r.Type →
      Evaluates H (.Expression (.Infix line left op right)) env w
        (.Error ("on line " ++ toString line ++ ": type mismatch: " ++ l.Type.String ++ " " ++ op
          ++ " " ++ r.Type.String) line, w2) := by
    intro h
    rw [← evalInfixExpression_mismatch line op l r h]
    exact hev
  have h2 : l.Type = r.Type → supportedOperator l.Type op = false →
      Evaluates H (.Expression (.Infix line left op right)) env w
        (.Error ("on line " ++ toString line ++ ": unknown operator: " ++ l.Type.String ++ " " ++ op
          ++ " " ++ r.Type.String) line, w2) := by
    intro h hop
    rw [← evalInfixExpression_unknown line op l r h hop]
    exact hev
  refine ⟨h1, h2, fun err herr hisErr node env0 w0 hent => error_propagates H hent herr hisErr,
    fun stmts env0 w0 hent => ⟨fun h => ?_, fun h hop => ?_⟩, by decide, by decide⟩
  · exact error_propagates H hent (h1 h) (by rfl)
  · exact error_propagates H hent (h2 h hop) (by rfl)

/-- C10 at the programs `5 + true; 5;`, `if (1 == true) { 10 }` and
`if (10 > 1) { if (10 > 1) { return true + false } return 1; }`, the last one
with `return true + false` on line 4: the results are the Errors with the
messages `on line 1: type mismatch: NUMBER + BOOLEAN`,
`on line 1: type mismatch: NUMBER == BOOLEAN` and
`on line 4: unknown operator: BOOLEAN + BOOLEAN`. -/
theorem C10_infix_errors_witness :
    Evaluates demoHost (.Program
      [.ExpressionStatement 1 (.Infix 1 lit5 "+" (.BooleanLiteral 1 true)),
       .ExpressionStatement 1 lit5]) 0 initialWorld
      (.Error "on line 1: type mismatch: NUMBER + BOOLEAN" 1, initialWorld) ∧
    Evaluates demoHost (.Program
      [.ExpressionStatement 1 (.If 1 (.Infix 1 lit1 "==" (.BooleanLiteral 1 true))
        (.mk 1 [.ExpressionStatement 1 lit10]) none)]) 0 initialWorld
      (.Error "on line 1: type mismatch: NUMBER == BOOLEAN" 1, initialWorld) ∧
    Evaluates demoHost (.Program
      [.ExpressionStatement 2 (.If 2 (.Infix 2 lit10 ">" lit1)
        (.mk 2 [.ExpressionStatement 3 (.If 3 (.Infix 3 lit10 ">" lit1)
                  (.mk 3 [.Return 4 (.Infix 4 (.BooleanLiteral 4 true) "+"
                    (.BooleanLiteral 4 false))]) none),
                .Return 6 lit1]) none)]) 0 initialWorld
      (.Error "on line 4: unknown operator: BOOLEAN + BOOLEAN" 4, initialWorld) := by
  refine ⟨?_, ?_, ?_⟩
  · have h := C10_infix_errors demoHost 1 lit5 (.BooleanLiteral 1 true) "+" 0
      initialWorld initialWorld initialWorld (.Number ⟨0x40A00000⟩) (.Boolean true)
      ⟨1, by rfl⟩ (by rfl) ⟨1, by rfl⟩ (by rfl)
    refine (h.2.2.2.1 _ 0 initialWorld ?_).1 (by decide)
    refine Enters.step _ _ _ _ _ _ _ _ _
      (Calls.program _ 0 initialWorld _ initialWorld (RunsStatements.here _ _ 0 initialWorld)) ?_
    exact Enters.step _ _ _ _ _ _ _ _ _ (Calls.expressionStatement 1 _ 0 initialWorld)
      (Enters.refl _ _ _)
  · have h := C10_infix_errors demoHost 1 lit1 (.BooleanLiteral 1 true) "==" 0
      initialWorld initialWorld initialWorld (.Number ⟨0x3F800000⟩) (.Boolean true)
      ⟨1, by rfl⟩ (by rfl) ⟨1, by rfl⟩ (by rfl)
    refine (h.2.2.2.1 _ 0 initialWorld ?_).1 (by decide)
    refine Enters.step _ _ _ _ _ _ _ _ _
      (Calls.program _ 0 initialWorld _ initialWorld (RunsStatements.here _ _ 0 initialWorld)) ?_
    refine Enters.step _ _ _ _ _ _ _ _ _ (Calls.expressionStatement 1 _ 0 initialWorld) ?_
    exact Enters.step _ _ _ _ _ _ _ _ _ (Calls.ifCondition 1 _ _ none 0 initialWorld)
      (Enters.refl _ _ _)
  · have h := C10_infix_errors demoHost 4 (.BooleanLiteral 4 true) (.BooleanLiteral 4 false) "+" 0
      initialWorld initialWorld initialWorld (.Boolean true) (.Boolean false)
      ⟨1, by rfl⟩ (by rfl) ⟨1, by rfl⟩ (by rfl)
    refine (h.2.2.2.1 _ 0 initialWorld ?_).2 (by rfl) (by decide)
    refine Enters.step _ _ _ _ _ _ _ _ _
      (Calls.program _ 0 initialWorld _ initialWorld (RunsStatements.here _ _ 0 initialWorld)) ?_
    refine Enters.step _ _ _ _ _ _ _ _ _ (Calls.expressionStatement 2 _ 0 initialWorld) ?_
    refine Enters.step _ _ _ _ _ _ _ _ _
      (Calls.ifConsequence 2 _ _ none 0 initialWorld (.Boolean true) initialWorld
        ⟨2, by rfl⟩ (by rfl) (by rfl)) ?_
    refine Enters.step _ _ _ _ _ _ _ _ _
      (Calls.block _ 0 initialWorld _ initialWorld (RunsStatements.here _ _ 0 initialWorld)) ?_
    refine Enters.step _ _ _ _ _ _ _ _ _ (Calls.expressionStatement 3 _ 0 initialWorld) ?_
    refine Enters.step _ _ _ _ _ _ _ _ _
      (Calls.ifConsequence 3 _ _ none 0 initialWorld (.Boolean true) initialWorld
        ⟨2, by rfl⟩ (by rfl) (by rfl)) ?_
    refine Enters.step _ _ _ _ _ _ _ _ _
      (Calls.block _ 0 initialWorld _ initialWorld (RunsStatements.here _ _ 0 initialWorld)) ?_
    exact Enters.step _ _ _ _ _ _ _ _ _ (Calls.returnValue 4 _ 0 initialWorld)
      (Enters.refl _ _ _)

/-- C8, as stated, fails in its last part: in `if (true) { if (false) { 10 } }`
the condition of the outer if-expression, which has no else branch, evaluates to
the truthy value `true`, and yet the if-expression yields Null. -/
theorem C8_if_without_else_null_on_truthy :
    Eval demoHost 1 (.Expression (.BooleanLiteral 1 true)) 0 initialWorld
      = some (.Boolean true, initialWorld) ∧
    isTruthy (.Boolean true) = true ∧
    Eval demoHost 6 (.Expression (.If 1 (.BooleanLiteral 1 true)
      (.mk 1 [.ExpressionStatement 1
        (.If 1 (.BooleanLiteral 1 false) (.mk 1 [.ExpressionStatement 1 lit10]) none)])
      none)) 0 initialWorld = some (.Null, initialWorld) :=
  ⟨rfl, rfl, rfl⟩

/-- C8, amended: a value is falsy exactly when it is the Boolean false or Null,
so every Number (0 too) is truthy.  When `e` evaluates to `v`, the prefix
expression `!e` yields the Boolean true exactly when `v` is false or Null (`!5`
is false and `!!5` is true); an if-expression without else branch whose
condition `e` is falsy yields Null, and one whose condition is truthy yields
what its consequence block yields. -/
theorem C8_truthiness (H : Host) (line : Int) (e : Expression) (cons : BlockStatement)
    (env : EnvRef) (w w1 : World) (v : Object)
    (hv : Evaluates H (.Expression e) env w (v, w1)) :
    (∀ o : Object, isTruthy o = false ↔ o = .Boolean false ∨ o = .Null) ∧
    (∀ x : F32, isTruthy (.Number x) = true) ∧
    (∃ r, Evaluates H (.Expression (.Prefix line "!" e)) env w (r, w1) ∧
      (r = .Boolean true ↔ v = .Boolean false ∨ v = .Null) ∧
      (isError v = false → r = .Boolean (!isTruthy v))) ∧
    (∀ (x : F32) (l1 l2 l3 : Int),
      Eval H 2 (.Expression (.Prefix l1 "!" (.NumberLiteral l2 x))) env w
        = some (.Boolean false, w) ∧
      Eval H 3 (.Expression (.Prefix l3 "!" (.Prefix l1 "!" (.NumberLiteral l2 x)))) env w
        = some (.Boolean true, w)) ∧
    (isTruthy v = false →
      Evaluates H (.Expression (.If line e cons none)) env w (.Null, w1)) ∧
    (isTruthy v = true → isError v = false → ∀ res,
      Evaluates H (.Expression (.If line e cons none)) env w res
        ↔ Evaluates H (.Block cons) env w1 res) := by
  obtain ⟨n, hn⟩ := hv
  refine ⟨?_, fun _ => rfl, ?_, fun _ _ _ _ => ⟨rfl, rfl⟩, ?_, ?_⟩
  · intro o
    cases o <;> simp [isTruthy]
  · by_cases herr : isError v = true
    · refine ⟨v, ⟨n + 1, ?_⟩, ?_, ?_⟩
      · show evalExpression H (Eval H n) (.Prefix line "!" e) env w = _
        simp [evalExpression, hn, herr]
      · cases v <;> first
          | (exfalso; revert herr; simp only [isError, Object.Type]; decide)
          | simp
      · intro h; rw [h] at herr; exact absurd herr (by decide)
    · refine ⟨.Boolean (!isTruthy v), ⟨n + 1, ?_⟩, ?_, fun _ => rfl⟩
      · show evalExpression H (Eval H n) (.Prefix line "!" e) env w = _
        simp [evalExpression, hn, herr, evalPrefixExpression]
      · cases v <;> simp [isTruthy]
  · intro hf
    exact ⟨n + 1, Eval_if_none H hn hf⟩
  · intro ht hne res
    constructor
    · rintro ⟨k, hk⟩
      cases k with
      | zero => simp [Eval] at hk
      | succ k =>
        have hk2 : evalExpression H (Eval H k) (.If line e cons none) env w = some res := hk
        simp only [evalExpression] at hk2
        cases hc : Eval H k (.Expression e) env w with
        | none => simp [hc] at hk2
        | some p =>
          have hp : p = (v, w1) := Evaluates_unique H ⟨k, hc⟩ ⟨n, hn⟩
          subst hp
          simp only [hc, hne, ht, if_true] at hk2
          exact ⟨k, by simpa using hk2⟩
    · rintro ⟨k, hk⟩
      refine ⟨max n k + 1, ?_⟩
      rw [Eval_if_then H (Eval_mono H (Nat.le_max_left n k) _ _ _ _ hn) hne ht]
      exact Eval_mono H (Nat.le_max_right n k) _ _ _ _ hk

/-- C8 at concrete inputs: `if (false) { 10 }` yields Null. -/
theorem C8_truthiness_witness :
    Evaluates demoHost (.Expression (.If 1 (.BooleanLiteral 1 false)
      (.mk 1 [.ExpressionStatement 1 lit10]) none)) 0 initialWorld (.Null, initialWorld) :=
  (C8_truthiness demoHost 1 (.BooleanLiteral 1 false) (.mk 1 [.ExpressionStatement 1 lit10])
    0 initialWorld initialWorld (.Boolean false) ⟨1, rfl⟩).2.2.2.2.1 rfl

/-! ## Theorems: object.go, continued -/

/-- C16: the nine defined tags are the Type values 0 (NULL) through 8 (ERROR);
Type.String gives them nine different, non-empty names, so it is injective on
them, and it returns the empty string for exactly the Type values outside that
range, the negative ones and those from 9 on. -/
theorem C16_type_string_injective_on_defined :
    (∀ t : ObjectType, t ∈ definedTypes ↔ 0 ≤ t.val ∧ t.val ≤ 8) ∧
    NULL.val = 0 ∧ ERROR.val = 8 ∧
    Function.Injective (fun t : { t : ObjectType // t ∈ definedTypes } => t.val.String) ∧
    (definedTypes.map ObjectType.String).Nodup ∧
    (∀ t : ObjectType, t.String ≠ "" ↔ t ∈ definedTypes) ∧
    (∀ t : ObjectType, t.String = "" ↔ t.val < 0 ∨ 9 ≤ t.val) := by
  have hmem : ∀ t : ObjectType, t ∈ definedTypes ↔ 0 ≤ t.val ∧ t.val ≤ 8 := by
    rintro ⟨v⟩
    simp only [definedTypes, NULL, NUMBER, BOOLEAN, STRING, ARRAY, RETURN, FUNCTION, BUILTIN,
      ERROR, List.mem_cons, List.mem_singleton, ObjectType.mk.injEq, List.mem_nil_iff, or_false]
    omega
  have hname : ∀ t : ObjectType, t.String ≠ "" ↔ t ∈ definedTypes := by
    intro t
    constructor
    · intro h
      unfold ObjectType.String at h
      simp only [definedTypes, List.mem_cons, List.mem_singleton]
      by_contra hcon
      simp only [not_or] at hcon
      simp [hcon] at h
    · intro h
      simp only [definedTypes, List.mem_cons, List.mem_singleton, List.mem_nil_iff, or_false] at h
      rcases h with h | h | h | h | h | h | h | h | h <;> subst h <;> decide
  refine ⟨hmem, rfl, rfl, ?_, by decide, hname, ?_⟩
  · rintro ⟨s, hs⟩ ⟨t, ht⟩ h
    simp only [definedTypes, List.mem_cons, List.mem_singleton, List.mem_nil_iff, or_false] at hs ht
    apply Subtype.ext
    simp only at h ⊢
    rcases hs with hs | hs | hs | hs | hs | hs | hs | hs | hs <;>
      rcases ht with ht | ht | ht | ht | ht | ht | ht | ht | ht <;>
      subst hs <;> subst ht <;> first | rfl | (exfalso; revert h; decide)
  · intro t
    have h1 := hname t
    have h2 := hmem t
    constructor
    · intro h
      have : ¬ t ∈ definedTypes := fun hm => (h1.mpr hm) h
      rw [h2] at this
      omega
    · intro h
      by_contra hne
      have := h2.mp (h1.mp hne)
      omega

/-- C17: a ReturnValue that holds a value renders as that value renders, so a
value wrapped any number of times (at least once) renders as the innermost
value, while the tag of the wrapper stays RETURN; a ReturnValue that holds no
value has no rendering (the Go method panics). -/
theorem C17_return_value_transparent (H : Host) (v : Object) (k : Nat) :
    (Object.ReturnValue (some v)).Inspect H = v.Inspect H ∧
    (wrapReturn (k + 1) v).Inspect H = v.Inspect H ∧
    (wrapReturn (k + 1) v).Type = RETURN ∧
    (Object.ReturnValue none).Inspect H = none ∧
    (Object.ReturnValue (some (Object.ReturnValue (some (Object.String "x"))))).Inspect H
      = some "x" := by
  refine ⟨by simp [Object.Inspect, InspectValue], ?_, rfl, by simp [Object.Inspect, InspectValue],
    by simp [Object.Inspect, InspectValue]⟩
  induction k with
  | zero => simp [wrapReturn, Object.Inspect, InspectValue]
  | succ n ih =>
    have : (wrapReturn (n + 1 + 1) v).Inspect H = (wrapReturn (n + 1) v).Inspect H := by
      simp [wrapReturn, Object.Inspect, InspectValue]
    rw [this, ih]

/-- C18: the rendering does not determine the object.  The String `null` and Null
have different tags and the same rendering, and so have the String `true` and the
Boolean true; the one-element Array holding the String `a, b` and the
two-element Array holding the Strings `a` and `b` both render as `[a, b]`. -/
theorem C18_inspect_not_injective (H : Host) :
    ((Object.String "null").Inspect H = Object.Null.Inspect H ∧
      (Object.String "null").Type ≠ Object.Null.Type) ∧
    ((Object.String "true").Inspect H = (Object.Boolean true).Inspect H ∧
      (Object.String "true").Type ≠ (Object.Boolean true).Type) ∧
    ((Object.Array [some (Object.String "a, b")]).Inspect H = some "[a, b]" ∧
      (Object.Array [some (Object.String "a"), some (Object.String "b")]).Inspect H
        = some "[a, b]" ∧
      [some (Object.String "a, b")].length ≠
        [some (Object.String "a"), some (Object.String "b")].length) := by
  refine ⟨⟨rfl, by decide⟩, ⟨rfl, by decide⟩, ⟨?_, ?_, by decide⟩⟩
  · simp [Object.Inspect, InspectElements, InspectValue, Join]
  · simp [Object.Inspect, InspectElements, InspectValue, Join]

/-! ## Theorems: the float32 format, numbers, indexing and builtins -/

theorem F32.fraction_lt (x : F32) : x.fraction < 2 ^ 23 :=
  Nat.mod_lt _ (by norm_num)

theorem F32.exponent_lt (x : F32) : x.exponent < 256 :=
  Nat.mod_lt _ (by norm_num)

theorem F32.sign_lt (x : F32) : x.sign < 2 :=
  Nat.mod_lt _ (by norm_num)

theorem F32.significand_lt (x : F32) : x.significand < 2 ^ 24 := by
  have h := x.fraction_lt
  unfold F32.significand
  split <;> omega

theorem F32.fields_of_bits (s e f : Nat) (hs : s < 2) (he : e < 256) (hf : f < 2 ^ 23) :
    (F32.mk (s * 2 ^ 31 + e * 2 ^ 23 + f)).sign = s ∧
    (F32.mk (s * 2 ^ 31 + e * 2 ^ 23 + f)).exponent = e ∧
    (F32.mk (s * 2 ^ 31 + e * 2 ^ 23 + f)).fraction = f := by
  simp only [F32.sign, F32.exponent, F32.fraction]
  norm_num at hf ⊢
  omega

theorem F32.value_eq_int (x : F32) (h : x.exponent ≠ 255) :
    x.value = some ((x.int : ℚ) / 2 ^ 149) := by
  have hsc : 1 ≤ x.scale := by unfold F32.scale; split <;> omega
  have key : ((x.significand * 2 ^ (x.scale - 150) : Nat) : ℚ) / ((2 ^ (150 - x.scale) : Nat) : ℚ)
      = ((x.mag : Nat) : ℚ) / 2 ^ 149 := by
    have hD : ((2 ^ (150 - x.scale) : Nat) : ℚ) ≠ 0 := by positivity
    rw [div_eq_div_iff hD (by positivity)]
    have hn : x.significand * 2 ^ (x.scale - 150) * 2 ^ 149
        = x.mag * 2 ^ (150 - x.scale) := by
      unfold F32.mag
      by_cases hc : x.scale ≤ 150
      · have e1 : x.scale - 150 = 0 := by omega
        have e2 : 149 = (x.scale - 1) + (150 - x.scale) := by omega
        rw [e1, pow_zero, mul_one, mul_assoc, ← pow_add, ← e2]
      · have e1 : 150 - x.scale = 0 := by omega
        have e2 : x.scale - 1 = (x.scale - 150) + 149 := by omega
        rw [e1, pow_zero, mul_one, mul_assoc, ← pow_add, ← e2]
    exact_mod_cast hn
  unfold F32.value
  rw [if_neg h, mul_div_assoc, key]
  unfold F32.int
  by_cases hs : x.sign = 1
  · simp only [hs, if_true]
    push_cast
    ring_nf
  · simp only [hs, if_false]
    push_cast
    ring_nf

theorem F32.exponent_ne_of_value {x : F32} {q : ℚ} (h : x.value = some q) : x.exponent ≠ 255 := by
  intro he
  simp [F32.value, he] at h

theorem F32.int_of_value {x : F32} {q : ℚ} (h : x.value = some q) : (x.int : ℚ) = q * 2 ^ 149 := by
  rw [F32.value_eq_int x (F32.exponent_ne_of_value h)] at h
  have := Option.some.inj h
  rw [← this]
  field_simp

theorem F32.not_isNaN_of_value {x : F32} {q : ℚ} (h : x.value = some q) : x.isNaN = false := by
  simp [F32.isNaN, F32.exponent_ne_of_value h]

theorem F32.not_isInf_of_value {x : F32} {q : ℚ} (h : x.value = some q) : x.isInf = false := by
  simp [F32.isInf, F32.exponent_ne_of_value h]

theorem F32.ord_of_value {x : F32} {q : ℚ} (h : x.value = some q) : x.ord = x.int := by
  simp [F32.ord, F32.exponent_ne_of_value h]

theorem F32.int_lt_iff {x y : F32} {p q : ℚ} (hx : x.value = some p) (hy : y.value = some q) :
    x.int < y.int ↔ p < q := by
  have h1 := F32.int_of_value hx
  have h2 := F32.int_of_value hy
  have h3 : ((x.int : ℚ) < (y.int : ℚ)) ↔ p < q := by
    rw [h1, h2]
    exact mul_lt_mul_right (by positivity)
  rw [← h3]
  exact Int.cast_lt.symm

theorem F32.int_le_iff {x y : F32} {p q : ℚ} (hx : x.value = some p) (hy : y.value = some q) :
    x.int ≤ y.int ↔ p ≤ q := by
  have h := F32.int_lt_iff hy hx
  constructor
  · intro hle
    by_contra hcon
    exact absurd (h.mpr (lt_of_not_le hcon)) (not_lt.mpr hle)
  · intro hle
    by_contra hcon
    exact absurd (h.mp (lt_of_not_le hcon)) (not_lt.mpr hle)

theorem F32.int_eq_iff {x y : F32} {p q : ℚ} (hx : x.value = some p) (hy : y.value = some q) :
    x.int = y.int ↔ p = q := by
  have h1 := F32.int_le_iff hx hy
  have h2 := F32.int_le_iff hy hx
  constructor
  · intro h
    exact le_antisymm (h1.mp (le_of_eq h)) (h2.mp (le_of_eq h.symm))
  · intro h
    exact le_antisymm (h1.mpr (le_of_eq h)) (h2.mpr (le_of_eq h.symm))

theorem F32.compare_of_value {x y : F32} {p q : ℚ} (hx : x.value = some p)
    (hy : y.value = some q) :
    F32.lt x y = decide (p < q) ∧ F32.gt x y = decide (p > q) ∧
    F32.le x y = decide (p ≤ q) ∧ F32.ge x y = decide (p ≥ q) ∧
    F32.eq x y = decide (p = q) ∧ F32.ne x y = decide (p ≠ q) := by
  have nx := F32.not_isNaN_of_value hx
  have ny := F32.not_isNaN_of_value hy
  have ox := F32.ord_of_value hx
  have oy := F32.ord_of_value hy
  simp only [F32.lt, F32.gt, F32.le, F32.ge, F32.eq, F32.ne, nx, ny, ox, oy, Bool.not_false,
    Bool.true_and, gt_iff_lt, ge_iff_le, ne_eq]
  refine ⟨?_, ?_, ?_, ?_, ?_, ?_⟩
  · exact decide_eq_decide.mpr (F32.int_lt_iff hx hy)
  · exact decide_eq_decide.mpr (F32.int_lt_iff hy hx)
  · exact decide_eq_decide.mpr (F32.int_le_iff hx hy)
  · exact decide_eq_decide.mpr (F32.int_le_iff hy hx)
  · exact decide_eq_decide.mpr (F32.int_eq_iff hx hy)
  · rw [decide_not]
    congr 1
    exact decide_eq_decide.mpr (F32.int_eq_iff hx hy)

theorem scaled_exact (num den sig k0 k : Nat) (h : num * 2 ^ 149 = sig * 2 ^ k0 * den)
    (hk : k ≤ k0) :
    num * 2 ^ (149 - k) = sig * 2 ^ (k0 - k) * (den * 2 ^ (k - 149)) := by
  by_cases hc : k ≤ 149
  · have e1 : k - 149 = 0 := by omega
    rw [e1, pow_zero, mul_one]
    have hpos : 0 < 2 ^ k := Nat.pos_pow_of_pos k (by norm_num)
    apply Nat.eq_of_mul_eq_mul_right hpos
    have a1 : num * 2 ^ (149 - k) * 2 ^ k = num * 2 ^ 149 := by
      have e : 149 - k + k = 149 := by omega
      rw [mul_assoc, ← pow_add, e]
    have a2 : sig * 2 ^ (k0 - k) * den * 2 ^ k = sig * 2 ^ k0 * den := by
      have e : k0 - k + k = k0 := by omega
      have : 2 ^ k0 = 2 ^ (k0 - k) * 2 ^ k := by rw [← pow_add, e]
      rw [this]; ring
    rw [a1, a2, h]
  · have e1 : 149 - k = 0 := by omega
    rw [e1, pow_zero, mul_one]
    have hpos : 0 < 2 ^ 149 := Nat.pos_pow_of_pos 149 (by norm_num)
    apply Nat.eq_of_mul_eq_mul_right hpos
    have a2 : sig * 2 ^ (k0 - k) * (den * 2 ^ (k - 149)) * 2 ^ 149 = sig * 2 ^ k0 * den := by
      have e : k0 - k + (k - 149 + 149) = k0 := by omega
      have : 2 ^ k0 = 2 ^ (k0 - k) * (2 ^ (k - 149) * 2 ^ 149) := by
        rw [← pow_add, ← pow_add, e]
      rw [this]; ring
    rw [a2, h]

theorem scaled_quot (num den sig k0 k : Nat) (h : num * 2 ^ 149 = sig * 2 ^ k0 * den)
    (hden : 0 < den) (hk : k ≤ k0) :
    num * 2 ^ (149 - k) / (den * 2 ^ (k - 149)) = sig * 2 ^ (k0 - k) ∧
    num * 2 ^ (149 - k) % (den * 2 ^ (k - 149)) = 0 := by
  have hd : 0 < den * 2 ^ (k - 149) := Nat.mul_pos hden (Nat.pos_pow_of_pos _ (by norm_num))
  rw [scaled_exact num den sig k0 k h hk]
  exact ⟨Nat.mul_div_cancel _ hd, Nat.mul_mod_left _ _⟩

theorem findScale_exact (num den sig k0 : Nat) (h : num * 2 ^ 149 = sig * 2 ^ k0 * den)
    (hden : 0 < den) (hsig : sig < 2 ^ 24) (hnorm : 0 < k0 → 2 ^ 23 ≤ sig) :
    ∀ (d fuel k : Nat), k + d = k0 → d < fuel → findScale fuel num den k = k0 := by
  intro d
  induction d with
  | zero =>
    intro fuel k hk hf
    obtain ⟨f, rfl⟩ : ∃ f, fuel = f + 1 := ⟨fuel - 1, by omega⟩
    have hq := (scaled_quot num den sig k0 k h hden (by omega)).1
    have e : k0 - k = 0 := by omega
    rw [e, pow_zero, mul_one] at hq
    simp only [findScale, hq, hsig, if_true]
    omega
  | succ d ih =>
    intro fuel k hk hf
    obtain ⟨f, rfl⟩ : ∃ f, fuel = f + 1 := ⟨fuel - 1, by omega⟩
    have hq := (scaled_quot num den sig k0 k h hden (by omega)).1
    have hbig : ¬ sig * 2 ^ (k0 - k) < 2 ^ 24 := by
      have h1 : 2 ^ 23 ≤ sig := hnorm (by omega)
      have e : k0 - k = (k0 - k - 1) + 1 := by omega
      have h2 : 1 ≤ 2 ^ (k0 - k - 1) := Nat.one_le_two_pow
      rw [e, pow_succ]
      have h3 : sig * (2 ^ (k0 - k - 1) * 2) = 2 * (sig * 2 ^ (k0 - k - 1)) := by ring
      have h4 : sig * 1 ≤ sig * 2 ^ (k0 - k - 1) := Nat.mul_le_mul_left sig h2
      rw [h3]
      norm_num at h1 ⊢
      omega
    simp only [findScale, hq, hbig, if_false]
    exact ih f (k + 1) (by omega) (by omega)

theorem roundAt_exact (num den sig k0 : Nat) (h : num * 2 ^ 149 = sig * 2 ^ k0 * den)
    (hden : 0 < den) : roundAt num den k0 = sig := by
  have hq := scaled_quot num den sig k0 k0 h hden (Nat.le_refl _)
  have hd : 0 < den * 2 ^ (k0 - 149) := Nat.mul_pos hden (Nat.pos_pow_of_pos _ (by norm_num))
  simp only [roundAt, hq.1, hq.2, Nat.sub_self, pow_zero, mul_one, mul_zero]
  have : ¬ (den * 2 ^ (k0 - 149) < 0 ∨ (0 = den * 2 ^ (k0 - 149) ∧ sig % 2 = 1)) := by
    rintro (h1 | ⟨h1, _⟩) <;> omega
  rw [if_neg this]

/-- Rounding is exact on a ratio that is the magnitude of a finite `float32`: the
result is that `float32`. -/
theorem F32.ofRatio_exact (neg : Bool) (num den : Nat) (z : F32) (hz : z.exponent ≠ 255)
    (hden : 0 < den) (h : num * 2 ^ 149 = z.mag * den) :
    (F32.ofRatio neg num den).sign = (if neg then 1 else 0) ∧
    (F32.ofRatio neg num den).exponent = z.exponent ∧
    (F32.ofRatio neg num den).fraction = z.fraction := by
  have hf := z.fraction_lt
  have he := z.exponent_lt
  have hsig := z.significand_lt
  have hnorm : 0 < z.scale - 1 → 2 ^ 23 ≤ z.significand := by
    unfold F32.scale F32.significand
    split <;> intro h0 <;> omega
  have hk := findScale_exact num den z.significand (z.scale - 1) h hden hsig hnorm
    (z.scale - 1) 512 0 (by omega) (by unfold F32.scale; split <;> omega)
  have hr := roundAt_exact num den z.significand (z.scale - 1) h hden
  have hm : (z.scale - 1) * 2 ^ 23 + z.significand = z.exponent * 2 ^ 23 + z.fraction := by
    unfold F32.scale F32.significand
    split
    · rename_i h0; rw [h0]
    · rename_i h0
      have : z.exponent = (z.exponent - 1) + 1 := by omega
      rw [this]; simp only [Nat.add_sub_cancel]; ring
  have hbits : (F32.ofRatio neg num den).bits
      = (if neg then 1 else 0) * 2 ^ 31 + z.exponent * 2 ^ 23 + z.fraction := by
    unfold F32.ofRatio
    simp only [hk, hr, hm]
    have hlt : z.exponent * 2 ^ 23 + z.fraction ≤ 255 * 2 ^ 23 := by
      norm_num at hf ⊢
      omega
    rw [Nat.min_eq_left hlt]
    cases neg
    · simp
    · simp; ring_nf
  have hfields := F32.fields_of_bits (if neg then 1 else 0) z.exponent z.fraction
    (by cases neg <;> simp) he hf
  have hx : F32.ofRatio neg num den
      = F32.mk ((if neg then 1 else 0) * 2 ^ 31 + z.exponent * 2 ^ 23 + z.fraction) := by
    cases hh : F32.ofRatio neg num den with
    | mk b => rw [hh] at hbits; simp only at hbits; rw [hbits]
  rw [hx]
  exact hfields

theorem F32.int_of_fields (x z : F32) (s : Nat) (hsign : x.sign = s)
    (he : x.exponent = z.exponent) (hf : x.fraction = z.fraction) :
    x.mag = z.mag ∧ x.int = (if s = 1 then -(z.mag : Int) else (z.mag : Int)) := by
  have hm : x.mag = z.mag := by
    unfold F32.mag F32.significand F32.scale
    rw [he, hf]
  refine ⟨hm, ?_⟩
  unfold F32.int
  rw [hsign, hm]

/-- The value of `ofRatio neg num den` when `num / den` is the magnitude of the
finite `float32` `z`. -/
theorem F32.ofRatio_value (neg : Bool) (num den : Nat) (z : F32) (hz : z.exponent ≠ 255)
    (hden : 0 < den) (h : num * 2 ^ 149 = z.mag * den) :
    (F32.ofRatio neg num den).value
      = some ((if neg then -1 else 1) * ((num : ℚ) / (den : ℚ))) := by
  obtain ⟨h1, h2, h3⟩ := F32.ofRatio_exact neg num den z hz hden h
  have hi := (F32.int_of_fields _ z _ h1 h2 h3).2
  rw [F32.value_eq_int _ (by rw [h2]; exact hz), hi]
  have hq : (z.mag : ℚ) / 2 ^ 149 = (num : ℚ) / (den : ℚ) := by
    have hd : (den : ℚ) ≠ 0 := by exact_mod_cast hden.ne'
    rw [div_eq_div_iff (by positivity) hd]
    have : ((num * 2 ^ 149 : Nat) : ℚ) = ((z.mag * den : Nat) : ℚ) := by rw [h]
    push_cast at this
    linarith
  cases neg
  · simp only [Bool.false_eq_true, if_false, one_mul]
    rw [← hq]
    norm_num
  · simp only [if_true]
    rw [← hq]
    push_cast
    ring_nf

theorem F32.int_cast (x : F32) :
    (x.int : ℚ) = (if x.sign = 1 then -1 else 1) * (x.mag : ℚ) := by
  unfold F32.int
  split <;> simp

theorem F32.int_natAbs (x : F32) : x.int.natAbs = x.mag := by
  unfold F32.int
  split <;> simp

theorem F32.mag_eq_zero_iff (x : F32) : x.mag = 0 ↔ x.isZero = true := by
  have hf := x.fraction_lt
  unfold F32.mag F32.significand F32.isZero
  have hp : 2 ^ (x.scale - 1) ≠ 0 := by positivity
  by_cases he : x.exponent = 0
  · simp [he, hp]
  · simp [he, hp]

theorem F32.zero_value (neg : Bool) : (F32.zero neg).value = some 0 := by
  cases neg <;>
    simp [F32.zero, F32.value, F32.exponent, F32.sign, F32.significand, F32.scale, F32.fraction]

theorem F32.neg_fields (x : F32) :
    (F32.neg x).sign = 1 - x.sign ∧ (F32.neg x).exponent = x.exponent ∧
    (F32.neg x).fraction = x.fraction := by
  unfold F32.neg
  by_cases hs : x.sign = 1
  · rw [if_pos hs]
    simp only [F32.sign, F32.exponent, F32.fraction] at hs ⊢
    norm_num at hs ⊢
    omega
  · rw [if_neg hs]
    simp only [F32.sign, F32.exponent, F32.fraction] at hs ⊢
    norm_num at hs ⊢
    omega

theorem F32.neg_value {x : F32} {q : ℚ} (h : x.value = some q) :
    (F32.neg x).value = some (-q) := by
  obtain ⟨h1, h2, h3⟩ := F32.neg_fields x
  have hx := F32.exponent_ne_of_value h
  have hi := F32.int_of_value h
  have hs := x.sign_lt
  have hm := (F32.int_of_fields (F32.neg x) x _ h1 h2 h3).2
  rw [F32.value_eq_int _ (by rw [h2]; exact hx), hm]
  have hq : q = (x.int : ℚ) / 2 ^ 149 := by rw [hi]; field_simp
  rw [hq, F32.int_cast]
  by_cases hs1 : x.sign = 1
  · simp only [hs1]
    push_cast
    simp
    ring
  · have hs0 : x.sign = 0 := by omega
    simp only [hs0]
    push_cast
    simp
    ring

/-- The sum of two finite `float32` is the real-number sum whenever that sum is
the value of a `float32`. -/
theorem F32.add_exact {a b z : F32} {p q : ℚ} (ha : a.value = some p) (hb : b.value = some q)
    (hz : z.value = some (p + q)) : (F32.add a b).value = some (p + q) := by
  have ia := F32.int_of_value ha
  have ib := F32.int_of_value hb
  have iz := F32.int_of_value hz
  have hzi : z.int = a.int + b.int := by
    have : (z.int : ℚ) = ((a.int + b.int : Int) : ℚ) := by
      push_cast
      rw [ia, ib, iz]
      ring
    exact_mod_cast this
  unfold F32.add
  simp only [F32.not_isNaN_of_value ha, F32.not_isNaN_of_value hb, F32.not_isInf_of_value ha,
    F32.not_isInf_of_value hb, Bool.or_self, Bool.false_eq_true, if_false]
  by_cases h0 : a.int + b.int = 0
  · rw [if_pos h0, F32.zero_value]
    have : (p + q) * 2 ^ 149 = 0 := by
      rw [← iz, hzi, h0]
      simp
    have h2 : (2 : ℚ) ^ 149 ≠ 0 := by positivity
    have := (mul_eq_zero.mp this).resolve_right h2
    rw [this]
  · rw [if_neg h0]
    have hnat : (a.int + b.int).natAbs * 2 ^ 149 = z.mag * 2 ^ 149 := by
      rw [← hzi, F32.int_natAbs]
    rw [F32.ofRatio_value _ _ _ z (F32.exponent_ne_of_value hz) (by positivity) hnat]
    congr 1
    have hS : ((a.int + b.int : Int) : ℚ) = (p + q) * 2 ^ 149 := by rw [← hzi, iz]
    have hcast : (((a.int + b.int).natAbs : Nat) : ℚ) = |((a.int + b.int : Int) : ℚ)| := by
      rw [Nat.cast_natAbs, Int.cast_abs]
    rw [hcast, hS]
    have h2 : (0 : ℚ) < 2 ^ 149 := by positivity
    by_cases hneg : a.int + b.int < 0
    · have hlt : (p + q) * 2 ^ 149 < 0 := by
        rw [← hS]
        exact_mod_cast hneg
      simp only [hneg, decide_True, if_true]
      rw [abs_of_neg hlt]
      rw [Nat.cast_pow, Nat.cast_ofNat]
      generalize (2 : ℚ) ^ 149 = T at h2 ⊢
      field_simp
    · have hge : 0 ≤ (p + q) * 2 ^ 149 := by
        rw [← hS]
        exact_mod_cast (not_lt.mp hneg)
      simp only [hneg, decide_False, Bool.false_eq_true, if_false]
      rw [abs_of_nonneg hge]
      rw [Nat.cast_pow, Nat.cast_ofNat]
      generalize (2 : ℚ) ^ 149 = T at h2 ⊢
      field_simp

/-- The difference of two finite `float32` is the real-number difference whenever
that difference is the value of a `float32`. -/
theorem F32.sub_exact {a b z : F32} {p q : ℚ} (ha : a.value = some p) (hb : b.value = some q)
    (hz : z.value = some (p - q)) : (F32.sub a b).value = some (p - q) := by
  unfold F32.sub
  rw [sub_eq_add_neg] at hz ⊢
  exact F32.add_exact ha (F32.neg_value hb) hz

theorem F32.sign_factor (a b : F32) :
    ((if (a.sign != b.sign) = true then -1 else 1 : ℚ))
      = (if a.sign = 1 then -1 else 1) * (if b.sign = 1 then -1 else 1) := by
  have h1 := a.sign_lt
  have h2 := b.sign_lt
  have ca : a.sign = 0 ∨ a.sign = 1 := by omega
  have cb : b.sign = 0 ∨ b.sign = 1 := by omega
  rcases ca with ca | ca <;> rcases cb with cb | cb <;> simp [ca, cb]

/-- The product of two finite `float32` is the real-number product whenever that
product is the value of a `float32`. -/
theorem F32.mul_exact {a b z : F32} {p q : ℚ} (ha : a.value = some p) (hb : b.value = some q)
    (hz : z.value = some (p * q)) : (F32.mul a b).value = some (p * q) := by
  have ia := F32.int_of_value ha
  have ib := F32.int_of_value hb
  have iz := F32.int_of_value hz
  have hzi : z.int * 2 ^ 149 = a.int * b.int := by
    have : ((z.int * 2 ^ 149 : Int) : ℚ) = ((a.int * b.int : Int) : ℚ) := by
      push_cast
      rw [ia, ib, iz]
      ring
    exact_mod_cast this
  have hmag : z.mag * 2 ^ 149 = a.mag * b.mag := by
    have := congrArg Int.natAbs hzi
    rw [Int.natAbs_mul, Int.natAbs_mul, F32.int_natAbs, F32.int_natAbs, F32.int_natAbs] at this
    simpa [Int.natAbs_pow] using this
  unfold F32.mul
  simp only [F32.not_isNaN_of_value ha, F32.not_isNaN_of_value hb, F32.not_isInf_of_value ha,
    F32.not_isInf_of_value hb, Bool.or_self, Bool.false_eq_true, if_false]
  have hnat : a.mag * b.mag * 2 ^ 149 = z.mag * (2 ^ 149 * 2 ^ 149) := by
    rw [← hmag]; ring
  rw [F32.ofRatio_value _ _ _ z (F32.exponent_ne_of_value hz) (by positivity) hnat]
  congr 1
  have hp : p = (a.int : ℚ) / 2 ^ 149 := by rw [ia]; field_simp
  have hq : q = (b.int : ℚ) / 2 ^ 149 := by rw [ib]; field_simp
  rw [hp, hq, F32.int_cast, F32.int_cast, F32.sign_factor]
  push_cast
  field_simp
  ring_nf

/-- The quotient of two finite `float32`, the divisor not zero, is the real-number
quotient whenever that quotient is the value of a `float32`. -/
theorem F32.div_exact {a b z : F32} {p q : ℚ} (ha : a.value = some p) (hb : b.value = some q)
    (hq0 : q ≠ 0) (hz : z.value = some (p / q)) : (F32.div a b).value = some (p / q) := by
  have ia := F32.int_of_value ha
  have ib := F32.int_of_value hb
  have iz := F32.int_of_value hz
  have h2 : (2 : ℚ) ^ 149 ≠ 0 := by positivity
  have hbint : (b.int : ℚ) ≠ 0 := by rw [ib]; exact mul_ne_zero hq0 h2
  have hbmag : b.mag ≠ 0 := by
    intro h0
    apply hbint
    rw [F32.int_cast, h0]
    simp
  have hzi : z.int * b.int = a.int * 2 ^ 149 := by
    have : ((z.int * b.int : Int) : ℚ) = ((a.int * 2 ^ 149 : Int) : ℚ) := by
      rw [Int.cast_mul, Int.cast_mul, Int.cast_pow, Int.cast_ofNat, ia, ib, iz]
      generalize (2 : ℚ) ^ 149 = T at h2 ⊢
      field_simp
      ring
    exact_mod_cast this
  have hmag : a.mag * 2 ^ 149 = z.mag * b.mag := by
    have := congrArg Int.natAbs hzi
    rw [Int.natAbs_mul, Int.natAbs_mul, F32.int_natAbs, F32.int_natAbs, F32.int_natAbs] at this
    simpa [Int.natAbs_pow] using this.symm
  have hbz : b.isZero = false := by
    cases h : b.isZero
    · rfl
    · exact absurd ((F32.mag_eq_zero_iff b).mpr h) hbmag
  unfold F32.div
  simp only [F32.not_isNaN_of_value ha, F32.not_isNaN_of_value hb, F32.not_isInf_of_value ha,
    F32.not_isInf_of_value hb, hbz, Bool.or_self, Bool.false_eq_true, if_false]
  rw [F32.ofRatio_value _ _ _ z (F32.exponent_ne_of_value hz) (Nat.pos_of_ne_zero hbmag) hmag]
  congr 1
  have hp : p = (a.int : ℚ) / 2 ^ 149 := by rw [ia]; field_simp
  have hq : q = (b.int : ℚ) / 2 ^ 149 := by rw [ib]; field_simp
  have hbm : (b.mag : ℚ) ≠ 0 := by exact_mod_cast hbmag
  rw [hp, hq, F32.int_cast, F32.int_cast, F32.sign_factor]
  generalize (2 : ℚ) ^ 149 = T at h2 ⊢
  have h1 := a.sign_lt
  have h3 := b.sign_lt
  have ca : a.sign = 0 ∨ a.sign = 1 := by omega
  have cb : b.sign = 0 ∨ b.sign = 1 := by omega
  have hnb : -(b.mag : ℚ) ≠ 0 := neg_ne_zero.mpr hbm
  rcases ca with ca | ca <;> rcases cb with cb | cb <;> simp [ca, cb] <;> field_simp <;> ring

theorem F32_value_ne_2p24_add_one (x : F32) : x.value ≠ some (16777216 + 1) := by
  unfold F32.value
  split
  · simp
  · intro h
    have h1 := Option.some.inj h
    have hs := x.significand_lt
    have hD : (0 : ℚ) < ((2 ^ (150 - x.scale) : Nat) : ℚ) :=
      Nat.cast_pos.mpr (Nat.one_le_two_pow)
    by_cases hsign : x.sign = 1
    · simp only [hsign, if_true] at h1
      have hneg : (-1 : ℚ) * ((x.significand * 2 ^ (x.scale - 150) : Nat) : ℚ)
          / ((2 ^ (150 - x.scale) : Nat) : ℚ) ≤ 0 := by
        apply div_nonpos_of_nonpos_of_nonneg
        · have : (0 : ℚ) ≤ ((x.significand * 2 ^ (x.scale - 150) : Nat) : ℚ) := Nat.cast_nonneg _
          linarith
        · exact hD.le
      rw [h1] at hneg
      norm_num at hneg
    · simp only [hsign, if_false, one_mul] at h1
      rw [div_eq_iff hD.ne'] at h1
      have h2 : x.significand * 2 ^ (x.scale - 150) = (16777216 + 1) * 2 ^ (150 - x.scale) := by
        exact_mod_cast h1
      by_cases hc : x.scale ≤ 150
      · have e1 : x.scale - 150 = 0 := by omega
        rw [e1, pow_zero, mul_one] at h2
        have hp : 1 ≤ 2 ^ (150 - x.scale) := Nat.one_le_two_pow
        generalize 2 ^ (150 - x.scale) = P at h2 hp
        have hs2 : x.significand < 16777216 := hs
        omega
      · have e1 : 150 - x.scale = 0 := by omega
        have e2 : x.scale - 150 = (x.scale - 151) + 1 := by omega
        rw [e1, pow_zero, mul_one, e2, pow_succ] at h2
        generalize 2 ^ (x.scale - 151) = P at h2
        have h3 : x.significand * (P * 2) = 2 * (x.significand * P) := by ring
        generalize x.significand * P = Q at h3
        omega

theorem Eval_index (H : Host) (line : Int) {left index : Expression} {env : EnvRef}
    {w w1 w2 : World} {l i : Object}
    (hl : Evaluates H (.Expression left) env w (l, w1)) (hle : isError l = false)
    (hi : Evaluates H (.Expression index) env w1 (i, w2)) (hie : isError i = false) :
    Evaluates H (.Expression (.Index line left index)) env w
      (evalIndexExpression line l i, w2) := by
  obtain ⟨n1, h1⟩ := hl
  obtain ⟨n2, h2⟩ := hi
  refine ⟨max n1 n2 + 1, ?_⟩
  show evalExpression H (Eval H (max n1 n2)) (.Index line left index) env w = _
  simp only [evalExpression]
  rw [Eval_mono H (Nat.le_max_left n1 n2) _ _ _ _ h1]
  simp only [hle]
  rw [Eval_mono H (Nat.le_max_right n1 n2) _ _ _ _ h2]
  simp [hie]

theorem evalIndexExpression_whole (line : Int) (elems : List (Option Object)) (i : F32) (k : Nat)
    (v : Object) (hk : i.value = some (k : ℚ)) (hget : elems.get? k = some (some v)) :
    evalIndexExpression line (.Array elems) (.Number i) = v := by
  have hlt : k < elems.length := by
    by_contra hcon
    rw [List.get?_eq_none.mpr (Nat.le_of_not_lt hcon)] at hget
    exact absurd hget (by simp)
  have hin : ¬ ((k : ℚ) < 0 ∨ (elems.length : ℚ) ≤ (k : ℚ)) := by
    rintro (h | h)
    · exact absurd h (not_lt.mpr (Nat.cast_nonneg k))
    · exact absurd (Nat.cast_le.mp h) (not_le.mpr hlt)
  simp only [evalIndexExpression, hk, hin, if_false, Int.floor_natCast, Int.toNat_ofNat, hget]

theorem evalIndexExpression_outside (line : Int) (elems : List (Option Object)) (i : F32) (q : ℚ)
    (hq : i.value = some q) (hout : q < 0 ∨ (elems.length : ℚ) ≤ q) :
    evalIndexExpression line (.Array elems) (.Number i) = .Null := by
  simp only [evalIndexExpression, hq, hout, if_true]

theorem evalIndexExpression_none (line : Int) (elems : List (Option Object)) (i : F32)
    (hq : i.value = none) :
    evalIndexExpression line (.Array elems) (.Number i) = .Null := by
  simp only [evalIndexExpression, hq]

theorem evalIndexExpression_total (line : Int) (elems : List (Option Object)) (i : F32) :
    evalIndexExpression line (.Array elems) (.Number i) = .Null ∨
      some (evalIndexExpression line (.Array elems) (.Number i)) ∈ elems := by
  cases hq : i.value with
  | none => exact Or.inl (evalIndexExpression_none line elems i hq)
  | some q =>
    by_cases hout : q < 0 ∨ (elems.length : ℚ) ≤ q
    · exact Or.inl (evalIndexExpression_outside line elems i q hq hout)
    · cases hget : elems.get? (Int.toNat (Int.floor q)) with
      | none =>
        left
        simp only [evalIndexExpression, hq, hout, if_false, hget]
      | some e =>
        cases e with
        | none =>
          left
          simp only [evalIndexExpression, hq, hout, if_false, hget]
        | some v =>
          right
          have e1 : evalIndexExpression line (.Array elems) (.Number i) = v := by
            simp only [evalIndexExpression, hq, hout, if_false, hget]
          rw [e1]
          exact List.get?_mem hget

/-- C11: when the left operand of an index expression evaluates to an Array and
the index to a Number `i`, the index expression evaluates to the element at
position `k` when `i` holds the whole number `k` and `0 <= k < length`, and to
Null, which is no Error, when `i` holds a real number below 0 or not below the
length.  An index that holds no real number (an infinity, a NaN) gives Null as
well, and whatever Number the index is, the result is Null or an element of the
Array. -/
theorem C11_array_index (H : Host) (line : Int) (left index : Expression) (env : EnvRef)
    (w w1 w2 : World) (elems : List (Option Object)) (i : F32)
    (hl : Evaluates H (.Expression left) env w (.Array elems, w1))
    (hi : Evaluates H (.Expression index) env w1 (.Number i, w2)) :
    (∀ (k : Nat) (v : Object), i.value = some (k : ℚ) → elems.get? k = some (some v) →
      Evaluates H (.Expression (.Index line left index)) env w (v, w2)) ∧
    (∀ q : ℚ, i.value = some q → q < 0 ∨ (elems.length : ℚ) ≤ q →
      Evaluates H (.Expression (.Index line left index)) env w (.Null, w2)) ∧
    (i.value = none →
      Evaluates H (.Expression (.Index line left index)) env w (.Null, w2)) ∧
    (∃ r, Evaluates H (.Expression (.Index line left index)) env w (r, w2) ∧
      (r = .Null ∨ some r ∈ elems)) ∧
    isError .Null = false := by
  have hev := Eval_index H line hl (by rfl) hi (by rfl)
  refine ⟨fun k v hk hget => ?_, fun q hq hout => ?_, fun hq => ?_,
    ⟨_, hev, evalIndexExpression_total line elems i⟩, by decide⟩
  · rw [evalIndexExpression_whole line elems i k v hk hget] at hev
    exact hev
  · rw [evalIndexExpression_outside line elems i q hq hout] at hev
    exact hev
  · rw [evalIndexExpression_none line elems i hq] at hev
    exact hev

/-- C11 at `[1, 2, 3][3]`, `[1, 2, 3][-1]` and `[1, 2, 3][1]`: Null, Null and the
Number 2. -/
theorem C11_array_index_witness :
    Evaluates demoHost (.Expression (.Index 1
      (.ArrayLiteral 1 [lit1, .NumberLiteral 1 ⟨0x40000000⟩, .NumberLiteral 1 ⟨0x40400000⟩])
      (.NumberLiteral 1 ⟨0x40400000⟩))) 0 initialWorld (.Null, initialWorld) ∧
    Evaluates demoHost (.Expression (.Index 1
      (.ArrayLiteral 1 [lit1, .NumberLiteral 1 ⟨0x40000000⟩, .NumberLiteral 1 ⟨0x40400000⟩])
      (.Prefix 1 "-" lit1))) 0 initialWorld (.Null, initialWorld) ∧
    Evaluates demoHost (.Expression (.Index 1
      (.ArrayLiteral 1 [lit1, .NumberLiteral 1 ⟨0x40000000⟩, .NumberLiteral 1 ⟨0x40400000⟩])
      lit1)) 0 initialWorld (.Number ⟨0x40000000⟩, initialWorld) := by
  have v3 : (F32.mk 0x40400000).value = some 3 := by
    simp [F32.value, F32.exponent, F32.sign, F32.significand, F32.scale, F32.fraction]
    norm_num
  have vm1 : (F32.mk 0xBF800000).value = some (-1) := by
    simp [F32.value, F32.exponent, F32.sign, F32.significand, F32.scale, F32.fraction]
  have v1 : (F32.mk 0x3F800000).value = some ((1 : Nat) : ℚ) := by
    simp [F32.value, F32.exponent, F32.sign, F32.significand, F32.scale, F32.fraction]
  refine ⟨?_, ?_, ?_⟩
  · exact (C11_array_index demoHost 1
      (.ArrayLiteral 1 [lit1, .NumberLiteral 1 ⟨0x40000000⟩, .NumberLiteral 1 ⟨0x40400000⟩])
      (.NumberLiteral 1 ⟨0x40400000⟩) 0 initialWorld initialWorld initialWorld
      [some (.Number ⟨0x3F800000⟩), some (.Number ⟨0x40000000⟩), some (.Number ⟨0x40400000⟩)]
      ⟨0x40400000⟩ ⟨2, by rfl⟩ ⟨1, by rfl⟩).2.1 3 v3 (Or.inr (by norm_num))
  · exact (C11_array_index demoHost 1
      (.ArrayLiteral 1 [lit1, .NumberLiteral 1 ⟨0x40000000⟩, .NumberLiteral 1 ⟨0x40400000⟩])
      (.Prefix 1 "-" lit1) 0 initialWorld initialWorld initialWorld
      [some (.Number ⟨0x3F800000⟩), some (.Number ⟨0x40000000⟩), some (.Number ⟨0x40400000⟩)]
      ⟨0xBF800000⟩ ⟨2, by rfl⟩ ⟨2, by rfl⟩).2.1 (-1) vm1 (Or.inl (by norm_num))
  · exact (C11_array_index demoHost 1
      (.ArrayLiteral 1 [lit1, .NumberLiteral 1 ⟨0x40000000⟩, .NumberLiteral 1 ⟨0x40400000⟩])
      lit1 0 initialWorld initialWorld initialWorld
      [some (.Number ⟨0x3F800000⟩), some (.Number ⟨0x40000000⟩), some (.Number ⟨0x40400000⟩)]
      ⟨0x3F800000⟩ ⟨2, by rfl⟩ ⟨1, by rfl⟩).1 1 _ v1 (by rfl)

theorem newError_eq (line : Int) (msg : String) :
    newError line msg = .Error ("on line " ++ toString line ++ ": " ++ msg) line := by
  simp only [newError, fmtInt_eq_toString]

/-- C13: the builtin `len`, called on line `line`.  One String argument gives the
Number of its characters, one Array argument the Number of its elements, one
argument of any other type the Error `argument to len not supported` naming that
type, and any other number of arguments the Error `wrong number of arguments`
naming that number, whatever the arguments are; a call reaches `len` with the
line of the call node. -/
theorem C13_len_builtin (H : Host) (line : Int) (w : World) :
    (∀ s : String, callBuiltin H .len line [.String s] w = (.Number (H.ofNat s.length), w)) ∧
    (∀ es : List (Option Object),
      callBuiltin H .len line [.Array es] w = (.Number (H.ofNat es.length), w)) ∧
    (∀ a : Object, a.Type ≠ STRING → a.Type ≠ ARRAY →
      callBuiltin H .len line [a] w
        = (.Error ("on line " ++ toString line ++ ": argument to `len` not supported. got="
            ++ a.Type.String) line, w)) ∧
    (∀ args : List Object, args.length ≠ 1 →
      callBuiltin H .len line args w
        = (.Error ("on line " ++ toString line ++ ": wrong number of arguments. expected=1, got="
            ++ toString args.length) line, w)) ∧
    (∀ (ev : Node → EnvRef → World → Result) (args : List Object),
      applyFunction H ev line (.Builtin .len) args w = some (callBuiltin H .len line args w)) ∧
    testEval H 4 [.ExpressionStatement 1 (.Call 1 (.Ident ⟨1, "len"⟩) [.StringLiteral 1 "four"])]
      = some (.Number (H.ofNat 4)) ∧
    testEval H 4 [.ExpressionStatement 1 (.Call 1 (.Ident ⟨1, "len"⟩) [.NumberLiteral 1 ⟨0⟩])]
      = some (.Error "on line 1: argument to `len` not supported. got=NUMBER" 1) ∧
    testEval H 4 [.ExpressionStatement 1 (.Call 1 (.Ident ⟨1, "len"⟩)
        [.StringLiteral 1 "one", .StringLiteral 1 "two"])]
      = some (.Error "on line 1: wrong number of arguments. expected=1, got=2" 1) := by
  have e1 : ": argument to `len` not supported. got="
      = ": " ++ "argument to `len` not supported. got=" := by decide
  have e2 : ": wrong number of arguments. expected=1, got="
      = ": " ++ ("wrong number of arguments. expected=" ++ Nat.repr 1 ++ ", got=") := by decide
  refine ⟨fun _ => rfl, fun _ => rfl, ?_, ?_, fun _ _ => rfl, rfl, rfl, rfl⟩
  · intro a hs ha
    cases a <;>
      first
      | exact absurd rfl hs
      | exact absurd rfl ha
      | simp only [callBuiltin, newError_eq, e1, String.append_assoc]
  · intro args hlen
    have key : callBuiltin H .len line args w = (wrongNumberOfArguments line 1 args.length, w) := by
      match args, hlen with
      | [], _ => rfl
      | [a], h => exact absurd rfl h
      | a :: _ :: _, _ => cases a <;> rfl
    rw [key]
    have e3 : toString args.length = Nat.repr args.length := rfl
    simp only [wrongNumberOfArguments, newError_eq, e2, e3, String.append_assoc]

/-- C15, as stated, fails for `+`: the Numbers 16777216 and 1 both hold real
numbers, their real-number sum 16777217 is the value of no `float32`, and
`16777216 + 1` evaluates to the Number 16777216. -/
theorem C15_real_sum_is_no_float32 :
    (F32.mk 0x4B800000).value = some 16777216 ∧
    (F32.mk 0x3F800000).value = some 1 ∧
    (∀ z : F32, z.value ≠ some (16777216 + 1)) ∧
    (∀ H : Host,
      Eval H 2 (.Expression (.Infix 1 (.NumberLiteral 1 ⟨0x4B800000⟩) "+"
        (.NumberLiteral 1 ⟨0x3F800000⟩))) 0 initialWorld
        = some (.Number ⟨0x4B800000⟩, initialWorld)) := by
  refine ⟨?_, ?_, F32_value_ne_2p24_add_one, fun H => rfl⟩
  · simp [F32.value, F32.exponent, F32.sign, F32.significand, F32.scale, F32.fraction]
  · simp [F32.value, F32.exponent, F32.sign, F32.significand, F32.scale, F32.fraction]

theorem evalInfixExpression_numbers (line : Int) (a b : F32) :
    evalInfixExpression line "+" (.Number a) (.Number b) = .Number (F32.add a b) ∧
    evalInfixExpression line "-" (.Number a) (.Number b) = .Number (F32.sub a b) ∧
    evalInfixExpression line "*" (.Number a) (.Number b) = .Number (F32.mul a b) ∧
    evalInfixExpression line "/" (.Number a) (.Number b) = .Number (F32.div a b) ∧
    evalInfixExpression line "<" (.Number a) (.Number b) = .Boolean (F32.lt a b) ∧
    evalInfixExpression line ">" (.Number a) (.Number b) = .Boolean (F32.gt a b) ∧
    evalInfixExpression line "<=" (.Number a) (.Number b) = .Boolean (F32.le a b) ∧
    evalInfixExpression line ">=" (.Number a) (.Number b) = .Boolean (F32.ge a b) ∧
    evalInfixExpression line "==" (.Number a) (.Number b) = .Boolean (F32.eq a b) ∧
    evalInfixExpression line "!=" (.Number a) (.Number b) = .Boolean (F32.ne a b) :=
  ⟨rfl, rfl, rfl, rfl, rfl, rfl, rfl, rfl, rfl, rfl⟩

/-- C15, amended: let the operands of an infix expression evaluate to the Numbers
`a` and `b`, which hold the real numbers `p` and `q` (so neither is an infinity
or a NaN).  Then `+`, `-`, `*` and, for `q` other than 0, `/` yield a Number that
holds the real-number sum, difference, product and quotient of `p` and `q`,
whenever that real number is the value of a `float32` at all; and `<`, `>`, `<=`,
`>=`, `==` and `!=` yield the Boolean of the real-number comparison of `p` and
`q`. -/
theorem C15_number_infix (H : Host) (line : Int) (left right : Expression) (env : EnvRef)
    (w w1 w2 : World) (a b : F32) (p q : ℚ)
    (hl : Evaluates H (.Expression left) env w (.Number a, w1))
    (hr : Evaluates H (.Expression right) env w1 (.Number b, w2))
    (ha : a.value = some p) (hb : b.value = some q) :
    ((∃ z : F32, z.value = some (p + q)) → ∃ c : F32, c.value = some (p + q) ∧
      Evaluates H (.Expression (.Infix line left "+" right)) env w (.Number c, w2)) ∧
    ((∃ z : F32, z.value = some (p - q)) → ∃ c : F32, c.value = some (p - q) ∧
      Evaluates H (.Expression (.Infix line left "-" right)) env w (.Number c, w2)) ∧
    ((∃ z : F32, z.value = some (p * q)) → ∃ c : F32, c.value = some (p * q) ∧
      Evaluates H (.Expression (.Infix line left "*" right)) env w (.Number c, w2)) ∧
    (q ≠ 0 → (∃ z : F32, z.value = some (p / q)) → ∃ c : F32, c.value = some (p / q) ∧
      Evaluates H (.Expression (.Infix line left "/" right)) env w (.Number c, w2)) ∧
    Evaluates H (.Expression (.Infix line left "<" right)) env w (.Boolean (decide (p < q)), w2) ∧
    Evaluates H (.Expression (.Infix line left ">" right)) env w (.Boolean (decide (p > q)), w2) ∧
    Evaluates H (.Expression (.Infix line left "<=" right)) env w
      (.Boolean (decide (p ≤ q)), w2) ∧
    Evaluates H (.Expression (.Infix line left ">=" right)) env w
      (.Boolean (decide (p ≥ q)), w2) ∧
    Evaluates H (.Expression (.Infix line left "==" right)) env w
      (.Boolean (decide (p = q)), w2) ∧
    Evaluates H (.Expression (.Infix line left "!=" right)) env w
      (.Boolean (decide (p ≠ q)), w2) := by
  have h := fun op => Eval_infix H line op hl (by rfl) hr (by rfl)
  have e := evalInfixExpression_numbers line a b
  obtain ⟨c1, c2, c3, c4, c5, c6⟩ := F32.compare_of_value ha hb
  refine ⟨?_, ?_, ?_, ?_, ?_, ?_, ?_, ?_, ?_, ?_⟩
  · rintro ⟨z, hz⟩
    exact ⟨F32.add a b, F32.add_exact ha hb hz, by rw [← e.1]; exact h _⟩
  · rintro ⟨z, hz⟩
    exact ⟨F32.sub a b, F32.sub_exact ha hb hz, by rw [← e.2.1]; exact h _⟩
  · rintro ⟨z, hz⟩
    exact ⟨F32.mul a b, F32.mul_exact ha hb hz, by rw [← e.2.2.1]; exact h _⟩
  · rintro hq0 ⟨z, hz⟩
    exact ⟨F32.div a b, F32.div_exact ha hb hq0 hz, by rw [← e.2.2.2.1]; exact h _⟩
  · rw [← c1, ← e.2.2.2.2.1]; exact h _
  · rw [← c2, ← e.2.2.2.2.2.1]; exact h _
  · rw [← c3, ← e.2.2.2.2.2.2.1]; exact h _
  · rw [← c4, ← e.2.2.2.2.2.2.2.1]; exact h _
  · rw [← c5, ← e.2.2.2.2.2.2.2.2.1]; exact h _
  · rw [← c6, ← e.2.2.2.2.2.2.2.2.2]; exact h _

/-- C15 at `5 + 5`, `10 > 1` and `1 == 1`: a Number that holds 10, and twice the
Boolean true. -/
theorem C15_number_infix_witness :
    (∃ c : F32, c.value = some (5 + 5) ∧
      Evaluates demoHost (.Expression (.Infix 1 lit5 "+" lit5)) 0 initialWorld
        (.Number c, initialWorld)) ∧
    Evaluates demoHost (.Expression (.Infix 1 lit10 ">" lit1)) 0 initialWorld
      (.Boolean true, initialWorld) ∧
    Evaluates demoHost (.Expression (.Infix 1 lit1 "==" lit1)) 0 initialWorld
      (.Boolean true, initialWorld) := by
  have v1 : (F32.mk 0x3F800000).value = some 1 := by
    simp [F32.value, F32.exponent, F32.sign, F32.significand, F32.scale, F32.fraction]
  have v5 : (F32.mk 0x40A00000).value = some 5 := by
    simp [F32.value, F32.exponent, F32.sign, F32.significand, F32.scale, F32.fraction]
    norm_num
  have v10 : (F32.mk 0x41200000).value = some 10 := by
    simp [F32.value, F32.exponent, F32.sign, F32.significand, F32.scale, F32.fraction]
    norm_num
  have h0 := C15_number_infix demoHost 1 lit5 lit5 0 initialWorld initialWorld initialWorld
    ⟨0x40A00000⟩ ⟨0x40A00000⟩ 5 5 ⟨1, by rfl⟩ ⟨1, by rfl⟩ v5 v5
  have h1 := C15_number_infix demoHost 1 lit10 lit1 0 initialWorld initialWorld initialWorld
    ⟨0x41200000⟩ ⟨0x3F800000⟩ 10 1 ⟨1, by rfl⟩ ⟨1, by rfl⟩ v10 v1
  have h2 := C15_number_infix demoHost 1 lit1 lit1 0 initialWorld initialWorld initialWorld
    ⟨0x3F800000⟩ ⟨0x3F800000⟩ 1 1 ⟨1, by rfl⟩ ⟨1, by rfl⟩ v1 v1
  refine ⟨h0.1 ⟨⟨0x41200000⟩, ?_⟩, ?_, ?_⟩
  · rw [v10]; norm_num
  · have h := h1.2.2.2.2.2.1
    norm_num at h
    exact h
  · have h := h2.2.2.2.2.2.2.2.2.1
    norm_num at h
    exact h

/-! ## Theorems: hash keys -/

theorem HashKey_equal_number (x y : F32) :
    keysEqual (.Number x) (.Number y) = F32.eq x y := by
  simp [keysEqual, Object.HashKey, HashKey.equal, HashValue.equal]

theorem hashGet_hashSet (pairs : List (HashKey × HashPair)) (k1 k2 : HashKey) (p : HashPair)
    (h : k1.equal k2 = true) : hashGet (hashSet pairs k1 p) k2 = some p := by
  simp [hashGet, hashSet, List.find?, h]

/-- C12: the HashKeys of two hashable objects are equal exactly when the objects
are of the same kind and have the same value.  For two Numbers that hold real
numbers the keys are equal exactly when the two real numbers are equal (so the
keys of `+0` and `-0` are equal, and those of 4 and 4.5 are not); for any two
Numbers the keys are equal exactly when `==` holds of the Numbers, which it
never does of a NaN.  For two Booleans and for two Strings the keys are equal
exactly when the values are, so two different Strings never share a key, and
the keys of objects of different kinds are never equal.  A key built from a
newly made object, the Number that `2 + 2` gives or the String `three` put
together from two parts, finds the pair stored under an equal key. -/
theorem C12_hash_key_is_value_equality :
    (∀ (x y : F32) (p q : ℚ), x.value = some p → y.value = some q →
      (keysEqual (.Number x) (.Number y) = true ↔ p = q)) ∧
    (∀ x y : F32, keysEqual (.Number x) (.Number y) = F32.eq x y) ∧
    (keysEqual (.Number ⟨0⟩) (.Number ⟨0x80000000⟩) = true ∧
      keysEqual (.Number ⟨0x40800000⟩) (.Number ⟨0x40900000⟩) = false ∧
      ∀ x : F32, x.isNaN = true → keysEqual (.Number x) (.Number x) = false) ∧
    (∀ x y : Bool, keysEqual (.Boolean x) (.Boolean y) = true ↔ x = y) ∧
    (∀ x y : String, keysEqual (.String x) (.String y) = true ↔ x = y) ∧
    (∀ (x : F32) (b : Bool) (s : String),
      keysEqual (.Number x) (.Boolean b) = false ∧ keysEqual (.Boolean b) (.Number x) = false ∧
      keysEqual (.Number x) (.String s) = false ∧ keysEqual (.String s) (.Number x) = false ∧
      keysEqual (.Boolean b) (.String s) = false ∧ keysEqual (.String s) (.Boolean b) = false) ∧
    (∀ (a b : Object) (ka kb : HashKey) (pairs : List (HashKey × HashPair)) (p : HashPair),
      a.HashKey = some ka → b.HashKey = some kb → keysEqual a b = true →
      hashGet (hashSet pairs ka p) kb = some p) ∧
    (∀ (pairs : List (HashKey × HashPair)) (p : HashPair) (k4 kSum k3 kParts : HashKey),
      (Object.Number ⟨0x40800000⟩).HashKey = some k4 →
      (Object.Number (F32.add ⟨0x40000000⟩ ⟨0x40000000⟩)).HashKey = some kSum →
      (Object.String "three").HashKey = some k3 →
      (Object.String ("thr" ++ "ee")).HashKey = some kParts →
      hashGet (hashSet pairs k4 p) kSum = some p ∧
      hashGet (hashSet pairs k3 p) kParts = some p) := by
  refine ⟨?_, HashKey_equal_number, ⟨?_, ?_, ?_⟩, ?_, ?_, ?_, ?_, ?_⟩
  · intro x y p q hx hy
    rw [HashKey_equal_number, (F32.compare_of_value hx hy).2.2.2.2.1]
    simp
  · rw [HashKey_equal_number]; decide
  · rw [HashKey_equal_number]; decide
  · intro x hx
    rw [HashKey_equal_number]
    simp [F32.eq, hx]
  · intro x y
    cases x <;> cases y <;> simp [keysEqual, Object.HashKey, HashKey.equal, HashValue.equal]
  · intro x y
    simp [keysEqual, Object.HashKey, HashKey.equal, HashValue.equal]
  · intro x b s
    simp [keysEqual, Object.HashKey, HashKey.equal, HashValue.equal]
  · intro a b ka kb pairs p ha hb hab
    apply hashGet_hashSet
    simpa [keysEqual, ha, hb] using hab
  · intro pairs p k4 kSum k3 kParts h4 hSum h3 hParts
    simp only [Object.HashKey, Option.some.injEq] at h4 hSum h3 hParts
    subst h4 hSum h3 hParts
    constructor
    · apply hashGet_hashSet
      decide
    · apply hashGet_hashSet
      decide

/-! ## Theorems: scopes -/

theorem setIn_length (envs : List Environment) (c : Nat) (x : String) (v : Object) :
    (setIn envs c x v).length = envs.length := by
  induction envs generalizing c with
  | nil => rfl
  | cons e es ih =>
    cases c with
    | zero => rfl
    | succ n => simp [setIn, ih]

theorem setIn_get?_ne (envs : List Environment) (c i : Nat) (x : String) (v : Object)
    (h : i ≠ c) : (setIn envs c x v).get? i = envs.get? i := by
  induction envs generalizing c i with
  | nil => rfl
  | cons e es ih =>
    cases c with
    | zero =>
      cases i with
      | zero => exact absurd rfl h
      | succ j => rfl
    | succ n =>
      cases i with
      | zero => rfl
      | succ j =>
        simp only [setIn, List.get?_cons_succ]
        exact ih n j (fun hj => h (by rw [hj]))

theorem setIn_get?_eq (envs : List Environment) (c : Nat) (e : Environment) (x : String)
    (v : Object) (h : envs.get? c = some e) :
    (setIn envs c x v).get? c
      = some ⟨(x, v) :: e.store.filter (fun p => p.1 != x), e.outer⟩ := by
  induction envs generalizing c with
  | nil => simp at h
  | cons e0 es ih =>
    cases c with
    | zero =>
      simp only [List.get?_cons_zero, Option.some.injEq] at h
      subst h
      rfl
    | succ n =>
      simp only [List.get?_cons_succ] at h
      simp only [setIn, List.get?_cons_succ]
      exact ih n h

theorem wellFormedFrom_iff (envs : List Environment) (k : Nat) :
    wellFormedFrom k envs = true ↔
      ∀ (i : Nat) (e : Environment) (o : Nat),
        envs.get? i = some e → e.outer = some o → o < k + i := by
  induction envs generalizing k with
  | nil => simp [wellFormedFrom]
  | cons e0 es ih =>
    simp only [wellFormedFrom, Bool.and_eq_true, ih]
    constructor
    · rintro ⟨h0, hrest⟩ i e o hget hout
      cases i with
      | zero =>
        simp only [List.get?_cons_zero, Option.some.injEq] at hget
        subst hget
        rw [hout] at h0
        have h1 : o < k := by simpa using h0
        omega
      | succ j =>
        simp only [List.get?_cons_succ] at hget
        have := hrest j e o hget hout
        omega
    · intro h
      refine ⟨?_, fun i e o hget hout => ?_⟩
      · cases hout : e0.outer with
        | none => rfl
        | some o =>
          have := h 0 e0 o rfl hout
          simpa using this
      · have := h (i + 1) e o (by simpa using hget) hout
        omega

theorem WellFormed_iff (w : World) :
    w.WellFormed ↔
      ∀ (i : Nat) (e : Environment) (o : Nat), w.envs.get? i = some e → e.outer = some o → o < i := by
  unfold World.WellFormed
  rw [wellFormedFrom_iff]
  simp

theorem getFrom_agree (envs1 envs2 : List Environment) (name : String) :
    ∀ (d1 d2 : Nat) (i : Nat),
      (∀ (j : Nat) (e : Environment) (o : Nat),
        j ≤ i → envs1.get? j = some e → e.outer = some o → o < j) →
      (∀ j, j ≤ i → envs1.get? j = envs2.get? j) → i < d1 → i < d2 →
      getFrom envs1 d1 i name = getFrom envs2 d2 i name := by
  intro d1
  induction d1 with
  | zero => intro d2 i _ _ h _; omega
  | succ a ih =>
    intro d2 i hwf hag h1 h2
    cases d2 with
    | zero => omega
    | succ b =>
      simp only [getFrom]
      rw [← hag i (Nat.le_refl i)]
      cases hget : envs1.get? i with
      | none => rfl
      | some e =>
        simp only []
        cases e.store.lookup name with
        | some v => rfl
        | none =>
          simp only []
          cases hout : e.outer with
          | none => rfl
          | some o =>
            have ho := hwf i e o (Nat.le_refl i) hget hout
            simp only []
            exact ih b o (fun j e2 o2 hj => hwf j e2 o2 (by omega))
              (fun j hj => hag j (by omega)) (by omega) (by omega)

theorem Get_Set_same (w : World) (c : Nat) (e : Environment) (x : String) (v : Object)
    (hc : w.envs.get? c = some e) : Get (Set w c x v) c x = some v := by
  have hlt : c < w.envs.length := by
    by_contra hcon
    rw [List.get?_eq_none.mpr (Nat.le_of_not_lt hcon)] at hc
    exact absurd hc (by simp)
  unfold Get Set
  simp only [setIn_length]
  obtain ⟨d, hd⟩ : ∃ d, w.envs.length = d + 1 := ⟨w.envs.length - 1, by omega⟩
  rw [hd]
  simp only [getFrom]
  rw [setIn_get?_eq _ _ _ _ _ hc]
  simp [List.lookup]

theorem Get_of_KeepsScopes (w w2 : World) (p : Nat) (name : String)
    (hwf : w.WellFormed) (hp : p < w.envs.length) (hk : KeepsScopes w w2) :
    Get w2 p name = Get w p name := by
  have hwf2 := (WellFormed_iff w).mp hwf
  unfold Get
  symm
  exact getFrom_agree w.envs w2.envs name _ _ p (fun j e o _ => hwf2 j e o)
    (fun j hj => (hk.2 j (by omega)).symm) hp (by have := hk.1; omega)

theorem Get_Set_outer (w : World) (c p : Nat) (e : Environment) (x : String) (v : Object)
    (hwf : w.WellFormed) (hc : w.envs.get? c = some e) (hp : e.outer = some p) (name : String) :
    Get (Set w c x v) p name = Get w p name := by
  have hwf2 := (WellFormed_iff w).mp hwf
  have hpc := hwf2 c e p hc hp
  have hlt : c < w.envs.length := by
    by_contra hcon
    rw [List.get?_eq_none.mpr (Nat.le_of_not_lt hcon)] at hc
    exact absurd hc (by simp)
  unfold Get Set
  simp only [setIn_length]
  symm
  exact getFrom_agree w.envs _ name _ _ p (fun j e o _ => hwf2 j e o)
    (fun j hj => (setIn_get?_ne _ _ _ _ _ (by omega)).symm) (by omega) (by omega)

theorem WellFormed_Set (w : World) (c : Nat) (x : String) (v : Object)
    (hwf : w.WellFormed) : (Set w c x v).WellFormed := by
  rw [WellFormed_iff] at hwf ⊢
  intro i e o hget hout
  by_cases hic : i = c
  · subst hic
    cases hold : w.envs.get? i with
    | none =>
      have hlen : w.envs.length ≤ i := List.get?_eq_none.mp hold
      have : (Set w i x v).envs.get? i = none := by
        apply List.get?_eq_none.mpr
        simp only [Set, setIn_length]
        exact hlen
      rw [this] at hget
      exact absurd hget (by simp)
    | some e0 =>
      have h2 : (Set w i x v).envs.get? i = _ := setIn_get?_eq _ _ _ x v hold
      rw [h2] at hget
      simp only [Option.some.injEq] at hget
      subst hget
      exact hwf i e0 o hold hout
  · have h2 : (Set w c x v).envs.get? i = w.envs.get? i := setIn_get?_ne _ _ _ _ _ hic
    rw [h2] at hget
    exact hwf i e o hget hout

theorem WellFormed_NewEnclosedEnvironment (w : World) (outer : Nat)
    (hwf : w.WellFormed) (ho : outer < w.envs.length) :
    (NewEnclosedEnvironment w outer).2.WellFormed := by
  rw [WellFormed_iff] at hwf ⊢
  intro i e o hget hout
  simp only [NewEnclosedEnvironment, List.get?_eq_getElem?] at hget
  by_cases hi : i < w.envs.length
  · rw [List.getElem?_append_left hi, ← List.get?_eq_getElem?] at hget
    exact hwf i e o hget hout
  · rw [List.getElem?_append_right (Nat.le_of_not_lt hi)] at hget
    cases hsub : i - w.envs.length with
    | zero =>
      rw [hsub] at hget
      simp only [List.getElem?_cons_zero, Option.some.injEq] at hget
      subst hget
      simp only [Option.some.injEq] at hout
      subst hout
      omega
    | succ n =>
      rw [hsub] at hget
      simp at hget
theorem FrameOf_refl (env : Nat) (w : World) : FrameOf env w w :=
  ⟨Nat.le_refl _, fun _ _ _ => rfl⟩

theorem FrameOf_trans {env : Nat} {w w1 w2 : World} (h1 : FrameOf env w w1)
    (h2 : FrameOf env w1 w2) : FrameOf env w w2 :=
  ⟨Nat.le_trans h1.1 h2.1, fun i hi hne =>
    (h2.2 i (Nat.lt_of_lt_of_le hi h1.1) hne).trans (h1.2 i hi hne)⟩

theorem FrameOf_of_KeepsScopes {env : Nat} {w w2 : World} (h : KeepsScopes w w2) :
    FrameOf env w w2 :=
  ⟨h.1, fun i hi _ => h.2 i hi⟩

theorem FrameOf_Set (env : Nat) (w : World) (x : String) (v : Object) :
    FrameOf env w (Set w env x v) :=
  ⟨Nat.le_of_eq (setIn_length _ _ _ _).symm, fun _ _ hne => setIn_get?_ne _ _ _ _ _ hne⟩

theorem FrameOf_of_eq {env : Nat} {w w1 w2 : World} {a b : Object} (f : FrameOf env w w1)
    (h : some (a, w1) = some (b, w2)) : FrameOf env w w2 := by
  obtain ⟨_, rfl⟩ := Prod.mk.inj (Option.some.inj h)
  exact f

theorem bindParameters_kept (env : Nat) (params : List Identifier) (args : List Object)
    (w : World) :
    (bindParameters w env params args).envs.length = w.envs.length ∧
      ∀ i, i ≠ env → (bindParameters w env params args).envs.get? i = w.envs.get? i := by
  induction params generalizing w args with
  | nil => exact ⟨rfl, fun _ _ => rfl⟩
  | cons p ps ih =>
    cases args with
    | nil => exact ⟨rfl, fun _ _ => rfl⟩
    | cons a as =>
      simp only [bindParameters]
      obtain ⟨h1, h2⟩ := ih as (Set w env p.Value a)
      refine ⟨h1.trans (setIn_length _ _ _ _), fun i hne => ?_⟩
      rw [h2 i hne]
      exact setIn_get?_ne _ _ _ _ _ hne

theorem callBuiltin_envs (H : Host) (fn : BuiltinFunction) (line : Int) (args : List Object)
    (w : World) : (callBuiltin H fn line args w).2.envs = w.envs := by
  cases fn <;> simp only [callBuiltin] <;> split <;> first | rfl | (split <;> rfl)

theorem evalStatements_frame {ev : Node → EnvRef → World → Result} (hev : Framed ev)
    (stmts : List Statement) (env : Nat) (w : World) (last r : Object) (w2 : World)
    (h : evalStatements ev stmts env w last = some (r, w2)) : FrameOf env w w2 := by
  induction stmts generalizing w last with
  | nil =>
    simp only [evalStatements] at h
    exact FrameOf_of_eq (FrameOf_refl env w) h
  | cons s rest ih =>
    simp only [evalStatements] at h
    cases h1 : ev (.Statement s) env w with
    | none => simp [h1] at h
    | some p =>
      obtain ⟨v, w1⟩ := p
      have f1 := hev _ _ _ _ _ h1
      simp only [h1] at h
      by_cases hc : v.Type = RETURN ∨ v.Type = ERROR
      · simp only [hc, if_true] at h
        exact FrameOf_of_eq f1 h
      · simp only [hc, if_false] at h
        exact FrameOf_trans f1 (ih _ _ h)

theorem evalExpressions_frame {ev : Node → EnvRef → World → Result} (hev : Framed ev)
    (es : List Expression) (env : Nat) (w : World) (r : Except Object (List Object))
    (w2 : World) (h : evalExpressions ev es env w = some (r, w2)) : FrameOf env w w2 := by
  induction es generalizing w r w2 with
  | nil =>
    simp only [evalExpressions] at h
    obtain ⟨_, rfl⟩ := Prod.mk.inj (Option.some.inj h)
    exact FrameOf_refl env w
  | cons e rest ih =>
    simp only [evalExpressions] at h
    cases h1 : ev (.Expression e) env w with
    | none => simp [h1] at h
    | some p =>
      obtain ⟨v, w1⟩ := p
      have f1 := hev _ _ _ _ _ h1
      simp only [h1] at h
      by_cases hc : isError v = true
      · simp only [hc, if_true] at h
        obtain ⟨_, rfl⟩ := Prod.mk.inj (Option.some.inj h)
        exact f1
      · simp only [hc] at h
        cases h2 : evalExpressions ev rest env w1 with
        | none => simp [h2] at h
        | some q =>
          obtain ⟨res, w3⟩ := q
          have f2 := ih _ _ _ h2
          simp only [h2] at h
          cases res with
          | error err =>
            simp only [] at h
            obtain ⟨_, rfl⟩ := Prod.mk.inj (Option.some.inj h)
            exact FrameOf_trans f1 f2
          | ok vs =>
            simp only [] at h
            obtain ⟨_, rfl⟩ := Prod.mk.inj (Option.some.inj h)
            exact FrameOf_trans f1 f2

theorem evalStatement_frame {ev : Node → EnvRef → World → Result} (hev : Framed ev)
    (s : Statement) (env : Nat) (w : World) (r : Object) (w2 : World)
    (h : evalStatement ev s env w = some (r, w2)) : FrameOf env w w2 := by
  cases s with
  | Let line name value =>
    simp only [evalStatement] at h
    cases h1 : ev (.Expression value) env w with
    | none => simp [h1] at h
    | some p =>
      obtain ⟨v, w1⟩ := p
      have f1 := hev _ _ _ _ _ h1
      simp only [h1] at h
      by_cases hc : isError v = true
      · simp only [hc, if_true] at h
        exact FrameOf_of_eq f1 h
      · simp only [hc] at h
        exact FrameOf_of_eq (FrameOf_trans f1 (FrameOf_Set env w1 name.Value v)) h
  | Return line value =>
    simp only [evalStatement] at h
    cases h1 : ev (.Expression value) env w with
    | none => simp [h1] at h
    | some p =>
      obtain ⟨v, w1⟩ := p
      have f1 := hev _ _ _ _ _ h1
      simp only [h1] at h
      by_cases hc : isError v = true
      · simp only [hc, if_true] at h
        exact FrameOf_of_eq f1 h
      · simp only [hc] at h
        exact FrameOf_of_eq f1 h
  | ExpressionStatement line e => exact hev _ _ _ _ _ h

theorem applyFunction_keeps (H : Host) {ev : Node → EnvRef → World → Result} (hev : Framed ev)
    (line : Int) (fn : Object) (args : List Object) (w : World) (r : Object) (w2 : World)
    (h : applyFunction H ev line fn args w = some (r, w2)) : KeepsScopes w w2 := by
  have hrefl : KeepsScopes w w := ⟨Nat.le_refl _, fun _ _ => rfl⟩
  cases fn with
  | Function params body fenv =>
    simp only [applyFunction, NewEnclosedEnvironment] at h
    cases h1 : ev (.Block body) w.envs.length
        (bindParameters ⟨w.envs ++ [⟨[], some fenv⟩], w.out⟩ w.envs.length params args) with
    | none => simp [h1] at h
    | some p =>
      obtain ⟨r0, w3⟩ := p
      have f1 := hev _ _ _ _ _ h1
      simp only [h1] at h
      obtain ⟨_, rfl⟩ := Prod.mk.inj (Option.some.inj h)
      obtain ⟨hb1, hb2⟩ := bindParameters_kept w.envs.length params args
        ⟨w.envs ++ [⟨[], some fenv⟩], w.out⟩
      have hlen : (bindParameters ⟨w.envs ++ [⟨[], some fenv⟩], w.out⟩ w.envs.length
          params args).envs.length = w.envs.length + 1 := by
        rw [hb1]; simp
      refine ⟨by have := f1.1; omega, fun i hi => ?_⟩
      rw [f1.2 i (by omega) (by omega), hb2 i (by omega)]
      simp only [List.get?_eq_getElem?]
      exact List.getElem?_append_left hi
  | Builtin b =>
    simp only [applyFunction] at h
    have e := callBuiltin_envs H b line args w
    rw [Option.some.inj h] at e
    exact ⟨Nat.le_of_eq (by rw [e]), fun i _ => by rw [e]⟩
  | Number _ => simp only [applyFunction] at h; obtain ⟨_, rfl⟩ := Prod.mk.inj (Option.some.inj h); exact hrefl
  | Boolean _ => simp only [applyFunction] at h; obtain ⟨_, rfl⟩ := Prod.mk.inj (Option.some.inj h); exact hrefl
  | Null => simp only [applyFunction] at h; obtain ⟨_, rfl⟩ := Prod.mk.inj (Option.some.inj h); exact hrefl
  | ReturnValue _ => simp only [applyFunction] at h; obtain ⟨_, rfl⟩ := Prod.mk.inj (Option.some.inj h); exact hrefl
  | Error _ _ => simp only [applyFunction] at h; obtain ⟨_, rfl⟩ := Prod.mk.inj (Option.some.inj h); exact hrefl
  | String _ => simp only [applyFunction] at h; obtain ⟨_, rfl⟩ := Prod.mk.inj (Option.some.inj h); exact hrefl
  | Array _ => simp only [applyFunction] at h; obtain ⟨_, rfl⟩ := Prod.mk.inj (Option.some.inj h); exact hrefl
theorem evalExpression_frame (H : Host) {ev : Node → EnvRef → World → Result} (hev : Framed ev)
    (e : Expression) (env : Nat) (w : World) (r : Object) (w2 : World)
    (h : evalExpression H ev e env w = some (r, w2)) : FrameOf env w w2 := by
  cases e with
  | Ident name =>
    simp only [evalExpression] at h
    exact FrameOf_of_eq (FrameOf_refl env w) h
  | NumberLiteral _ v =>
    simp only [evalExpression] at h
    exact FrameOf_of_eq (FrameOf_refl env w) h
  | BooleanLiteral _ v =>
    simp only [evalExpression] at h
    exact FrameOf_of_eq (FrameOf_refl env w) h
  | StringLiteral _ v =>
    simp only [evalExpression] at h
    exact FrameOf_of_eq (FrameOf_refl env w) h
  | FunctionLiteral _ ps b =>
    simp only [evalExpression] at h
    exact FrameOf_of_eq (FrameOf_refl env w) h
  | ArrayLiteral _ elems =>
    simp only [evalExpression] at h
    cases h1 : evalExpressions ev elems env w with
    | none => simp [h1] at h
    | some p =>
      obtain ⟨res, w1⟩ := p
      have f1 := evalExpressions_frame hev _ _ _ _ _ h1
      simp only [h1] at h
      cases res with
      | error err => exact FrameOf_of_eq f1 h
      | ok vs => exact FrameOf_of_eq f1 h
  | Prefix line op right =>
    simp only [evalExpression] at h
    cases h1 : ev (.Expression right) env w with
    | none => simp [h1] at h
    | some p =>
      obtain ⟨v, w1⟩ := p
      have f1 := hev _ _ _ _ _ h1
      simp only [h1] at h
      by_cases hc : isError v = true
      · simp only [hc, if_true] at h
        exact FrameOf_of_eq f1 h
      · simp only [hc] at h
        exact FrameOf_of_eq f1 h
  | Infix line left op right =>
    simp only [evalExpression] at h
    cases h1 : ev (.Expression left) env w with
    | none => simp [h1] at h
    | some p =>
      obtain ⟨l, w1⟩ := p
      have f1 := hev _ _ _ _ _ h1
      simp only [h1] at h
      by_cases hc : isError l = true
      · simp only [hc, if_true] at h
        exact FrameOf_of_eq f1 h
      · simp only [hc] at h
        cases h2 : ev (.Expression right) env w1 with
        | none => simp [h2] at h
        | some q =>
          obtain ⟨v, w3⟩ := q
          have f2 := FrameOf_trans f1 (hev _ _ _ _ _ h2)
          simp only [h2] at h
          by_cases hc2 : isError v = true
          · simp only [hc2, if_true] at h
            exact FrameOf_of_eq f2 h
          · simp only [hc2] at h
            exact FrameOf_of_eq f2 h
  | Logical line left op right =>
    simp only [evalExpression] at h
    cases h1 : ev (.Expression left) env w with
    | none => simp [h1] at h
    | some p =>
      obtain ⟨l, w1⟩ := p
      have f1 := hev _ _ _ _ _ h1
      simp only [h1] at h
      by_cases hc : isError l = true
      · simp only [hc, if_true] at h
        exact FrameOf_of_eq f1 h
      · simp only [hc] at h
        by_cases hor : op = LogicalOperator.Or ∧ isTruthy l = true
        · simp only [hor, and_self, if_true] at h
          exact FrameOf_of_eq f1 h
        · simp only [hor] at h
          by_cases hand : op = LogicalOperator.And ∧ isTruthy l = false
          · simp only [hand, and_self, if_true] at h
            exact FrameOf_of_eq f1 h
          · simp only [hand] at h
            cases h2 : ev (.Expression right) env w1 with
            | none => simp [h2] at h
            | some q =>
              obtain ⟨v, w3⟩ := q
              have f2 := FrameOf_trans f1 (hev _ _ _ _ _ h2)
              simp only [h2] at h
              by_cases hc2 : isError v = true
              · simp only [hc2, if_true] at h
                exact FrameOf_of_eq f2 h
              · simp only [hc2] at h
                exact FrameOf_of_eq f2 h
  | If line cond cons alt =>
    simp only [evalExpression] at h
    cases h1 : ev (.Expression cond) env w with
    | none => simp [h1] at h
    | some p =>
      obtain ⟨c, w1⟩ := p
      have f1 := hev _ _ _ _ _ h1
      simp only [h1] at h
      by_cases hc : isError c = true
      · simp only [hc, if_true] at h
        exact FrameOf_of_eq f1 h
      · simp only [hc] at h
        by_cases ht : isTruthy c = true
        · simp only [ht, if_true] at h
          exact FrameOf_trans f1 (hev _ _ _ _ _ h)
        · simp only [ht] at h
          cases alt with
          | none => exact FrameOf_of_eq f1 h
          | some a => exact FrameOf_trans f1 (hev _ _ _ _ _ h)
  | Call line fn args =>
    simp only [evalExpression] at h
    cases h1 : ev (.Expression fn) env w with
    | none => simp [h1] at h
    | some p =>
      obtain ⟨f, w1⟩ := p
      have f1 := hev _ _ _ _ _ h1
      simp only [h1] at h
      by_cases hc : isError f = true
      · simp only [hc, if_true] at h
        exact FrameOf_of_eq f1 h
      · simp only [hc] at h
        cases h2 : evalExpressions ev args env w1 with
        | none => simp [h2] at h
        | some q =>
          obtain ⟨res, w3⟩ := q
          have f2 := FrameOf_trans f1 (evalExpressions_frame hev _ _ _ _ _ h2)
          simp only [h2] at h
          cases res with
          | error err => exact FrameOf_of_eq f2 h
          | ok vs =>
            exact FrameOf_trans f2
              (FrameOf_of_KeepsScopes (applyFunction_keeps H hev _ _ _ _ _ _ h))
  | Index line left index =>
    simp only [evalExpression] at h
    cases h1 : ev (.Expression left) env w with
    | none => simp [h1] at h
    | some p =>
      obtain ⟨l, w1⟩ := p
      have f1 := hev _ _ _ _ _ h1
      simp only [h1] at h
      by_cases hc : isError l = true
      · simp only [hc, if_true] at h
        exact FrameOf_of_eq f1 h
      · simp only [hc] at h
        cases h2 : ev (.Expression index) env w1 with
        | none => simp [h2] at h
        | some q =>
          obtain ⟨v, w3⟩ := q
          have f2 := FrameOf_trans f1 (hev _ _ _ _ _ h2)
          simp only [h2] at h
          by_cases hc2 : isError v = true
          · simp only [hc2, if_true] at h
            exact FrameOf_of_eq f2 h
          · simp only [hc2] at h
            exact FrameOf_of_eq f2 h

theorem Eval_frame (H : Host) (fuel : Nat) : Framed (Eval H fuel) := by
  induction fuel with
  | zero => intro node env w r w2 h; simp [Eval] at h
  | succ n ih =>
    intro node env w r w2 h
    cases node with
    | Program stmts =>
      have h0 : evalProgram (Eval H n) stmts env w = some (r, w2) := h
      simp only [evalProgram] at h0
      cases h1 : evalStatements (Eval H n) stmts env w .Null with
      | none => simp [h1] at h0
      | some p =>
        obtain ⟨v, w1⟩ := p
        have f1 := evalStatements_frame ih _ _ _ _ _ _ h1
        simp only [h1] at h0
        exact FrameOf_of_eq f1 h0
    | Statement s => exact evalStatement_frame ih _ _ _ _ _ h
    | Block b => exact evalStatements_frame ih _ _ _ _ _ _ h
    | Expression e => exact evalExpression_frame H ih _ _ _ _ _ h

/-- C14: in a world whose scopes were each created after their parent, for every
scope `c` with a parent `p`, after `c.Set(x, v)` the lookup `c.Get(x)` finds `v`
and every lookup through `p` returns what it returned before.  So
`let a = 10; let a = a * 2; a;` gives the Number 20; and a call of a Function
that captured any scope `p` of the world, the first call of a program too, leaves
every lookup through `p` as it was, whatever `let` statements its body runs,
because the body runs in a new child scope of `p`: in
`let a = 5; let f = fn() { let a = 9; a }; [f(), a]` the call gives 9 and `a` is
still 5. -/
theorem C14_set_is_local (w : World) (x : String) (v : Object) (hwf : w.WellFormed) :
    (∀ (c p : Nat) (e : Environment), w.envs.get? c = some e → e.outer = some p →
      Get (Set w c x v) c x = some v ∧
      (∀ name : String, Get (Set w c x v) p name = Get w p name)) ∧
    (∀ c : Nat, (Set w c x v).WellFormed) ∧
    ((F32.mk 0x41A00000).value = some 20 ∧
      ∀ H : Host, testEval H 5
        [.Let 1 ⟨1, "a"⟩ (.NumberLiteral 1 ⟨0x41200000⟩),
         .Let 1 ⟨1, "a"⟩ (.Infix 1 (.Ident ⟨1, "a"⟩) "*" (.NumberLiteral 1 ⟨0x40000000⟩)),
         .ExpressionStatement 1 (.Ident ⟨1, "a"⟩)]
        = some (.Number ⟨0x41A00000⟩)) ∧
    (∀ (H : Host) (fuel : Nat) (line : Int) (params : List Identifier) (body : BlockStatement)
      (p : Nat) (args : List Object) (r : Object) (w2 : World), p < w.envs.length →
      applyFunction H (Eval H fuel) line (.Function params body p) args w = some (r, w2) →
      ∀ name : String, Get w2 p name = Get w p name) ∧
    (∀ H : Host, testEval H 8
      [.Let 1 ⟨1, "a"⟩ lit5,
       .Let 1 ⟨1, "f"⟩ (.FunctionLiteral 1 []
          (.mk 1 [.Let 1 ⟨1, "a"⟩ lit9, .ExpressionStatement 1 (.Ident ⟨1, "a"⟩)])),
       .ExpressionStatement 1 (.ArrayLiteral 1 [.Call 1 (.Ident ⟨1, "f"⟩) [], .Ident ⟨1, "a"⟩])]
      = some (.Array [some (.Number ⟨0x41100000⟩), some (.Number ⟨0x40A00000⟩)])) := by
  refine ⟨fun c p e hc hp => ⟨Get_Set_same w c e x v hc, Get_Set_outer w c p e x v hwf hc hp⟩,
    fun c => WellFormed_Set w c x v hwf, ⟨?_, fun H => rfl⟩, ?_, fun H => rfl⟩
  · simp [F32.value, F32.exponent, F32.sign, F32.significand, F32.scale, F32.fraction]
    norm_num
  · intro H fuel line params body p args r w2 hp h name
    exact Get_of_KeepsScopes w w2 p name hwf hp
      (applyFunction_keeps H (Eval_frame H fuel) _ _ _ _ _ _ h)

/-- C14 at a root scope that binds `a` to 5 and its child scope: after the child
binds `a` to 9, the child finds 9 and the root still finds 5.  And at the world
that has the root scope alone, binding `a` to 5: the first call of
`fn() { let a = 9; a }`, which captured the root scope, gives 9 and leaves a
world in which the root still finds 5. -/
theorem C14_set_is_local_witness :
    Get (Set twoScopes 1 "a" (.Number ⟨0x41100000⟩)) 1 "a" = some (.Number ⟨0x41100000⟩) ∧
    Get (Set twoScopes 1 "a" (.Number ⟨0x41100000⟩)) 0 "a" = some (.Number ⟨0x40A00000⟩) ∧
    applyFunction demoHost (Eval demoHost 4) 1
      (.Function [] (.mk 1 [.Let 1 ⟨1, "a"⟩ lit9, .ExpressionStatement 1 (.Ident ⟨1, "a"⟩)]) 0) []
      rootScope = some (.Number ⟨0x41100000⟩, afterCall) ∧
    Get afterCall 0 "a" = some (.Number ⟨0x40A00000⟩) := by
  have h := C14_set_is_local twoScopes "a" (.Number ⟨0x41100000⟩) (by rfl)
  have h0 := C14_set_is_local rootScope "a" .Null (by rfl)
  have hcall : applyFunction demoHost (Eval demoHost 4) 1
      (.Function [] (.mk 1 [.Let 1 ⟨1, "a"⟩ lit9, .ExpressionStatement 1 (.Ident ⟨1, "a"⟩)]) 0) []
      rootScope = some (.Number ⟨0x41100000⟩, afterCall) := by rfl
  have hc := h.1 1 0 ⟨[], some 0⟩ (by rfl) (by rfl)
  refine ⟨hc.1, ?_, hcall, ?_⟩
  · rw [hc.2 "a"]
    rfl
  · rw [h0.2.2.2.1 demoHost 4 1 _ _ 0 _ _ _ (by decide) hcall "a"]
    rfl

end Monlox
